import Mathlib

/-!
# The reactive orchestration engine of `internal/engine/upper.go`

A shallow embedding of the reducer functions of `upper.go` (the engine state,
the dispatcher `maybeStartBuild`, the reducers `handleInitAction`,
`handleFSEvent`, `handlePodEvent`, `handleCompletedBuild`, the classifier
`onlySpuriousChanges` and the loop of `CreateManifests`) and of the log filter
of `internal/hud/log_filter.go`, followed by theorems
about them: the definitions come first, then lemmas on what each reducer does
to the state, then the claims `C1`, `C2`, ... in order, each with the concrete
input that refutes it where it fails on the code, and a concrete instance of
every theorem that has hypotheses.

Conventions of the embedding.

* The Go code mutates `*store.EngineState` in place; here every function takes
  the state and returns the new state.
* `ManifestStates` is a `map[ManifestName]*ManifestState`.  It is an
  association list here; reading a missing key gives the nil pointer, and the
  first field access through it panics.  A panic is the result `none`.
* `PendingFileChanges` is a `map[string]bool` whose values are always `true`;
  it is the duplicate-free list of its keys.  The order in which `range`
  visits a map is unspecified in Go: it is the oracle `Env.mapOrder`, which
  may return any permutation of the keys.
* Everything the reducers read from outside the state (the clock, the file
  system, the Tiltfile evaluator, the cluster client, helper functions of
  packages that are not part of the sources) is a field of `Env`; each step of
  a trace carries its own `Env`, so the outside world may change between
  steps.
* `time.Time` is an integer instant, `time.Time{}` is `0`.  The counters of
  type `int` are integers kept in the range of a 64-bit `int`: an increment
  wraps around as it does in Go (`wrapInt`).
-/

namespace Tilt

/-! ## Data model -/

abbrev ManifestName := String

abbrev Time := Int

/-- The value a Go `int` of 64 bits holds after an arithmetic operation whose
exact result is `x`: the result wraps around between `-2^63`
(-9223372036854775808) and `2^63 - 1` (9223372036854775807); `2^64` is
18446744073709551616. -/
def wrapInt (x : Int) : Int :=
  (x + 9223372036854775808) % 18446744073709551616 - 9223372036854775808

/-- A Go `error` value: its message and a tag standing for its dynamic type. -/
structure GoError where
  msg : String
  dyn : Nat
deriving DecidableEq, Repr

/-- The `model.Manifest` value: its name and its definition, which the engine
never inspects. -/
structure Manifest where
  Name : ManifestName
  Body : Nat
deriving DecidableEq, Repr

/-- The `k8s.LoadBalancerSpec` value, never inspected by the engine. -/
structure LoadBalancerSpec where
  id : Nat
deriving DecidableEq, Repr

/-- The `store.BuildResult` value: the deployed entities. -/
structure BuildResult where
  Entities : List Nat
deriving DecidableEq, Repr

/-- Modelled from the spec: the type `store.BuildState` (package `store` is
not among the sources): "clean, or derived from a prior successful result". -/
inductive BuildState where
  | BuildStateClean : BuildState
  | NewBuildState (r : BuildResult) : BuildState
deriving DecidableEq, Repr

/-- Modelled from the spec: the type `store.Pod`, `{Name, StartedAt, Status}`. -/
structure Pod where
  Name : String
  StartedAt : Time
  Status : String
deriving DecidableEq, Repr

/-- Modelled from the spec: the sentinel `store.UnknownPod` for a manifest with
no observed pod; it is the zero value of `Pod`. -/
def UnknownPod : Pod := { Name := "", StartedAt := 0, Status := "" }

/-- Modelled from the spec: the type `store.ManifestState`, with the fields the
reducers of `upper.go` read and write. -/
structure ManifestState where
  Manifest : Manifest
  PendingFileChanges : List String
  CurrentlyBuildingFileChanges : List String
  ConfigIsDirty : Bool
  LastBuild : BuildState
  LastError : Option GoError
  LastBuildFinishTime : Time
  LastBuildDuration : Int
  CurrentBuildStartTime : Time
  CurrentBuildLog : String
  LastBuildLog : String
  HasBeenBuilt : Bool
  QueueEntryTime : Time
  Pod : Pod
  Lbs : List LoadBalancerSpec
  LastSuccessfulDeployTime : Time
  LastSuccessfulDeployEdits : List String
deriving DecidableEq, Repr

/-- Modelled from the spec: the constructor `store.NewManifestState`: the
definition is the given manifest, the pending set is the empty map, the last
build is the clean sentinel, the pod is `UnknownPod`, every other field has its
zero value. -/
def NewManifestState (m : Manifest) : ManifestState :=
  { Manifest := m
    PendingFileChanges := []
    CurrentlyBuildingFileChanges := []
    ConfigIsDirty := false
    LastBuild := BuildState.BuildStateClean
    LastError := none
    LastBuildFinishTime := 0
    LastBuildDuration := 0
    CurrentBuildStartTime := 0
    CurrentBuildLog := ""
    LastBuildLog := ""
    HasBeenBuilt := false
    QueueEntryTime := 0
    Pod := UnknownPod
    Lbs := []
    LastSuccessfulDeployTime := 0
    LastSuccessfulDeployEdits := [] }

/-- Modelled from the spec: the type `store.EngineState`. -/
structure EngineState where
  ManifestStates : List (ManifestName × ManifestState)
  ManifestDefinitionOrder : List ManifestName
  ManifestsToBuild : List ManifestName
  CurrentlyBuilding : ManifestName
  WatchMounts : Bool
  CompletedBuildCount : Int
  InitialBuildCount : Int
  OpenBrowserOnNextLB : Bool
deriving DecidableEq, Repr

/-- Modelled from the spec: the state of a new store: no manifest, an empty
queue, nothing building, all counters zero. -/
def emptyState : EngineState :=
  { ManifestStates := []
    ManifestDefinitionOrder := []
    ManifestsToBuild := []
    CurrentlyBuilding := ""
    WatchMounts := false
    CompletedBuildCount := 0
    InitialBuildCount := 0
    OpenBrowserOnNextLB := false }

/-- The map read `m[k]` on `map[ManifestName]*ManifestState`; `none` is the nil
pointer. -/
def lookupMs : List (ManifestName × ManifestState) → ManifestName → Option ManifestState
  | [], _ => none
  | (k, v) :: rest, mn => if k = mn then some v else lookupMs rest mn

/-- The map write `m[k] = v`: replaces the entry of `k`, or adds one. -/
def setMs : List (ManifestName × ManifestState) → ManifestName → ManifestState →
    List (ManifestName × ManifestState)
  | [], mn, v => [(mn, v)]
  | (k, w) :: rest, mn, v => if k = mn then (k, v) :: rest else (k, w) :: setMs rest mn v

/-- The map write `set[f] = true` on a `map[string]bool` used as a set. -/
def setAdd (set : List String) (f : String) : List String :=
  if f ∈ set then set else set ++ [f]

/-! ## Actions -/

structure InitAction where
  WatchMounts : Bool
  Manifests : List Manifest

structure manifestFilesChangedAction where
  manifestName : ManifestName
  files : List String

/-- The fields of a `v1.Pod` that `handlePodEvent` reads. -/
structure V1Pod where
  Name : String
  Labels : List (String × String)
  CreationTimestamp : Time
  StatusData : Nat

structure BuildCompleteAction where
  Result : BuildResult
  Error : Option GoError

inductive BrowserMode where
  | BrowserAuto : BrowserMode
  | BrowserOff : BrowserMode
deriving DecidableEq, Repr

/-- The fields of `Upper` that the reducers read. -/
structure Upper where
  browserMode : BrowserMode

/-- What a reducer step observes outside the engine state. -/
structure Env where
  /-- The reading of `time.Now()` during the step. -/
  now : Time
  /-- The order in which `range` visits the keys of a map. -/
  mapOrder : List String → List String
  mapOrder_perm : ∀ l, (mapOrder l).Perm l
  /-- The result of `ospath.IsBrokenSymlink`. -/
  IsBrokenSymlink : String → Except GoError Bool
  /-- The result of `manifest.ConfigMatcher()`, and of `matcher.Matches(f, false)`. -/
  ConfigMatcher : Manifest → Except GoError (String → Bool × Option GoError)
  /-- The result of `tiltfile.Load`, and of `GetManifestConfigs` on the loaded file. -/
  tiltfileLoad : Except GoError (String → Except GoError (List Manifest))
  /-- The helper `isPermanentError` of package `engine`. -/
  isPermanentError : GoError → Bool
  /-- The function `k8s.ToLoadBalancerSpecs`. -/
  ToLoadBalancerSpecs : List Nat → List LoadBalancerSpec
  /-- The result of `k8s.OpenService`. -/
  OpenService : LoadBalancerSpec → Option GoError
  /-- The result of `makeManifestWatcher`. -/
  makeManifestWatcher : List Manifest → Option GoError
  /-- The result of `u.podWatcherMaker`. -/
  podWatcherMaker : Option GoError
  /-- The constant `ManifestNameLabel` of package `engine`. -/
  ManifestNameLabel : String
  /-- The helper `podStatusToString` of package `engine`. -/
  podStatusToString : V1Pod → String

/-- The arguments of the one `BuildAndDeploy` call of a launched build task. -/
structure BuildTask where
  manifest : Manifest
  lastBuild : BuildState
  filesChanged : List String
  firstBuild : Bool
deriving DecidableEq, Repr

/-! ## The reducers -/

/-- The function `enqueueBuild` (upper.go 328-331). -/
def enqueueBuild (env : Env) (state : EngineState) (mn : ManifestName) : Option EngineState :=
  match lookupMs state.ManifestStates mn with
  | none => none
  | some ms =>
    some { state with
      ManifestsToBuild := state.ManifestsToBuild ++ [mn]
      ManifestStates := setMs state.ManifestStates mn { ms with QueueEntryTime := env.now } }

/-- The loop body of `onlySpuriousChanges` over the keys in the order visited. -/
def spuriousLoop (env : Env) : List String → Bool × Option GoError
  | [] => (true, none)
  | f :: rest =>
    match env.IsBrokenSymlink f with
    | Except.error err => (false, some err)
    | Except.ok broken => if !broken then (false, none) else spuriousLoop env rest

/-- The function `onlySpuriousChanges` (upper.go 407-424). -/
def onlySpuriousChanges (env : Env) (filesChanged : List String) : Bool × Option GoError :=
  if filesChanged.length > 3 then (false, none)
  else spuriousLoop env (env.mapOrder filesChanged)

/-- The function `eventContainsConfigFiles` (upper.go 426-440). -/
def eventContainsConfigFiles (env : Env) (manifest : Manifest)
    (e : manifestFilesChangedAction) : Bool :=
  match env.ConfigMatcher manifest with
  | Except.error _ => false
  | Except.ok matcher =>
    e.files.any (fun f => (matcher f).1 && (matcher f).2.isNone)

/-- The function `getNewManifestFromTiltfile` (upper.go 442-457). -/
def getNewManifestFromTiltfile (env : Env) (name : ManifestName) : Except GoError Manifest :=
  match env.tiltfileLoad with
  | Except.error err => Except.error err
  | Except.ok t =>
    match t name with
    | Except.error err => Except.error err
    | Except.ok newManifests =>
      match newManifests with
      | [newManifest] => Except.ok newManifest
      | _ =>
        Except.error
          { msg := "Expected there to be 1 manifest for " ++ name ++ ", got " ++
              toString newManifests.length
            dyn := 0 }

/-- The first loop of `handleInitAction` (upper.go 364-367). -/
def initStates (state : EngineState) : List Manifest → EngineState
  | [] => state
  | m :: rest =>
    initStates
      { state with
        ManifestDefinitionOrder := state.ManifestDefinitionOrder ++ [m.Name]
        ManifestStates := setMs state.ManifestStates m.Name (NewManifestState m) }
      rest

/-- The second loop of `handleInitAction` (upper.go 389-391). -/
def enqueueAll (env : Env) (state : EngineState) : List Manifest → Option EngineState
  | [] => some state
  | m :: rest =>
    match enqueueBuild env state m.Name with
    | none => none
    | some state1 => enqueueAll env state1 rest

/-- The function `Upper.handleInitAction` (upper.go 359-398): the new state and
the returned error.  The image reaper it starts in watch mode does not touch
the engine state.  The length that `len` returns is the `int` of the same
value: no slice is longer than the largest `int`. -/
def handleInitAction (u : Upper) (env : Env) (state : EngineState) (action : InitAction) :
    Option (EngineState × Option GoError) :=
  let s1 := { initStates state action.Manifests with WatchMounts := action.WatchMounts }
  let watcherErr : Option GoError :=
    if action.WatchMounts then
      match env.makeManifestWatcher action.Manifests with
      | some err => some err
      | none => env.podWatcherMaker
    else none
  match watcherErr with
  | some err => some (s1, some err)
  | none =>
    match enqueueAll env s1 action.Manifests with
    | none => none
    | some s2 =>
      let s3 := { s2 with InitialBuildCount := (s2.ManifestsToBuild.length : Int) }
      let s4 :=
        if u.browserMode = BrowserMode.BrowserAuto then { s3 with OpenBrowserOnNextLB := true }
        else s3
      some (s4, none)

/-- The writes of `handleFSEvent` to the state of the manifest of the event
(upper.go 297-306). -/
def fsEventState (env : Env) (ms0 : ManifestState) (event : manifestFilesChangedAction) :
    ManifestState :=
  { ms0 with
    ConfigIsDirty :=
      if eventContainsConfigFiles env ms0.Manifest event then true else ms0.ConfigIsDirty
    PendingFileChanges := event.files.foldl setAdd ms0.PendingFileChanges }

/-- The function `handleFSEvent` (upper.go 289-326). -/
def handleFSEvent (env : Env) (state : EngineState) (event : manifestFilesChangedAction) :
    Option EngineState :=
  match lookupMs state.ManifestStates event.manifestName with
  | none => none
  | some ms0 =>
    let ms := fsEventState env ms0 event
    let state1 := { state with ManifestStates := setMs state.ManifestStates event.manifestName ms }
    if (onlySpuriousChanges env ms.PendingFileChanges).1 then some state1
    else if event.manifestName ∈ state.ManifestsToBuild then some state1
    else enqueueBuild env state1 event.manifestName

/-- The value of `pod.ObjectMeta.Labels[key]`: the empty string when absent. -/
def labelOf : List (String × String) → String → String
  | [], _ => ""
  | (k, v) :: rest, key => if k = key then v else labelOf rest key

/-- The function `handlePodEvent` (upper.go 333-357). -/
def handlePodEvent (env : Env) (state : EngineState) (pod : V1Pod) : EngineState :=
  let manifestName := labelOf pod.Labels env.ManifestNameLabel
  if manifestName = "" then state
  else
    let newPod : Pod :=
      { Name := pod.Name, StartedAt := pod.CreationTimestamp, Status := env.podStatusToString pod }
    match lookupMs state.ManifestStates manifestName with
    | none => state
    | some ms =>
      let oldPod := ms.Pod
      if oldPod = UnknownPod ∨ oldPod.Name = newPod.Name ∨ oldPod.StartedAt < newPod.StartedAt then
        { state with ManifestStates := setMs state.ManifestStates manifestName { ms with Pod := newPod } }
      else state

/-- The config reload of the dispatcher (upper.go 169-182): the state of the
manifest with the reloaded definition, or the error of the reload. -/
def reloadIfDirty (env : Env) (mn : ManifestName) (ms : ManifestState) :
    Except GoError ManifestState :=
  if ms.ConfigIsDirty then
    match getNewManifestFromTiltfile env mn with
    | Except.error err => Except.error err
    | Except.ok newManifest =>
      Except.ok { ms with
        LastBuild := BuildState.BuildStateClean
        Manifest := newManifest
        ConfigIsDirty := false }
  else Except.ok ms

/-- The writes of the dispatcher when the reload fails (upper.go 173-177). -/
def reloadFailed (env : Env) (ms : ManifestState) (err : GoError) : ManifestState :=
  { ms with LastError := some err, LastBuildFinishTime := env.now, LastBuildDuration := 0 }

/-- The snapshot of the changes and the start of the build (upper.go 184-199). -/
def snapshotChanges (env : Env) (ms : ManifestState) : ManifestState :=
  { ms with
    CurrentlyBuildingFileChanges :=
      ms.CurrentlyBuildingFileChanges ++ env.mapOrder ms.PendingFileChanges
    PendingFileChanges := []
    CurrentBuildStartTime := env.now
    HasBeenBuilt := true }

/-- The function `Upper.maybeStartBuild` (upper.go 157-209): the new state and the build
task launched, if one is.  The flag `HasBeenBuilt`, which the launched task
sets as its first action, is set here. -/
def maybeStartBuild (env : Env) (state : EngineState) : Option (EngineState × Option BuildTask) :=
  match state.ManifestsToBuild with
  | [] => some (state, none)
  | mn :: rest =>
    if state.CurrentlyBuilding ≠ "" then some (state, none)
    else
      match lookupMs state.ManifestStates mn with
      | none => none
      | some ms0 =>
        let ms1 := { ms0 with QueueEntryTime := 0 }
        match reloadIfDirty env mn ms1 with
        | Except.error err =>
          some
            ({ state with
                ManifestsToBuild := rest
                CurrentlyBuilding := ""
                ManifestStates := setMs state.ManifestStates mn (reloadFailed env ms1 err) },
             none)
        | Except.ok ms2 =>
          let ms3 := snapshotChanges env ms2
          some
            ({ state with
                ManifestsToBuild := rest
                CurrentlyBuilding := mn
                ManifestStates := setMs state.ManifestStates mn ms3 },
             some { manifest := ms2.Manifest, lastBuild := ms2.LastBuild,
                    filesChanged := ms3.CurrentlyBuildingFileChanges,
                    firstBuild := !ms2.HasBeenBuilt })

/-- The writes of `handleCompletedBuild` on every path (upper.go 229-234). -/
def buildFinished (env : Env) (cb : BuildCompleteAction) (ms : ManifestState) : ManifestState :=
  { ms with
    LastError := cb.Error
    LastBuildFinishTime := env.now
    LastBuildDuration := env.now - ms.CurrentBuildStartTime
    CurrentBuildStartTime := 0
    LastBuildLog := ms.CurrentBuildLog
    CurrentBuildLog := "" }

/-- The first writes of `handleCompletedBuild` on success (upper.go 246-248). -/
def deployRecorded (env : Env) (cb : BuildCompleteAction) (ms : ManifestState) : ManifestState :=
  { ms with
    LastSuccessfulDeployTime := env.now
    Lbs := env.ToLoadBalancerSpecs cb.Result.Entities }

/-- The last writes of `handleCompletedBuild` on success (upper.go 261-263). -/
def buildRecorded (cb : BuildCompleteAction) (ms : ManifestState) : ManifestState :=
  { ms with
    LastBuild := BuildState.NewBuildState cb.Result
    LastSuccessfulDeployEdits := ms.CurrentlyBuildingFileChanges
    CurrentlyBuildingFileChanges := [] }

/-- The engine state `handleCompletedBuild` leaves when it returns: the counter
incremented as a Go `int` (upper.go 218), the state of the manifest that was building, the
browser flag, and `CurrentlyBuilding` cleared by the deferred function
(upper.go 214-216). -/
def completedState (engineState : EngineState) (msEnd : ManifestState) (openBrowser : Bool) :
    EngineState :=
  { engineState with
    CompletedBuildCount := wrapInt (engineState.CompletedBuildCount + 1)
    ManifestStates := setMs engineState.ManifestStates engineState.CurrentlyBuilding msEnd
    OpenBrowserOnNextLB := openBrowser
    CurrentlyBuilding := "" }

/-- The function `Upper.handleCompletedBuild` (upper.go 211-287): the new state
and the returned error.  The log lines and the summary it prints in watch mode
do not touch the engine state. -/
def handleCompletedBuild (env : Env) (engineState : EngineState) (cb : BuildCompleteAction) :
    Option (EngineState × Option GoError) :=
  match lookupMs engineState.ManifestStates engineState.CurrentlyBuilding with
  | none => none
  | some ms0 =>
    let ms := buildFinished env cb ms0
    match cb.Error with
    | some err =>
      if env.isPermanentError err then
        some (completedState engineState ms engineState.OpenBrowserOnNextLB, some err)
      else if engineState.WatchMounts then
        some (completedState engineState ms engineState.OpenBrowserOnNextLB, none)
      else
        some (completedState engineState ms engineState.OpenBrowserOnNextLB,
          some { msg := "build failed: " ++ err.msg, dyn := 0 })
    | none =>
      let ms1 := deployRecorded env cb ms
      match ms1.Lbs with
      | lb :: _ =>
        if engineState.OpenBrowserOnNextLB then
          match env.OpenService lb with
          | some err =>
            some (completedState engineState ms1 engineState.OpenBrowserOnNextLB, some err)
          | none => some (completedState engineState (buildRecorded cb ms1) false, none)
        else
          some (completedState engineState (buildRecorded cb ms1) engineState.OpenBrowserOnNextLB,
            none)
      | [] =>
        some (completedState engineState (buildRecorded cb ms1) engineState.OpenBrowserOnNextLB,
          none)

/-! ## Traces of reducer steps -/

/-- One step of the reducer thread: an action applied by its reducer, or a call
of the dispatcher. -/
inductive Step where
  | init (a : InitAction) : Step
  | fs (e : manifestFilesChangedAction) : Step
  | pod (p : V1Pod) : Step
  | dispatch : Step
  | complete (cb : BuildCompleteAction) : Step

/-- The state after one reducer step; `none` when the step panics.  The error a
reducer returns is dropped here: the state it leaves is kept. -/
def applyStep (u : Upper) (env : Env) (s : EngineState) : Step → Option EngineState
  | Step.init a => (handleInitAction u env s a).map Prod.fst
  | Step.fs e => handleFSEvent env s e
  | Step.pod p => some (handlePodEvent env s p)
  | Step.dispatch => (maybeStartBuild env s).map Prod.fst
  | Step.complete cb => (handleCompletedBuild env s cb).map Prod.fst

/-- The state after a sequence of reducer steps, each with the outside world it
observes. -/
def runSteps (u : Upper) : EngineState → List (Env × Step) → Option EngineState
  | s, [] => some s
  | s, (env, st) :: rest =>
    match applyStep u env s st with
    | none => none
    | some s1 => runSteps u s1 rest

/-- The engine state together with the number of build tasks launched by
`maybeStartBuild` whose `BuildCompleteAction` has not been consumed yet. -/
structure Sys where
  st : EngineState
  inFlight : Nat
deriving DecidableEq, Repr

/-- One step of the engine with its build tasks: the dispatcher adds a task
when it launches one, and a `BuildCompleteAction` can only be consumed when a
launched task is there to deliver it, which it then answers. -/
def sysStep (u : Upper) (env : Env) (σ : Sys) : Step → Option Sys
  | Step.dispatch =>
    match maybeStartBuild env σ.st with
    | none => none
    | some (s1, task) => some { st := s1, inFlight := σ.inFlight + (if task.isSome then 1 else 0) }
  | Step.complete cb =>
    if σ.inFlight = 0 then none
    else
      match handleCompletedBuild env σ.st cb with
      | none => none
      | some (s1, _) => some { st := s1, inFlight := σ.inFlight - 1 }
  | st =>
    match applyStep u env σ.st st with
    | none => none
    | some s1 => some { st := s1, inFlight := σ.inFlight }

/-- The engine with its build tasks after a sequence of steps. -/
def sysRun (u : Upper) : Sys → List (Env × Step) → Option Sys
  | σ, [] => some σ
  | σ, (env, st) :: rest =>
    match sysStep u env σ st with
    | none => none
    | some σ1 => sysRun u σ1 rest

/-- The names of the manifests a step initialises. -/
def initNames : Step → List ManifestName
  | Step.init a => a.Manifests.map Manifest.Name
  | _ => []

/-- The number of `InitAction`s in a trace. -/
def initCount : List (Env × Step) → Nat
  | [] => 0
  | (_, Step.init _) :: rest => initCount rest + 1
  | _ :: rest => initCount rest

/-- The number of `BuildCompleteAction`s in a trace. -/
def completeCount : List (Env × Step) → Nat
  | [] => 0
  | (_, Step.complete _) :: rest => completeCount rest + 1
  | _ :: rest => completeCount rest

/-- The pending set of a manifest; empty when the manifest is unknown. -/
def pendingOf (s : EngineState) (mn : ManifestName) : List String :=
  match lookupMs s.ManifestStates mn with
  | some ms => ms.PendingFileChanges
  | none => []

/-- The `CurrentlyBuildingFileChanges` of a manifest; empty when the manifest
is unknown. -/
def buildingOf (s : EngineState) (mn : ManifestName) : List String :=
  match lookupMs s.ManifestStates mn with
  | some ms => ms.CurrentlyBuildingFileChanges
  | none => []

/-! ## The loop of `CreateManifests` -/

/-- The actions of the store; `Unrecognized` stands for any other type. -/
inductive Action where
  | Init (a : InitAction) : Action
  | Error (err : Option GoError) : Action
  | FilesChanged (e : manifestFilesChangedAction) : Action
  | PodChange (p : V1Pod) : Action
  | BuildComplete (cb : BuildCompleteAction) : Action
  | Unrecognized (typeName : String) : Action

/-- What the `select` of one loop iteration picks. -/
inductive LoopEvent where
  | ctxDone (err : Option GoError) : LoopEvent
  | action (a : Action) : LoopEvent
  | tick : LoopEvent

/-- The loop after an iteration: still running, returned, or panicked. -/
inductive LoopResult where
  | running (s : EngineState) : LoopResult
  | returned (s : EngineState) (err : Option GoError) : LoopResult
  | panicked : LoopResult
deriving DecidableEq, Repr

/-- The `select` statement of the loop (upper.go 120-153). -/
def loopSelect (u : Upper) (env : Env) (s : EngineState) : LoopEvent → LoopResult
  | LoopEvent.ctxDone err => LoopResult.returned s err
  | LoopEvent.tick => LoopResult.running s
  | LoopEvent.action (Action.Init a) =>
    match handleInitAction u env s a with
    | none => LoopResult.panicked
    | some (s1, some err) => LoopResult.returned s1 (some err)
    | some (s1, none) => LoopResult.running s1
  | LoopEvent.action (Action.Error err) => LoopResult.returned s err
  | LoopEvent.action (Action.FilesChanged e) =>
    match handleFSEvent env s e with
    | none => LoopResult.panicked
    | some s1 => LoopResult.running s1
  | LoopEvent.action (Action.PodChange p) => LoopResult.running (handlePodEvent env s p)
  | LoopEvent.action (Action.BuildComplete cb) =>
    match handleCompletedBuild env s cb with
    | none => LoopResult.panicked
    | some (s1, some err) => LoopResult.returned s1 (some err)
    | some (s1, none) =>
      if !s1.WatchMounts && s1.ManifestsToBuild.length == 0 then LoopResult.returned s1 none
      else LoopResult.running s1
  | LoopEvent.action (Action.Unrecognized typeName) =>
    LoopResult.returned s (some { msg := "Unrecognized action: " ++ typeName, dyn := 0 })

/-- One iteration of the loop (upper.go 109-154): the dispatcher when there is
a manifest, then the `select`. -/
def loopIter (u : Upper) (env : Env) (s : EngineState) (ev : LoopEvent) : LoopResult :=
  if s.ManifestStates.length > 0 then
    match maybeStartBuild env s with
    | none => LoopResult.panicked
    | some (s1, _) => loopSelect u env s1 ev
  else loopSelect u env s ev

/-- The loop over the sequence of what its `select`s pick; it stops at the
first iteration that returns or panics. -/
def runLoop (u : Upper) : EngineState → List (Env × LoopEvent) → LoopResult
  | s, [] => LoopResult.running s
  | s, (env, ev) :: rest =>
    match loopIter u env s ev with
    | LoopResult.running s1 => runLoop u s1 rest
    | res => res

/-- The function `Upper.CreateManifests` (upper.go 100-155) on the empty store: the
`InitAction` it dispatches is the first action the loop receives (timer ticks
before it find no manifest and change nothing), then `events` follow. -/
def CreateManifests (u : Upper) (manifests : List Manifest) (watchMounts : Bool) (env0 : Env)
    (events : List (Env × LoopEvent)) : LoopResult :=
  runLoop u emptyState
    ((env0, LoopEvent.action (Action.Init { WatchMounts := watchMounts, Manifests := manifests }))
      :: events)

/-! ## Concrete inputs -/

/-- An outside world in which no path is a broken symbolic link, the paths
named `Tiltfile` are config files, the Tiltfile cannot be loaded, the errors of
dynamic type 7 are permanent, and nothing else fails. -/
def plainEnv : Env :=
  { now := 100
    mapOrder := fun l => l
    mapOrder_perm := fun l => List.Perm.refl l
    IsBrokenSymlink := fun _ => Except.ok false
    ConfigMatcher := fun _ => Except.ok (fun f => (f == "Tiltfile", none))
    tiltfileLoad := Except.error { msg := "no Tiltfile", dyn := 1 }
    isPermanentError := fun err => err.dyn == 7
    ToLoadBalancerSpecs := fun _ => []
    OpenService := fun _ => none
    makeManifestWatcher := fun _ => none
    podWatcherMaker := none
    ManifestNameLabel := "tilt-manifest"
    podStatusToString := fun _ => "Running" }

def offUpper : Upper := { browserMode := BrowserMode.BrowserOff }

def manifestM1 : Manifest := { Name := "m1", Body := 1 }

def manifestA : Manifest := { Name := "a", Body := 2 }

def manifestNoName : Manifest := { Name := "", Body := 3 }

/-! ## Invariants, trace conditions and concrete inputs used by the theorems -/

/-- The invariant behind the single-flight property: no manifest has the empty
name, and a task is in flight exactly when `CurrentlyBuilding` is not empty. -/
def SingleFlight (σ : Sys) : Prop :=
  lookupMs σ.st.ManifestStates "" = none ∧ "" ∉ σ.st.ManifestsToBuild ∧
    σ.inFlight = if σ.st.CurrentlyBuilding = "" then 0 else 1

/-- A state in which no `InitAction` has been handled. -/
def Pristine (s : EngineState) : Prop :=
  s.ManifestStates = [] ∧ s.ManifestsToBuild = [] ∧ s.CurrentlyBuilding = ""

/-- The invariant of the build queue: it holds no name twice, and the manifest
being built is in it only with file changes pending. -/
def QueueInv (s : EngineState) : Prop :=
  s.ManifestsToBuild.Nodup ∧
    (s.CurrentlyBuilding ≠ "" → s.CurrentlyBuilding ∈ s.ManifestsToBuild →
      pendingOf s s.CurrentlyBuilding ≠ [])

/-- A trace with at most one `InitAction`, whose manifests have pairwise
distinct names. -/
def SingleInit (trace : List (Env × Step)) : Prop :=
  initCount trace ≤ 1 ∧ ∀ p ∈ trace, (initNames p.2).Nodup

/-- No fs event of the step reports a path that is listed in the
`CurrentlyBuildingFileChanges` of its manifest. -/
def fsAvoidsBuilding (s : EngineState) : Step → Bool
  | Step.fs e => e.files.all (fun f => !((buildingOf s e.manifestName).contains f))
  | _ => true

/-- Along the trace, no fs event reports a path that is at that moment listed
in the `CurrentlyBuildingFileChanges` of its manifest. -/
def avoidsBuilding (u : Upper) : EngineState → List (Env × Step) → Bool
  | _, [] => true
  | s, (env, st) :: rest =>
    fsAvoidsBuilding s st &&
      (match applyStep u env s st with
       | none => true
       | some s1 => avoidsBuilding u s1 rest)

/-- For every manifest, no pending path is listed in
`CurrentlyBuildingFileChanges`. -/
def DisjointChanges (s : EngineState) : Prop :=
  ∀ mn ms, lookupMs s.ManifestStates mn = some ms →
    ∀ f ∈ ms.PendingFileChanges, f ∉ ms.CurrentlyBuildingFileChanges

/-- The steps that can occur while a build is in flight, before its
`BuildCompleteAction` is consumed: fs events, pod events, dispatcher calls. -/
def duringBuild : Step → Bool
  | Step.fs _ => true
  | Step.pod _ => true
  | Step.dispatch => true
  | _ => false

/-- The error a loop returned with, if it did. -/
def loopError : LoopResult → Option GoError
  | LoopResult.returned _ err => err
  | _ => none

/-- Non-watch mode with the only manifest queued and clean. -/
def QueuedOnce (mn : ManifestName) (s : EngineState) : Prop :=
  s.ManifestsToBuild = [mn] ∧ s.CurrentlyBuilding = "" ∧ s.WatchMounts = false ∧
    ∃ ms, lookupMs s.ManifestStates mn = some ms ∧ ms.ConfigIsDirty = false

/-- Non-watch mode with an empty queue and a known manifest building. -/
def BuildingLast (s : EngineState) : Prop :=
  s.ManifestsToBuild = [] ∧ s.WatchMounts = false ∧
    ∃ ms, lookupMs s.ManifestStates s.CurrentlyBuilding = some ms

def initM1 (watch : Bool) : Env × Step :=
  (plainEnv, Step.init { WatchMounts := watch, Manifests := [manifestM1] })

def dispatchStep : Env × Step := (plainEnv, Step.dispatch)

def editM1 : manifestFilesChangedAction := { manifestName := "m1", files := ["main.go"] }

def buildOk : BuildCompleteAction := { Result := { Entities := [] }, Error := none }

/-- An unnamed manifest and `a` are initialised; the dispatcher runs twice. -/
def traceUnnamed : List (Env × Step) :=
  [(plainEnv, Step.init { WatchMounts := false, Manifests := [manifestNoName, manifestA] }),
   dispatchStep, dispatchStep]

/-- Two manifests are initialised, `m1` is built and edited meanwhile, its
build completes, the next build starts. -/
def traceTwoBuilds : List (Env × Step) :=
  [(plainEnv, Step.init { WatchMounts := true, Manifests := [manifestM1, manifestA] }),
   dispatchStep, dispatchStep, (plainEnv, Step.fs editM1), (plainEnv, Step.complete buildOk),
   dispatchStep]

/-- The manifest `m1` is edited while it is being built. -/
def traceEditDuringBuild : List (Env × Step) :=
  [initM1 true, dispatchStep, (plainEnv, Step.fs editM1)]

/-- One `InitAction` names `m1` twice. -/
def traceDoubleName : List (Env × Step) :=
  [(plainEnv, Step.init { WatchMounts := true, Manifests := [manifestM1, manifestM1] }),
   dispatchStep]

/-- A second `InitAction` for `m1` arrives while `m1` is being built. -/
def traceDoubleInit : List (Env × Step) :=
  [initM1 true, dispatchStep, initM1 true]

/-- The file `main.go` is edited before the build of `m1` starts and again
while it runs. -/
def traceSameFileTwice : List (Env × Step) :=
  [initM1 true, (plainEnv, Step.fs editM1), dispatchStep, (plainEnv, Step.fs editM1)]

/-- The file `main.go` is edited before the build of `m1` starts, another file
while it runs. -/
def traceOtherFile : List (Env × Step) :=
  [initM1 true, (plainEnv, Step.fs editM1), dispatchStep,
   (plainEnv, Step.fs { manifestName := "m1", files := ["util.go"] })]

/-- An outside world like `plainEnv` in which the Tiltfile loads and defines
exactly one manifest for every name. -/
def reloadEnv : Env :=
  { plainEnv with
    tiltfileLoad := Except.ok (fun name => Except.ok [{ Name := name, Body := 9 }]) }

/-- The value of `ConfigIsDirty` of a manifest, if the manifest is known. -/
def configDirtyOf (s : EngineState) (mn : ManifestName) : Option Bool :=
  (lookupMs s.ManifestStates mn).map ManifestState.ConfigIsDirty

/-- The manifest `m1` is initialised, then its config file is edited. -/
def traceConfigEdit : List (Env × Step) :=
  [initM1 true, (plainEnv, Step.fs { manifestName := "m1", files := ["Tiltfile"] })]

/-- The manifest `m1` is initialised and its build is started. -/
def traceBuilding : List (Env × Step) :=
  [initM1 true, dispatchStep]

def transientError : GoError := { msg := "boom", dyn := 1 }

def permanentError : GoError := { msg := "boom", dyn := 7 }

def buildFailed (err : GoError) : BuildCompleteAction :=
  { Result := { Entities := [] }, Error := some err }

/-- The state the engine of `offUpper` reaches from the empty state by a
trace (the empty state when the trace panics). -/
def reached (trace : List (Env × Step)) : EngineState :=
  (runSteps offUpper emptyState trace).getD emptyState

/-- The paths that `onlySpuriousChanges` passes to `ospath.IsBrokenSymlink`, in
the order of the calls (upper.go 413-421): the loop stops at the first path
whose check fails or that is not a broken link. -/
def consultedLoop (env : Env) : List String → List String
  | [] => []
  | f :: rest =>
    match env.IsBrokenSymlink f with
    | Except.error _ => [f]
    | Except.ok broken => if !broken then [f] else f :: consultedLoop env rest

/-- The paths on which `onlySpuriousChanges` consults the file system
(upper.go 407-424). -/
def consultedPaths (env : Env) (filesChanged : List String) : List String :=
  if filesChanged.length > 3 then [] else consultedLoop env (env.mapOrder filesChanged)

/-- An outside world like `plainEnv` in which the paths ending in `~` are
broken symbolic links. -/
def symlinkEnv : Env :=
  { plainEnv with
    IsBrokenSymlink := fun f => Except.ok (f.data.getLast? == some '~') }

def lockFileEvent : manifestFilesChangedAction :=
  { manifestName := "m1", files := ["/proj/.idea/lock~"] }

/-- The manifest `m1` is initialised in watch mode and its first build
completes successfully. -/
def traceFirstBuildDone : List (Env × Step) :=
  [initM1 true, dispatchStep, (plainEnv, Step.complete buildOk)]

/-- The pod of a manifest, if the manifest is known. -/
def podOf (s : EngineState) (mn : ManifestName) : Option Pod :=
  (lookupMs s.ManifestStates mn).map ManifestState.Pod

/-- The value `newPod` that `handlePodEvent` builds from the event
(upper.go 340-344). -/
def podOfEvent (env : Env) (pod : V1Pod) : Pod :=
  { Name := pod.Name, StartedAt := pod.CreationTimestamp, Status := env.podStatusToString pod }

/-- The load balancer that `handleCompletedBuild` passes to `k8s.OpenService`,
if it reaches the call (upper.go 245-254). -/
def openedService (env : Env) (engineState : EngineState) (cb : BuildCompleteAction) :
    Option LoadBalancerSpec :=
  match lookupMs engineState.ManifestStates engineState.CurrentlyBuilding with
  | none => none
  | some _ =>
    match cb.Error with
    | some _ => none
    | none =>
      match env.ToLoadBalancerSpecs cb.Result.Entities with
      | lb :: _ => if engineState.OpenBrowserOnNextLB then some lb else none
      | [] => none

def autoUpper : Upper := { browserMode := BrowserMode.BrowserAuto }

/-- The state the engine of `autoUpper` reaches from the empty state by a
trace (the empty state when the trace panics). -/
def reachedAuto (trace : List (Env × Step)) : EngineState :=
  (runSteps autoUpper emptyState trace).getD emptyState

/-- An outside world like `plainEnv` in which every deploy produces one load
balancer and the browser opens. -/
def balancerEnv : Env :=
  { plainEnv with ToLoadBalancerSpecs := fun _ => [{ id := 1 }] }

/-- An outside world like `balancerEnv` in which opening the browser fails. -/
def noBrowserEnv : Env :=
  { balancerEnv with OpenService := fun _ => some { msg := "no browser", dyn := 2 } }

/-- A pod event whose manifest label is the empty string. -/
def unlabelledPod : V1Pod :=
  { Name := "p1", Labels := [("tilt-manifest", "")], CreationTimestamp := 5, StatusData := 0 }

/-- A pod event for the manifest `m1`. -/
def podM1 (name : String) (created : Time) : V1Pod :=
  { Name := name, Labels := [("tilt-manifest", "m1")], CreationTimestamp := created,
    StatusData := 0 }

/-- The only manifest initialised has the empty name. -/
def traceUnnamedOnly : List (Env × Step) :=
  [(plainEnv, Step.init { WatchMounts := true, Manifests := [manifestNoName] })]

/-! ## The log filter of `internal/hud/log_filter.go` -/

abbrev FilterSource := String

def FilterSourceAll : FilterSource := "all"

def FilterSourceBuild : FilterSource := "build"

def FilterSourceRuntime : FilterSource := "runtime"

/-- Modelled from the spec: the type `logger.Level` (package `logger` is not
among the sources): a severity, greater for more severe levels. -/
structure Level where
  id : Int
deriving DecidableEq, Repr

/-- Modelled from the spec: the method `Level.AsSevereAs` of package `logger`:
the level is at least as severe as the other one. -/
def Level.AsSevereAs (l l2 : Level) : Bool :=
  decide (l2.id ≤ l.id)

/-- The fields of a `logstore.LogLine`. -/
structure LogLine where
  Text : String
  Level : Level
  SpanID : String
  ManifestName : ManifestName
  BuildEvent : String
deriving DecidableEq, Repr

structure LogFilter where
  source : FilterSource
  manifestName : ManifestName
  level : Level
deriving DecidableEq, Repr

/-- The function `NewLogFilter` (log_filter.go 21-32). -/
def NewLogFilter (source : FilterSource) (manifestName : ManifestName) (level : Level) :
    LogFilter :=
  { source := source, manifestName := manifestName, level := level }

/-- The library function `strings.HasPrefix`: the string starts with `p`. -/
def startsWith (s p : String) : Bool :=
  p.data.isPrefixOf s.data

/-- The function `isBuildSpanID` (log_filter.go 41-43). -/
def isBuildSpanID (spanID : String) : Bool :=
  startsWith spanID "build:" || startsWith spanID "cmdimage:"

/-- The method `LogFilter.matchesLevelFilter` (log_filter.go 46-52); the
constant `logger.WarnLvl` is the parameter `WarnLvl`. -/
def LogFilter.matchesLevelFilter (WarnLvl : Level) (f : LogFilter) (line : LogLine) : Bool :=
  if !f.level.AsSevereAs WarnLvl then true
  else decide (f.level = line.Level)

/-- The method `LogFilter.Matches` (log_filter.go 57-78). -/
def LogFilter.Matches (WarnLvl : Level) (f : LogFilter) (line : LogLine) : Bool :=
  if line.BuildEvent ≠ "" then true
  else if f.manifestName ≠ "" ∧ f.manifestName ≠ line.ManifestName then false
  else
    let isBuild := isBuildSpanID line.SpanID
    if f.source = FilterSourceRuntime ∧ isBuild = true then false
    else if f.source = FilterSourceBuild ∧ isBuild = false then false
    else f.matchesLevelFilter WarnLvl line

/-- The method `LogFilter.Apply` (log_filter.go 80-89). -/
def LogFilter.Apply (WarnLvl : Level) (f : LogFilter) (lines : List LogLine) : List LogLine :=
  lines.filter (fun line => f.Matches WarnLvl line)

/-- The state after the pod events of a list are applied by `handlePodEvent`,
the head of the list first. -/
def applyPods (env : Env) (s : EngineState) (pods : List V1Pod) : EngineState :=
  pods.foldl (handlePodEvent env) s

/-- An outside world like `plainEnv` in which the status of every pod is the
empty string. -/
def noStatusEnv : Env :=
  { plainEnv with podStatusToString := fun _ => "" }

/-- What the `select` of one loop iteration picks when builds succeed: a timer
tick (`none`), or the `BuildCompleteAction` of a successful build with its
result. -/
def successEvent (p : Env × Option BuildResult) : Env × LoopEvent :=
  (p.1,
    match p.2 with
    | none => LoopEvent.tick
    | some r => LoopEvent.action (Action.BuildComplete { Result := r, Error := none }))

/-- The number of `BuildCompleteAction`s among the events. -/
def completions : List (Env × Option BuildResult) → Nat
  | [] => 0
  | (_, none) :: rest => completions rest
  | (_, some _) :: rest => completions rest + 1

/-- The engine in non-watch mode with `n` builds to complete in all, `c` of
them completed: every queued manifest is known and clean, the manifest being
built is known, the counter holds `c` as a Go `int`, and the builds completed,
queued and in flight add up to `n`. -/
def BuildsLeft (n c : Nat) (s : EngineState) : Prop :=
  s.WatchMounts = false ∧
  (∀ q ∈ s.ManifestsToBuild,
    ∃ ms, lookupMs s.ManifestStates q = some ms ∧ ms.ConfigIsDirty = false) ∧
  (s.CurrentlyBuilding ≠ "" → ∃ ms, lookupMs s.ManifestStates s.CurrentlyBuilding = some ms) ∧
  s.CompletedBuildCount = wrapInt c ∧
  c + s.ManifestsToBuild.length + (if s.CurrentlyBuilding = "" then 0 else 1) = n

/-- A timer tick, the completion of a successful build, a timer tick, the
completion of a second successful build. -/
def twoBuildsEvents : List (Env × Option BuildResult) :=
  [(plainEnv, none), (plainEnv, some { Entities := [] }), (plainEnv, none),
   (plainEnv, some { Entities := [] })]

/-- The name is a key of `ManifestStates`. -/
def isKey (s : EngineState) (mn : ManifestName) : Bool :=
  (lookupMs s.ManifestStates mn).isSome

/-- The step is one the claim allows in the state: an fs event names an
initialised manifest, and a `BuildCompleteAction` is consumed only when a
launched build task is there to deliver it. -/
def stepAllowed (σ : Sys) : Step → Bool
  | Step.fs e => isKey σ.st e.manifestName
  | Step.complete _ => decide (σ.inFlight ≠ 0)
  | _ => true

/-- Every step of the trace is allowed in the state in which it is taken. -/
def allowedTrace (u : Upper) : Sys → List (Env × Step) → Bool
  | _, [] => true
  | σ, (env, st) :: rest =>
    stepAllowed σ st &&
      (match sysStep u env σ st with
       | none => true
       | some σ1 => allowedTrace u σ1 rest)

/-- The invariant behind the lookups: the queued names and the name being built
are keys of `ManifestStates`, and more build tasks are in flight than
`CurrentlyBuilding` shows only when the empty name is a key. -/
def KnownNames (σ : Sys) : Prop :=
  (∀ q ∈ σ.st.ManifestsToBuild, isKey σ.st q = true) ∧
  (σ.st.CurrentlyBuilding ≠ "" → isKey σ.st σ.st.CurrentlyBuilding = true) ∧
  (isKey σ.st "" = true ∨ σ.inFlight ≤ (if σ.st.CurrentlyBuilding = "" then 0 else 1))

/-- An unnamed manifest and `a` are initialised in watch mode, both builds are
started, `a` is edited, both builds complete, the next build starts. -/
def traceUnnamedBuilt : List (Env × Step) :=
  [(plainEnv, Step.init { WatchMounts := true, Manifests := [manifestNoName, manifestA] }),
   dispatchStep, dispatchStep,
   (plainEnv, Step.fs { manifestName := "a", files := ["main.go"] }),
   (plainEnv, Step.complete buildOk), (plainEnv, Step.complete buildOk), dispatchStep]

/-- An edit of `main.go` reported for the manifest with the empty name. -/
def editUnnamed : manifestFilesChangedAction := { manifestName := "", files := ["main.go"] }

/-- The manifest with the empty name is initialised in watch mode and its build
is started: `CurrentlyBuilding` is its name, the empty string. -/
def traceUnnamedBuilding : List (Env × Step) :=
  [(plainEnv, Step.init { WatchMounts := true, Manifests := [manifestNoName] }), dispatchStep]

/-- After `traceUnnamedBuilding`, `main.go` is edited. -/
def traceUnnamedEdited : List (Env × Step) :=
  traceUnnamedBuilding ++ [(plainEnv, Step.fs editUnnamed)]

/-- After `traceUnnamedEdited`, the dispatcher runs, as it does at the start of
every loop iteration. -/
def traceUnnamedRestarted : List (Env × Step) :=
  traceUnnamedEdited ++ [dispatchStep]

/-- After `traceUnnamedRestarted`, the first build completes. -/
def traceUnnamedCompleted : List (Env × Step) :=
  traceUnnamedRestarted ++ [(plainEnv, Step.complete buildOk)]

/-- The state reached by `traceBuilding`, in which `m1` is being built, with
`CompletedBuildCount` at the largest `int`, `2^63 - 1`. -/
def stateAtMaxCount : EngineState :=
  { reached traceBuilding with CompletedBuildCount := 9223372036854775807 }

/-- One more build of `m1` in watch mode: the dispatcher starts the queued
build, the build completes successfully, and `main.go` is edited, which queues
`m1` again. -/
def buildCycle : List (Env × Step) :=
  [dispatchStep, (plainEnv, Step.complete buildOk), (plainEnv, Step.fs editM1)]

/-- The function `buildCycles k` is `buildCycle` repeated `k` times. -/
def buildCycles : Nat → List (Env × Step)
  | 0 => []
  | k + 1 => buildCycle ++ buildCycles k

/-- The manifest `m1` is initialised in watch mode and then built `k` times,
with an edit of `main.go` after each build. -/
def traceManyBuilds (k : Nat) : List (Env × Step) :=
  initM1 true :: buildCycles k

/-- The state after two builds of `m1`, with `CompletedBuildCount` replaced by
`c`: the state after every further build, up to the counter. -/
def cycleState (c : Int) : EngineState :=
  { reached (traceManyBuilds 2) with CompletedBuildCount := c }

/-- The state a loop returned nil with, if it did. -/
def returnedNil : LoopResult → Option EngineState
  | LoopResult.returned s none => some s
  | _ => none

/-- A timer tick, then the completion of a successful build. -/
def tickThenBuild : List (Env × Option BuildResult) :=
  [(plainEnv, none), (plainEnv, some { Entities := [] })]

/-! # Theorems -/

/-! ## Lemmas on the map operations -/

theorem lookupMs_setMs (m : List (ManifestName × ManifestState)) (k k2 : ManifestName)
    (v : ManifestState) :
    lookupMs (setMs m k v) k2 = if k = k2 then some v else lookupMs m k2 := by
  induction m with
  | nil => simp [setMs, lookupMs]
  | cons hd tl ih =>
    obtain ⟨a, w⟩ := hd
    by_cases h1 : a = k
    · subst h1
      by_cases h2 : a = k2 <;> simp [setMs, lookupMs, h2]
    · by_cases h2 : a = k2
      · subst h2
        have h3 : ¬ k = a := fun h => h1 h.symm
        simp [setMs, lookupMs, h1, h3]
      · simp [setMs, lookupMs, h1, h2, ih]

theorem lookupMs_setMs_self (m : List (ManifestName × ManifestState)) (k : ManifestName)
    (v : ManifestState) : lookupMs (setMs m k v) k = some v := by
  simp [lookupMs_setMs]

theorem lookupMs_setMs_ne (m : List (ManifestName × ManifestState)) (k k2 : ManifestName)
    (v : ManifestState) (h : k ≠ k2) : lookupMs (setMs m k v) k2 = lookupMs m k2 := by
  simp [lookupMs_setMs, h]

theorem setMs_setMs (m : List (ManifestName × ManifestState)) (k : ManifestName)
    (v w : ManifestState) : setMs (setMs m k v) k w = setMs m k w := by
  induction m with
  | nil => simp [setMs]
  | cons hd tl ih =>
    obtain ⟨a, x⟩ := hd
    by_cases h1 : a = k
    · simp [setMs, h1]
    · simp [setMs, h1, ih]

theorem setMs_length_pos (m : List (ManifestName × ManifestState)) (k : ManifestName)
    (v : ManifestState) : 0 < (setMs m k v).length := by
  cases m with
  | nil => simp [setMs]
  | cons hd tl =>
    obtain ⟨a, x⟩ := hd
    by_cases h1 : a = k <;> simp [setMs, h1]

/-! ## What each reducer does to the state -/

theorem enqueueBuild_spec (env : Env) (s s1 : EngineState) (mn : ManifestName)
    (h : enqueueBuild env s mn = some s1) :
    ∃ ms, lookupMs s.ManifestStates mn = some ms ∧
      s1 = { s with
        ManifestsToBuild := s.ManifestsToBuild ++ [mn]
        ManifestStates := setMs s.ManifestStates mn { ms with QueueEntryTime := env.now } } := by
  unfold enqueueBuild at h
  split at h
  · simp at h
  · rename_i ms hms
    exact ⟨ms, hms, by simpa using h.symm⟩

theorem handleFSEvent_spec (env : Env) (s s1 : EngineState) (e : manifestFilesChangedAction)
    (h : handleFSEvent env s e = some s1) :
    ∃ ms0, lookupMs s.ManifestStates e.manifestName = some ms0 ∧
      ((s1 = { s with
            ManifestStates := setMs s.ManifestStates e.manifestName (fsEventState env ms0 e) } ∧
          ((onlySpuriousChanges env (fsEventState env ms0 e).PendingFileChanges).1 = true ∨
            e.manifestName ∈ s.ManifestsToBuild)) ∨
        (s1 = { s with
            ManifestStates := setMs s.ManifestStates e.manifestName
              { fsEventState env ms0 e with QueueEntryTime := env.now }
            ManifestsToBuild := s.ManifestsToBuild ++ [e.manifestName] } ∧
          e.manifestName ∉ s.ManifestsToBuild ∧
          (onlySpuriousChanges env (fsEventState env ms0 e).PendingFileChanges).1 = false)) := by
  unfold handleFSEvent at h
  split at h
  · simp at h
  · rename_i ms0 hms0
    refine ⟨ms0, hms0, ?_⟩
    simp only at h
    by_cases hsp : (onlySpuriousChanges env (fsEventState env ms0 e).PendingFileChanges).1 = true
    · rw [if_pos hsp] at h
      exact Or.inl ⟨by simpa using h.symm, Or.inl hsp⟩
    · rw [if_neg hsp] at h
      by_cases hin : e.manifestName ∈ s.ManifestsToBuild
      · rw [if_pos hin] at h
        exact Or.inl ⟨by simpa using h.symm, Or.inr hin⟩
      · rw [if_neg hin] at h
        obtain ⟨ms, hms, hs1⟩ := enqueueBuild_spec _ _ _ _ h
        simp only [lookupMs_setMs_self, Option.some.injEq] at hms
        subst hms
        refine Or.inr ⟨?_, hin, by simpa using hsp⟩
        rw [hs1]
        simp only [setMs_setMs]

theorem maybeStartBuild_spec (env : Env) (s s1 : EngineState) (task : Option BuildTask)
    (h : maybeStartBuild env s = some (s1, task)) :
    ((s.ManifestsToBuild = [] ∨ s.CurrentlyBuilding ≠ "") ∧ s1 = s ∧ task = none) ∨
    (∃ mn rest ms0, s.ManifestsToBuild = mn :: rest ∧ s.CurrentlyBuilding = "" ∧
      lookupMs s.ManifestStates mn = some ms0 ∧
      ((∃ err, reloadIfDirty env mn { ms0 with QueueEntryTime := 0 } = Except.error err ∧
          s1 = { s with
            ManifestsToBuild := rest
            CurrentlyBuilding := ""
            ManifestStates := setMs s.ManifestStates mn
              (reloadFailed env { ms0 with QueueEntryTime := 0 } err) } ∧
          task = none) ∨
        (∃ ms2, reloadIfDirty env mn { ms0 with QueueEntryTime := 0 } = Except.ok ms2 ∧
          s1 = { s with
            ManifestsToBuild := rest
            CurrentlyBuilding := mn
            ManifestStates := setMs s.ManifestStates mn (snapshotChanges env ms2) } ∧
          task.isSome = true))) := by
  unfold maybeStartBuild at h
  split at h
  · rename_i hq
    simp only [Option.some.injEq, Prod.mk.injEq] at h
    exact Or.inl ⟨Or.inl hq, h.1.symm, h.2.symm⟩
  · rename_i mn rest hq
    by_cases hcb : s.CurrentlyBuilding ≠ ""
    · rw [if_pos hcb] at h
      simp only [Option.some.injEq, Prod.mk.injEq] at h
      exact Or.inl ⟨Or.inr hcb, h.1.symm, h.2.symm⟩
    · rw [if_neg hcb] at h
      have hcb2 : s.CurrentlyBuilding = "" := by simpa using hcb
      split at h
      · simp at h
      · rename_i ms0 hms0
        refine Or.inr ⟨mn, rest, ms0, hq, hcb2, hms0, ?_⟩
        simp only at h
        split at h
        · rename_i err herr
          simp only [Option.some.injEq, Prod.mk.injEq] at h
          exact Or.inl ⟨err, herr, h.1.symm, h.2.symm⟩
        · rename_i ms2 hms2
          simp only [Option.some.injEq, Prod.mk.injEq] at h
          refine Or.inr ⟨ms2, hms2, h.1.symm, ?_⟩
          rw [← h.2]
          rfl

theorem handleCompletedBuild_spec (env : Env) (s s1 : EngineState) (cb : BuildCompleteAction)
    (r : Option GoError) (h : handleCompletedBuild env s cb = some (s1, r)) :
    ∃ ms0 msEnd ob, lookupMs s.ManifestStates s.CurrentlyBuilding = some ms0 ∧
      s1 = completedState s msEnd ob ∧
      msEnd.PendingFileChanges = ms0.PendingFileChanges ∧
      msEnd.ConfigIsDirty = ms0.ConfigIsDirty ∧
      msEnd.Manifest = ms0.Manifest ∧
      msEnd.Pod = ms0.Pod ∧
      msEnd.LastError = cb.Error ∧
      (msEnd.CurrentlyBuildingFileChanges = ms0.CurrentlyBuildingFileChanges ∨
        msEnd.CurrentlyBuildingFileChanges = []) := by
  unfold handleCompletedBuild at h
  split at h
  · simp at h
  · rename_i ms0 hms0
    simp only at h
    split at h
    · split at h
      · simp only [Option.some.injEq, Prod.mk.injEq] at h
        exact ⟨ms0, _, _, hms0, h.1.symm, rfl, rfl, rfl, rfl, rfl, Or.inl rfl⟩
      · split at h <;>
        · simp only [Option.some.injEq, Prod.mk.injEq] at h
          exact ⟨ms0, _, _, hms0, h.1.symm, rfl, rfl, rfl, rfl, rfl, Or.inl rfl⟩
    · rename_i herr
      have hE : (buildFinished env cb ms0).LastError = none := by
        simp [buildFinished, herr]
      split at h
      · split at h
        · split at h
          · simp only [Option.some.injEq, Prod.mk.injEq] at h
            exact ⟨ms0, _, _, hms0, h.1.symm, rfl, rfl, rfl, rfl, herr.symm ▸ hE, Or.inl rfl⟩
          · simp only [Option.some.injEq, Prod.mk.injEq] at h
            exact ⟨ms0, _, _, hms0, h.1.symm, rfl, rfl, rfl, rfl, herr.symm ▸ hE, Or.inr rfl⟩
        · simp only [Option.some.injEq, Prod.mk.injEq] at h
          exact ⟨ms0, _, _, hms0, h.1.symm, rfl, rfl, rfl, rfl, herr.symm ▸ hE, Or.inr rfl⟩
      · simp only [Option.some.injEq, Prod.mk.injEq] at h
        exact ⟨ms0, _, _, hms0, h.1.symm, rfl, rfl, rfl, rfl, herr.symm ▸ hE, Or.inr rfl⟩

theorem handlePodEvent_spec (env : Env) (s : EngineState) (p : V1Pod) :
    handlePodEvent env s p = s ∨
    ∃ mn ms0 newPod, mn ≠ "" ∧ lookupMs s.ManifestStates mn = some ms0 ∧
      handlePodEvent env s p =
        { s with ManifestStates := setMs s.ManifestStates mn { ms0 with Pod := newPod } } := by
  unfold handlePodEvent
  simp only
  split
  · exact Or.inl rfl
  · rename_i hne
    split
    · exact Or.inl rfl
    · rename_i ms hms
      split
      · exact Or.inr ⟨_, ms, _, hne, hms, rfl⟩
      · exact Or.inl rfl

theorem initStates_frame (s : EngineState) (l : List Manifest) :
    (initStates s l).ManifestsToBuild = s.ManifestsToBuild ∧
    (initStates s l).CurrentlyBuilding = s.CurrentlyBuilding ∧
    (initStates s l).CompletedBuildCount = s.CompletedBuildCount ∧
    (initStates s l).OpenBrowserOnNextLB = s.OpenBrowserOnNextLB := by
  induction l generalizing s with
  | nil => simp [initStates]
  | cons m rest ih =>
    simp only [initStates]
    obtain ⟨h1, h2, h3, h4⟩ := ih
      { s with
        ManifestDefinitionOrder := s.ManifestDefinitionOrder ++ [m.Name]
        ManifestStates := setMs s.ManifestStates m.Name (NewManifestState m) }
    exact ⟨h1, h2, h3, h4⟩

theorem initStates_lookup (s : EngineState) (l : List Manifest) (k : ManifestName) :
    (k ∉ l.map Manifest.Name ∧
      lookupMs (initStates s l).ManifestStates k = lookupMs s.ManifestStates k) ∨
    (∃ m, m ∈ l ∧ m.Name = k ∧
      lookupMs (initStates s l).ManifestStates k = some (NewManifestState m)) := by
  induction l generalizing s with
  | nil => simp [initStates]
  | cons m rest ih =>
    simp only [initStates]
    rcases ih
      { s with
        ManifestDefinitionOrder := s.ManifestDefinitionOrder ++ [m.Name]
        ManifestStates := setMs s.ManifestStates m.Name (NewManifestState m) } with h | h
    · obtain ⟨h1, h2⟩ := h
      by_cases hk : m.Name = k
      · refine Or.inr ⟨m, by simp, hk, ?_⟩
        rw [h2]
        simp [lookupMs_setMs, hk]
      · refine Or.inl ⟨?_, ?_⟩
        · simp only [List.map_cons, List.mem_cons, not_or]
          exact ⟨fun h => hk h.symm, h1⟩
        · rw [h2]
          simp [lookupMs_setMs, hk]
    · obtain ⟨m2, h1, h2, h3⟩ := h
      exact Or.inr ⟨m2, by simp [h1], h2, h3⟩

theorem enqueueAll_spec (env : Env) (s s1 : EngineState) (l : List Manifest)
    (h : enqueueAll env s l = some s1) :
    s1.ManifestsToBuild = s.ManifestsToBuild ++ l.map Manifest.Name ∧
    s1.CurrentlyBuilding = s.CurrentlyBuilding ∧
    s1.CompletedBuildCount = s.CompletedBuildCount ∧
    s1.OpenBrowserOnNextLB = s.OpenBrowserOnNextLB ∧
    s1.WatchMounts = s.WatchMounts ∧
    ∀ k, lookupMs s1.ManifestStates k = lookupMs s.ManifestStates k ∨
      ∃ ms0, k ∈ l.map Manifest.Name ∧ lookupMs s.ManifestStates k = some ms0 ∧
        lookupMs s1.ManifestStates k = some { ms0 with QueueEntryTime := env.now } := by
  induction l generalizing s with
  | nil =>
    simp only [enqueueAll, Option.some.injEq] at h
    subst h
    simp
  | cons m rest ih =>
    simp only [enqueueAll] at h
    split at h
    · simp at h
    · rename_i s2 hs2
      obtain ⟨ms, hms, hs2eq⟩ := enqueueBuild_spec _ _ _ _ hs2
      obtain ⟨h1, h2, h3, h4, h5, h6⟩ := ih s2 h
      subst hs2eq
      refine ⟨by simp [h1], h2, h3, h4, h5, ?_⟩
      intro k
      rcases h6 k with hk | ⟨ms0, hin, hk1, hk2⟩
      · rw [hk]
        by_cases hmk : m.Name = k
        · subst hmk
          exact Or.inr ⟨ms, by simp, hms, by simp [lookupMs_setMs]⟩
        · exact Or.inl (by simp [lookupMs_setMs, hmk])
      · by_cases hmk : m.Name = k
        · subst hmk
          simp only [lookupMs_setMs_self, Option.some.injEq] at hk1
          subst hk1
          exact Or.inr ⟨ms, by simp, hms, hk2⟩
        · simp only [lookupMs_setMs, hmk, if_false] at hk1
          exact Or.inr ⟨ms0, by simp [hin], hk1, hk2⟩

theorem handleInitAction_spec (u : Upper) (env : Env) (s s1 : EngineState) (a : InitAction)
    (r : Option GoError) (h : handleInitAction u env s a = some (s1, r)) :
    s1.CurrentlyBuilding = s.CurrentlyBuilding ∧
    s1.CompletedBuildCount = s.CompletedBuildCount ∧
    s1.WatchMounts = a.WatchMounts ∧
    ((r = none ∧ s1.ManifestsToBuild = s.ManifestsToBuild ++ a.Manifests.map Manifest.Name) ∨
      (r ≠ none ∧ s1.ManifestsToBuild = s.ManifestsToBuild)) ∧
    ∀ k, (k ∉ a.Manifests.map Manifest.Name ∧
        lookupMs s1.ManifestStates k = lookupMs s.ManifestStates k) ∨
      (∃ m t, m ∈ a.Manifests ∧ m.Name = k ∧
        lookupMs s1.ManifestStates k = some { NewManifestState m with QueueEntryTime := t }) := by
  obtain ⟨f1, f2, f3, f4⟩ := initStates_frame s a.Manifests
  have hl := initStates_lookup s a.Manifests
  unfold handleInitAction at h
  simp only at h
  split at h
  · rename_i err herr
    simp only [Option.some.injEq, Prod.mk.injEq] at h
    obtain ⟨h1, h2⟩ := h
    subst h1
    subst h2
    refine ⟨f2, f3, rfl, Or.inr ⟨by simp, f1⟩, ?_⟩
    intro k
    rcases hl k with hk | ⟨m, hm1, hm2, hm3⟩
    · exact Or.inl hk
    · exact Or.inr ⟨m, 0, hm1, hm2, hm3⟩
  · split at h
    · simp at h
    · rename_i s2 hs2
      obtain ⟨e1, e2, e3, e4, e5, e6⟩ := enqueueAll_spec _ _ _ _ hs2
      simp only [Option.some.injEq, Prod.mk.injEq] at h
      obtain ⟨h1, h2⟩ := h
      subst h2
      have hMS : s1.ManifestStates = s2.ManifestStates := by
        rw [← h1]; split <;> rfl
      have hQ : s1.ManifestsToBuild = s2.ManifestsToBuild := by
        rw [← h1]; split <;> rfl
      have hCB : s1.CurrentlyBuilding = s2.CurrentlyBuilding := by
        rw [← h1]; split <;> rfl
      have hCnt : s1.CompletedBuildCount = s2.CompletedBuildCount := by
        rw [← h1]; split <;> rfl
      have hW : s1.WatchMounts = s2.WatchMounts := by
        rw [← h1]; split <;> rfl
      refine ⟨by rw [hCB, e2]; exact f2, by rw [hCnt, e3]; exact f3, by rw [hW, e5],
        Or.inl ⟨rfl, by rw [hQ, e1]; simp [f1]⟩, ?_⟩
      intro k
      rw [hMS]
      rcases e6 k with hk | ⟨ms0, hin, hk1, hk2⟩
      · rw [hk]
        rcases hl k with hk | ⟨m, hm1, hm2, hm3⟩
        · exact Or.inl hk
        · exact Or.inr ⟨m, 0, hm1, hm2, hm3⟩
      · rcases hl k with hk | ⟨m, hm1, hm2, hm3⟩
        · exact absurd hin hk.1
        · refine Or.inr ⟨m, env.now, hm1, hm2, ?_⟩
          simp only [] at hk1
          rw [hm3] at hk1
          simp only [Option.some.injEq] at hk1
          rw [hk2, ← hk1]

theorem singleFlight_step (u : Upper) (env : Env) (σ σ1 : Sys) (st : Step)
    (hn : "" ∉ initNames st) (hinv : SingleFlight σ) (h : sysStep u env σ st = some σ1) :
    SingleFlight σ1 := by
  obtain ⟨hk, hq, hf⟩ := hinv
  cases st with
  | init a =>
    simp only [sysStep, applyStep] at h
    cases hh : handleInitAction u env σ.st a with
    | none => simp [hh] at h
    | some pr =>
      obtain ⟨s1, r⟩ := pr
      simp only [hh, Option.map_some', Option.some.injEq] at h
      subst h
      obtain ⟨h1, _, _, h4, h5⟩ := handleInitAction_spec _ _ _ _ _ _ hh
      simp only [initNames] at hn
      refine ⟨?_, ?_, ?_⟩
      · rcases h5 "" with ⟨_, h6⟩ | ⟨m, t, hm1, hm2, _⟩
        · simpa [hk] using h6
        · exact absurd (List.mem_map.mpr ⟨m, hm1, hm2⟩) hn
      · rcases h4 with ⟨_, h6⟩ | ⟨_, h6⟩
        · simp only [h6, List.mem_append, not_or]
          exact ⟨hq, hn⟩
        · simpa [h6] using hq
      · simpa [h1] using hf
  | fs e =>
    simp only [sysStep, applyStep] at h
    cases hh : handleFSEvent env σ.st e with
    | none => simp [hh] at h
    | some s1 =>
      simp only [hh, Option.some.injEq] at h
      subst h
      obtain ⟨ms0, hms0, hcase⟩ := handleFSEvent_spec _ _ _ _ hh
      have hne : e.manifestName ≠ "" := by
        intro h0
        rw [h0, hk] at hms0
        exact Option.noConfusion hms0
      rcases hcase with ⟨hs1, _⟩ | ⟨hs1, _, _⟩
      · subst hs1
        exact ⟨by simp [lookupMs_setMs, hne, hk], hq, hf⟩
      · subst hs1
        refine ⟨by simp [lookupMs_setMs, hne, hk], ?_, hf⟩
        simp only [List.mem_append, List.mem_singleton, not_or]
        exact ⟨hq, fun h0 => hne h0.symm⟩
  | pod p =>
    simp only [sysStep, applyStep, Option.some.injEq] at h
    subst h
    rcases handlePodEvent_spec env σ.st p with hp | ⟨mn, ms0, newPod, hne, _, hp⟩
    · simp only [hp]
      exact ⟨hk, hq, hf⟩
    · simp only [hp]
      exact ⟨by simp [lookupMs_setMs, hne, hk], hq, hf⟩
  | dispatch =>
    simp only [sysStep] at h
    cases hh : maybeStartBuild env σ.st with
    | none => simp [hh] at h
    | some pr =>
      obtain ⟨s1, task⟩ := pr
      simp only [hh, Option.some.injEq] at h
      subst h
      rcases maybeStartBuild_spec _ _ _ _ hh with ⟨_, h1, h2⟩ | ⟨mn, rest, ms0, hq0, hcb, hms0, hc⟩
      · subst h1
        subst h2
        exact ⟨hk, hq, by simpa using hf⟩
      · have hne : mn ≠ "" := by
          intro h0
          apply hq
          rw [hq0, h0]
          simp
        have hrest : "" ∉ rest := by
          intro h0
          apply hq
          rw [hq0]
          simp [h0]
        rw [hcb] at hf
        simp only [if_true] at hf
        rcases hc with ⟨err, _, hs1, ht⟩ | ⟨ms2, _, hs1, ht⟩
        · subst hs1
          subst ht
          exact ⟨by simp [lookupMs_setMs, hne, hk], hrest, by simp [hf]⟩
        · subst hs1
          exact ⟨by simp [lookupMs_setMs, hne, hk], hrest, by simp [hf, ht, hne]⟩
  | complete cb =>
    simp only [sysStep] at h
    by_cases h0 : σ.inFlight = 0
    · simp [h0] at h
    · rw [if_neg h0] at h
      cases hh : handleCompletedBuild env σ.st cb with
      | none => simp [hh] at h
      | some pr =>
        obtain ⟨s1, r⟩ := pr
        simp only [hh, Option.some.injEq] at h
        subst h
        obtain ⟨ms0, msEnd, ob, hms0, hs1, _⟩ := handleCompletedBuild_spec _ _ _ _ _ hh
        have hcb : σ.st.CurrentlyBuilding ≠ "" := by
          intro hc
          rw [hc] at hf
          simp only [if_true] at hf
          exact h0 hf
        rw [if_neg hcb] at hf
        subst hs1
        exact ⟨by simp [completedState, lookupMs_setMs, hcb, hk], hq, by simp [completedState, hf]⟩

theorem singleFlight_run (u : Upper) (trace : List (Env × Step)) (σ σ1 : Sys)
    (hn : ∀ p ∈ trace, "" ∉ initNames p.2) (hinv : SingleFlight σ)
    (h : sysRun u σ trace = some σ1) : SingleFlight σ1 := by
  induction trace generalizing σ with
  | nil =>
    simp only [sysRun, Option.some.injEq] at h
    subst h
    exact hinv
  | cons hd tl ih =>
    obtain ⟨env, st⟩ := hd
    simp only [sysRun] at h
    cases hh : sysStep u env σ st with
    | none => simp [hh] at h
    | some σ2 =>
      simp only [hh] at h
      exact ih σ2 (fun p hp => hn p (List.mem_cons_of_mem _ hp))
        (singleFlight_step u env σ σ2 st (hn (env, st) (List.mem_cons_self _ _)) hinv hh) h

theorem mem_foldl_setAdd (fs l : List String) (f : String) :
    f ∈ fs.foldl setAdd l ↔ f ∈ l ∨ f ∈ fs := by
  induction fs generalizing l with
  | nil => simp
  | cons g rest ih =>
    simp only [List.foldl_cons, ih, List.mem_cons]
    unfold setAdd
    by_cases hg : g ∈ l
    · simp only [if_pos hg]
      constructor
      · rintro (h | h)
        · exact Or.inl h
        · exact Or.inr (Or.inr h)
      · rintro (h | h | h)
        · exact Or.inl h
        · exact Or.inl (h ▸ hg)
        · exact Or.inr h
    · simp only [if_neg hg, List.mem_append, List.mem_singleton]
      tauto

theorem onlySpuriousChanges_nil (env : Env) : onlySpuriousChanges env [] = (true, none) := by
  have h : env.mapOrder [] = [] := (env.mapOrder_perm []).eq_nil
  simp [onlySpuriousChanges, h, spuriousLoop]

theorem pendingOf_setMs (s : EngineState) (k k2 : ManifestName) (v : ManifestState)
    (s1 : EngineState) (h : s1.ManifestStates = setMs s.ManifestStates k v) :
    pendingOf s1 k2 = if k = k2 then v.PendingFileChanges else pendingOf s k2 := by
  unfold pendingOf
  rw [h, lookupMs_setMs]
  by_cases hk : k = k2 <;> simp [hk]

theorem pristine_queueInv (s : EngineState) (h : Pristine s) : QueueInv s := by
  obtain ⟨_, h2, h3⟩ := h
  exact ⟨by simp [h2], fun hc => absurd h3 hc⟩

theorem pristine_step (u : Upper) (env : Env) (s s1 : EngineState) (st : Step)
    (hni : ∀ a, st ≠ Step.init a) (hp : Pristine s) (h : applyStep u env s st = some s1) :
    s1 = s := by
  obtain ⟨h1, h2, h3⟩ := hp
  cases st with
  | init a => exact absurd rfl (hni a)
  | fs e =>
    simp only [applyStep] at h
    obtain ⟨ms0, hms0, _⟩ := handleFSEvent_spec _ _ _ _ h
    simp [h1, lookupMs] at hms0
  | pod p =>
    simp only [applyStep, Option.some.injEq] at h
    subst h
    rcases handlePodEvent_spec env s p with hp | ⟨mn, ms0, newPod, _, hms0, _⟩
    · exact hp
    · simp [h1, lookupMs] at hms0
  | dispatch =>
    simp only [applyStep] at h
    cases hh : maybeStartBuild env s with
    | none => simp [hh] at h
    | some pr =>
      obtain ⟨s2, task⟩ := pr
      simp only [hh, Option.map_some', Option.some.injEq] at h
      subst h
      rcases maybeStartBuild_spec _ _ _ _ hh with ⟨_, h4, _⟩ | ⟨mn, rest, ms0, hq0, _⟩
      · exact h4
      · simp [h2] at hq0
  | complete cb =>
    simp only [applyStep] at h
    cases hh : handleCompletedBuild env s cb with
    | none => simp [hh] at h
    | some pr =>
      obtain ⟨s2, r⟩ := pr
      obtain ⟨ms0, _, _, hms0, _⟩ := handleCompletedBuild_spec _ _ _ _ _ hh
      simp [h1, lookupMs] at hms0

theorem queueInv_init (u : Upper) (env : Env) (s s1 : EngineState) (a : InitAction)
    (hnd : (initNames (Step.init a)).Nodup) (hp : Pristine s)
    (h : applyStep u env s (Step.init a) = some s1) : QueueInv s1 := by
  obtain ⟨_, h2, h3⟩ := hp
  simp only [applyStep] at h
  cases hh : handleInitAction u env s a with
  | none => simp [hh] at h
  | some pr =>
    obtain ⟨s2, r⟩ := pr
    simp only [hh, Option.map_some', Option.some.injEq] at h
    subst h
    obtain ⟨e1, _, _, e4, _⟩ := handleInitAction_spec _ _ _ _ _ _ hh
    refine ⟨?_, fun hc => absurd (e1.trans h3) hc⟩
    rcases e4 with ⟨_, hq⟩ | ⟨_, hq⟩
    · rw [hq, h2]
      simpa [initNames] using hnd
    · rw [hq, h2]
      exact List.nodup_nil

theorem queueInv_step (u : Upper) (env : Env) (s s1 : EngineState) (st : Step)
    (hni : ∀ a, st ≠ Step.init a) (hinv : QueueInv s) (h : applyStep u env s st = some s1) :
    QueueInv s1 := by
  obtain ⟨hnd, hcb⟩ := hinv
  cases st with
  | init a => exact absurd rfl (hni a)
  | fs e =>
    simp only [applyStep] at h
    obtain ⟨ms0, hms0, hcase⟩ := handleFSEvent_spec _ _ _ _ h
    have hgrow : pendingOf s e.manifestName ≠ [] →
        (fsEventState env ms0 e).PendingFileChanges ≠ [] := by
      intro hne
      have hp : pendingOf s e.manifestName = ms0.PendingFileChanges := by
        simp [pendingOf, hms0]
      rw [hp] at hne
      obtain ⟨f, hf⟩ := List.exists_mem_of_ne_nil _ hne
      have : f ∈ (fsEventState env ms0 e).PendingFileChanges := by
        simp only [fsEventState]
        exact (mem_foldl_setAdd _ _ _).mpr (Or.inl hf)
      exact List.ne_nil_of_mem this
    rcases hcase with ⟨hs1, _⟩ | ⟨hs1, hnin, hsp⟩
    · subst hs1
      refine ⟨hnd, ?_⟩
      intro hc hin
      simp only at hc hin
      rw [pendingOf_setMs s e.manifestName _ _ _ rfl]
      by_cases hk : e.manifestName = s.CurrentlyBuilding
      · rw [if_pos hk]
        exact hgrow (hk ▸ hcb hc hin)
      · rw [if_neg hk]
        exact hcb hc hin
    · subst hs1
      refine ⟨?_, ?_⟩
      · simp only
        rw [List.nodup_append]
        refine ⟨hnd, List.nodup_singleton _, ?_⟩
        intro x hx hx2
        simp only [List.mem_singleton] at hx2
        exact hnin (hx2 ▸ hx)
      · intro hc hin
        simp only at hc hin
        rw [pendingOf_setMs s e.manifestName _ _ _ rfl]
        by_cases hk : e.manifestName = s.CurrentlyBuilding
        · rw [if_pos hk]
          simp only
          intro hnil
          rw [hnil, onlySpuriousChanges_nil] at hsp
          simp at hsp
        · rw [if_neg hk]
          simp only [List.mem_append, List.mem_singleton] at hin
          rcases hin with hin | hin
          · exact hcb hc hin
          · exact absurd hin.symm hk
  | pod p =>
    simp only [applyStep, Option.some.injEq] at h
    subst h
    rcases handlePodEvent_spec env s p with hp | ⟨mn, ms0, newPod, _, hms0, hp⟩
    · rw [hp]
      exact ⟨hnd, hcb⟩
    · rw [hp]
      refine ⟨hnd, ?_⟩
      intro hc hin
      simp only at hc hin
      rw [pendingOf_setMs s mn _ _ _ rfl]
      by_cases hk : mn = s.CurrentlyBuilding
      · rw [if_pos hk]
        have := hcb hc hin
        simpa [pendingOf, ← hk, hms0] using this
      · rw [if_neg hk]
        exact hcb hc hin
  | dispatch =>
    simp only [applyStep] at h
    cases hh : maybeStartBuild env s with
    | none => simp [hh] at h
    | some pr =>
      obtain ⟨s2, task⟩ := pr
      simp only [hh, Option.map_some', Option.some.injEq] at h
      subst h
      rcases maybeStartBuild_spec _ _ _ _ hh with ⟨_, h4, _⟩ | ⟨mn, rest, ms0, hq0, _, _, hc⟩
      · rw [h4]
        exact ⟨hnd, hcb⟩
      · rw [hq0] at hnd
        obtain ⟨hmn, hrest⟩ := List.nodup_cons.mp hnd
        rcases hc with ⟨err, _, hs1, _⟩ | ⟨ms2, _, hs1, _⟩
        · subst hs1
          exact ⟨hrest, fun hc => absurd rfl hc⟩
        · subst hs1
          exact ⟨hrest, fun _ hin => absurd hin hmn⟩
  | complete cb =>
    simp only [applyStep] at h
    cases hh : handleCompletedBuild env s cb with
    | none => simp [hh] at h
    | some pr =>
      obtain ⟨s2, r⟩ := pr
      simp only [hh, Option.map_some', Option.some.injEq] at h
      subst h
      obtain ⟨ms0, msEnd, ob, _, hs1, _⟩ := handleCompletedBuild_spec _ _ _ _ _ hh
      subst hs1
      exact ⟨hnd, fun hc => absurd rfl hc⟩

theorem queueInv_run (u : Upper) (trace : List (Env × Step)) (s s1 : EngineState)
    (hnd : ∀ p ∈ trace, (initNames p.2).Nodup)
    (hstart : QueueInv s ∧ ((Pristine s ∧ initCount trace ≤ 1) ∨ initCount trace = 0))
    (h : runSteps u s trace = some s1) : QueueInv s1 := by
  induction trace generalizing s with
  | nil =>
    simp only [runSteps, Option.some.injEq] at h
    subst h
    exact hstart.1
  | cons hd tl ih =>
    obtain ⟨env, st⟩ := hd
    simp only [runSteps] at h
    cases hh : applyStep u env s st with
    | none => simp [hh] at h
    | some s2 =>
      simp only [hh] at h
      have hnd2 : ∀ p ∈ tl, (initNames p.2).Nodup := fun p hp => hnd p (List.mem_cons_of_mem _ hp)
      obtain ⟨hinv, hc⟩ := hstart
      by_cases hinit : ∃ a, st = Step.init a
      · obtain ⟨a, ha⟩ := hinit
        subst ha
        simp only [initCount] at hc
        rcases hc with ⟨hp, hcount⟩ | hcount
        · refine ih s2 hnd2 ⟨?_, Or.inr (by omega)⟩ h
          exact queueInv_init u env s s2 a (hnd (env, Step.init a) (List.mem_cons_self _ _)) hp hh
        · omega
      · have hni : ∀ a, st ≠ Step.init a := fun a ha => hinit ⟨a, ha⟩
        have hcnt : initCount ((env, st) :: tl) = initCount tl := by
          cases st with
          | init a => exact absurd rfl (hni a)
          | fs e => rfl
          | pod p => rfl
          | dispatch => rfl
          | complete cb => rfl
        rw [hcnt] at hc
        refine ih s2 hnd2 ⟨queueInv_step u env s s2 st hni hinv hh, ?_⟩ h
        rcases hc with ⟨hp, hcount⟩ | hcount
        · have := pristine_step u env s s2 st hni hp hh
          subst this
          exact Or.inl ⟨hp, hcount⟩
        · exact Or.inr hcount

theorem disjointChanges_setMs (s s1 : EngineState) (k : ManifestName) (v : ManifestState)
    (hinv : DisjointChanges s) (h : s1.ManifestStates = setMs s.ManifestStates k v)
    (hv : ∀ f ∈ v.PendingFileChanges, f ∉ v.CurrentlyBuildingFileChanges) :
    DisjointChanges s1 := by
  intro mn ms hms
  rw [h, lookupMs_setMs] at hms
  by_cases hk : k = mn
  · rw [if_pos hk] at hms
    simp only [Option.some.injEq] at hms
    subst hms
    exact hv
  · rw [if_neg hk] at hms
    exact hinv mn ms hms

theorem disjointChanges_step (u : Upper) (env : Env) (s s1 : EngineState) (st : Step)
    (hinv : DisjointChanges s) (hfs : fsAvoidsBuilding s st = true)
    (h : applyStep u env s st = some s1) : DisjointChanges s1 := by
  cases st with
  | init a =>
    simp only [applyStep] at h
    cases hh : handleInitAction u env s a with
    | none => simp [hh] at h
    | some pr =>
      obtain ⟨s2, r⟩ := pr
      simp only [hh, Option.map_some', Option.some.injEq] at h
      subst h
      obtain ⟨_, _, _, _, e5⟩ := handleInitAction_spec _ _ _ _ _ _ hh
      intro mn ms hms
      rcases e5 mn with ⟨_, h6⟩ | ⟨m, t, _, _, h6⟩
      · rw [h6] at hms
        exact hinv mn ms hms
      · rw [h6] at hms
        simp only [Option.some.injEq] at hms
        subst hms
        simp [NewManifestState]
  | fs e =>
    simp only [applyStep] at h
    obtain ⟨ms0, hms0, hcase⟩ := handleFSEvent_spec _ _ _ _ h
    have hb : buildingOf s e.manifestName = ms0.CurrentlyBuildingFileChanges := by
      simp [buildingOf, hms0]
    have hv : ∀ f ∈ (fsEventState env ms0 e).PendingFileChanges,
        f ∉ (fsEventState env ms0 e).CurrentlyBuildingFileChanges := by
      intro f hf
      simp only [fsEventState] at hf ⊢
      rcases (mem_foldl_setAdd _ _ _).mp hf with hf | hf
      · exact hinv _ _ hms0 f hf
      · simp only [fsAvoidsBuilding, List.all_eq_true, Bool.not_eq_true', hb] at hfs
        have := hfs f hf
        simpa using this
    rcases hcase with ⟨hs1, _⟩ | ⟨hs1, _, _⟩
    · exact disjointChanges_setMs s s1 e.manifestName (fsEventState env ms0 e) hinv
        (by rw [hs1]) hv
    · exact disjointChanges_setMs s s1 e.manifestName
        { fsEventState env ms0 e with QueueEntryTime := env.now } hinv (by rw [hs1]) hv
  | pod p =>
    simp only [applyStep, Option.some.injEq] at h
    subst h
    rcases handlePodEvent_spec env s p with hp | ⟨mn, ms0, newPod, _, hms0, hp⟩
    · rw [hp]
      exact hinv
    · exact disjointChanges_setMs s _ mn { ms0 with Pod := newPod } hinv (by rw [hp])
        (hinv mn ms0 hms0)
  | dispatch =>
    simp only [applyStep] at h
    cases hh : maybeStartBuild env s with
    | none => simp [hh] at h
    | some pr =>
      obtain ⟨s2, task⟩ := pr
      simp only [hh, Option.map_some', Option.some.injEq] at h
      subst h
      rcases maybeStartBuild_spec _ _ _ _ hh with ⟨_, h4, _⟩ | ⟨mn, rest, ms0, _, _, hms0, hc⟩
      · rw [h4]
        exact hinv
      · rcases hc with ⟨err, _, hs1, _⟩ | ⟨ms2, _, hs1, _⟩
        · exact disjointChanges_setMs s s2 mn
            (reloadFailed env { ms0 with QueueEntryTime := 0 } err) hinv (by rw [hs1])
            (hinv mn ms0 hms0)
        · exact disjointChanges_setMs s s2 mn (snapshotChanges env ms2) hinv (by rw [hs1])
            (by simp [snapshotChanges])
  | complete cb =>
    simp only [applyStep] at h
    cases hh : handleCompletedBuild env s cb with
    | none => simp [hh] at h
    | some pr =>
      obtain ⟨s2, r⟩ := pr
      simp only [hh, Option.map_some', Option.some.injEq] at h
      subst h
      obtain ⟨ms0, msEnd, ob, hms0, hs1, hp, _, _, _, _, hb⟩ :=
        handleCompletedBuild_spec _ _ _ _ _ hh
      refine disjointChanges_setMs s s2 s.CurrentlyBuilding msEnd hinv
        (by rw [hs1]; rfl) ?_
      intro f hf
      rw [hp] at hf
      rcases hb with hb | hb
      · rw [hb]
        exact hinv _ _ hms0 f hf
      · rw [hb]
        simp

theorem disjointChanges_run (u : Upper) (trace : List (Env × Step)) (s s1 : EngineState)
    (hinv : DisjointChanges s) (hfs : avoidsBuilding u s trace = true)
    (h : runSteps u s trace = some s1) : DisjointChanges s1 := by
  induction trace generalizing s with
  | nil =>
    simp only [runSteps, Option.some.injEq] at h
    subst h
    exact hinv
  | cons hd tl ih =>
    obtain ⟨env, st⟩ := hd
    simp only [runSteps] at h
    cases hh : applyStep u env s st with
    | none => simp [hh] at h
    | some s2 =>
      simp only [hh] at h
      simp only [avoidsBuilding, hh, Bool.and_eq_true] at hfs
      exact ih s2 (disjointChanges_step u env s s2 st hinv hfs.1 hh) hfs.2 h

theorem duringBuild_step (u : Upper) (env : Env) (s s1 : EngineState) (st : Step)
    (mn : ManifestName) (hmn : mn ≠ "") (hcb : s.CurrentlyBuilding = mn)
    (hmid : duringBuild st = true) (h : applyStep u env s st = some s1) :
    s1.CurrentlyBuilding = mn ∧ (∀ f ∈ pendingOf s mn, f ∈ pendingOf s1 mn) ∧
      (∀ q ∈ s.ManifestsToBuild, q ∈ s1.ManifestsToBuild) := by
  cases st with
  | init a => simp [duringBuild] at hmid
  | complete cb => simp [duringBuild] at hmid
  | fs e =>
    simp only [applyStep] at h
    obtain ⟨ms0, hms0, hcase⟩ := handleFSEvent_spec _ _ _ _ h
    have hp : ∀ (s2 : EngineState) (v : ManifestState),
        s2.ManifestStates = setMs s.ManifestStates e.manifestName v →
        v.PendingFileChanges = (fsEventState env ms0 e).PendingFileChanges →
        ∀ f ∈ pendingOf s mn, f ∈ pendingOf s2 mn := by
      intro s2 v hs2 hv f hf
      rw [pendingOf_setMs s e.manifestName mn v s2 hs2]
      by_cases hk : e.manifestName = mn
      · rw [if_pos hk, hv]
        simp only [fsEventState]
        refine (mem_foldl_setAdd _ _ _).mpr (Or.inl ?_)
        simpa [pendingOf, ← hk, hms0] using hf
      · rw [if_neg hk]
        exact hf
    rcases hcase with ⟨hs1, _⟩ | ⟨hs1, _, _⟩
    · refine ⟨by rw [hs1]; exact hcb, hp s1 (fsEventState env ms0 e) (by rw [hs1]) rfl, ?_⟩
      rw [hs1]
      exact fun q hq => hq
    · refine ⟨by rw [hs1]; exact hcb,
        hp s1 { fsEventState env ms0 e with QueueEntryTime := env.now } (by rw [hs1]) rfl, ?_⟩
      rw [hs1]
      exact fun q hq => List.mem_append_left _ hq
  | pod p =>
    simp only [applyStep, Option.some.injEq] at h
    subst h
    rcases handlePodEvent_spec env s p with hp | ⟨k, ms0, newPod, _, hms0, hp⟩
    · rw [hp]
      exact ⟨hcb, fun f hf => hf, fun q hq => hq⟩
    · rw [hp]
      refine ⟨hcb, ?_, fun q hq => hq⟩
      intro f hf
      rw [pendingOf_setMs s k mn { ms0 with Pod := newPod } _ rfl]
      by_cases hk : k = mn
      · rw [if_pos hk]
        simpa [pendingOf, ← hk, hms0] using hf
      · rw [if_neg hk]
        exact hf
  | dispatch =>
    simp only [applyStep] at h
    cases hh : maybeStartBuild env s with
    | none => simp [hh] at h
    | some pr =>
      obtain ⟨s2, task⟩ := pr
      simp only [hh, Option.map_some', Option.some.injEq] at h
      subst h
      rcases maybeStartBuild_spec _ _ _ _ hh with ⟨_, h4, _⟩ | ⟨k, rest, ms0, _, hcb0, _⟩
      · rw [h4]
        exact ⟨hcb, fun f hf => hf, fun q hq => hq⟩
      · exact absurd (hcb.symm.trans hcb0) hmn

theorem duringBuild_run (u : Upper) (mid : List (Env × Step)) (s s1 : EngineState)
    (mn : ManifestName) (hmn : mid = [] ∨ mn ≠ "") (hcb : s.CurrentlyBuilding = mn)
    (hmid : ∀ p ∈ mid, duringBuild p.2 = true) (h : runSteps u s mid = some s1) :
    s1.CurrentlyBuilding = mn ∧ (∀ f ∈ pendingOf s mn, f ∈ pendingOf s1 mn) ∧
      (∀ q ∈ s.ManifestsToBuild, q ∈ s1.ManifestsToBuild) := by
  induction mid generalizing s with
  | nil =>
    simp only [runSteps, Option.some.injEq] at h
    subst h
    exact ⟨hcb, fun f hf => hf, fun q hq => hq⟩
  | cons hd tl ih =>
    obtain ⟨env, st⟩ := hd
    have hne : mn ≠ "" := by
      rcases hmn with h0 | h0
      · simp at h0
      · exact h0
    simp only [runSteps] at h
    cases hh : applyStep u env s st with
    | none => simp [hh] at h
    | some s2 =>
      simp only [hh] at h
      obtain ⟨a1, a2, a3⟩ := duringBuild_step u env s s2 st mn hne hcb
        (hmid (env, st) (List.mem_cons_self _ _)) hh
      obtain ⟨b1, b2, b3⟩ := ih s2 (Or.inr hne) a1
        (fun p hp => hmid p (List.mem_cons_of_mem _ hp)) h
      exact ⟨b1, fun f hf => b2 f (a2 f hf), fun q hq => b3 q (a3 q hq)⟩

theorem dirty_kept (s s1 : EngineState) (k mn : ManifestName) (v ms0 ms ms1 : ManifestState)
    (hs1 : s1.ManifestStates = setMs s.ManifestStates k v)
    (hms0 : lookupMs s.ManifestStates k = some ms0)
    (hv : ms0.ConfigIsDirty = true → v.ConfigIsDirty = true)
    (hb : lookupMs s.ManifestStates mn = some ms) (hd : ms.ConfigIsDirty = true)
    (ha : lookupMs s1.ManifestStates mn = some ms1) : ms1.ConfigIsDirty = true := by
  rw [hs1, lookupMs_setMs] at ha
  by_cases hk : k = mn
  · rw [if_pos hk] at ha
    simp only [Option.some.injEq] at ha
    subst ha
    subst hk
    rw [hms0] at hb
    simp only [Option.some.injEq] at hb
    subst hb
    exact hv hd
  · rw [if_neg hk, hb] at ha
    simp only [Option.some.injEq] at ha
    subst ha
    exact hd

theorem wrapInt_eq_self (x : Int) (h1 : -9223372036854775808 ≤ x)
    (h2 : x < 9223372036854775808) : wrapInt x = x := by
  unfold wrapInt
  omega

theorem wrapInt_natCast (k : Nat) (h : k < 9223372036854775808) : wrapInt (k : Int) = k := by
  unfold wrapInt
  omega

theorem wrapInt_add (x y : Int) : wrapInt (wrapInt x + y) = wrapInt (x + y) := by
  unfold wrapInt
  omega

theorem count_complete (env : Env) (s s1 : EngineState) (cb : BuildCompleteAction)
    (r : Option GoError) (h : handleCompletedBuild env s cb = some (s1, r)) :
    s1.CompletedBuildCount = wrapInt (s.CompletedBuildCount + 1) := by
  obtain ⟨_, _, _, _, hs1, _⟩ := handleCompletedBuild_spec _ _ _ _ _ h
  rw [hs1]
  rfl

theorem count_other (u : Upper) (env : Env) (s s1 : EngineState) (st : Step)
    (hnc : ∀ cb, st ≠ Step.complete cb) (h : applyStep u env s st = some s1) :
    s1.CompletedBuildCount = s.CompletedBuildCount := by
  cases st with
  | complete cb => exact absurd rfl (hnc cb)
  | init a =>
    simp only [applyStep] at h
    cases hh : handleInitAction u env s a with
    | none => simp [hh] at h
    | some pr =>
      obtain ⟨s2, r⟩ := pr
      simp only [hh, Option.map_some', Option.some.injEq] at h
      subst h
      exact (handleInitAction_spec _ _ _ _ _ _ hh).2.1
  | fs e =>
    simp only [applyStep] at h
    obtain ⟨ms0, _, hcase⟩ := handleFSEvent_spec _ _ _ _ h
    rcases hcase with ⟨hs1, _⟩ | ⟨hs1, _, _⟩ <;> (rw [hs1])
  | pod p =>
    simp only [applyStep, Option.some.injEq] at h
    subst h
    rcases handlePodEvent_spec env s p with hp | ⟨k, ms0, newPod, _, _, hp⟩ <;> (rw [hp])
  | dispatch =>
    simp only [applyStep] at h
    cases hh : maybeStartBuild env s with
    | none => simp [hh] at h
    | some pr =>
      obtain ⟨s2, task⟩ := pr
      simp only [hh, Option.map_some', Option.some.injEq] at h
      subst h
      rcases maybeStartBuild_spec _ _ _ _ hh with ⟨_, h4, _⟩ | ⟨k, rest, ms0, _, _, _, hcase⟩
      · rw [h4]
      · rcases hcase with ⟨err, _, hs1, _⟩ | ⟨ms2, _, hs1, _⟩ <;> (rw [hs1])

theorem count_run (u : Upper) (trace : List (Env × Step)) (s s1 : EngineState) (c : Nat)
    (hc0 : s.CompletedBuildCount = wrapInt c)
    (h : runSteps u s trace = some s1) :
    s1.CompletedBuildCount = wrapInt ((c + completeCount trace : Nat) : Int) := by
  induction trace generalizing s c with
  | nil =>
    simp only [runSteps, Option.some.injEq] at h
    subst h
    simpa [completeCount] using hc0
  | cons hd tl ih =>
    obtain ⟨env, st⟩ := hd
    simp only [runSteps] at h
    cases hh : applyStep u env s st with
    | none => simp [hh] at h
    | some s2 =>
      simp only [hh] at h
      by_cases hc : ∃ cb, st = Step.complete cb
      · obtain ⟨cb, hcb⟩ := hc
        subst hcb
        simp only [applyStep] at hh
        cases hd : handleCompletedBuild env s cb with
        | none => simp [hd] at hh
        | some pr =>
          obtain ⟨s3, r⟩ := pr
          simp only [hd, Option.map_some', Option.some.injEq] at hh
          subst hh
          have h3 : s3.CompletedBuildCount = wrapInt ((c + 1 : Nat) : Int) := by
            rw [count_complete env s s3 cb r hd, hc0, wrapInt_add]
            rfl
          rw [ih s3 (c + 1) h3 h]
          simp only [completeCount]
          congr 2
          omega
      · have hnc : ∀ cb, st ≠ Step.complete cb := fun cb hcb => hc ⟨cb, hcb⟩
        have h3 : s2.CompletedBuildCount = wrapInt c := by
          rw [count_other u env s s2 st hnc hh, hc0]
        rw [ih s2 c h3 h]
        cases st with
        | complete cb => exact absurd rfl (hnc cb)
        | init a => rfl
        | fs e => rfl
        | pod p => rfl
        | dispatch => rfl

theorem handleCompletedBuild_returns (env : Env) (s : EngineState) (cb : BuildCompleteAction)
    (ms0 : ManifestState) (hk : lookupMs s.ManifestStates s.CurrentlyBuilding = some ms0) :
    ∃ s1 r, handleCompletedBuild env s cb = some (s1, r) := by
  unfold handleCompletedBuild
  simp only [hk]
  split
  · split
    · exact ⟨_, _, rfl⟩
    · split <;> exact ⟨_, _, rfl⟩
  · split
    · split
      · split <;> exact ⟨_, _, rfl⟩
      · exact ⟨_, _, rfl⟩
    · exact ⟨_, _, rfl⟩

theorem lookupMs_length_pos (m : List (ManifestName × ManifestState)) (k : ManifestName)
    (v : ManifestState) (h : lookupMs m k = some v) : 0 < m.length := by
  cases m with
  | nil => simp [lookupMs] at h
  | cons hd tl => simp

theorem init_queuedOnce (u : Upper) (env : Env) (m : Manifest) :
    ∃ s, loopIter u env emptyState
        (LoopEvent.action (Action.Init { WatchMounts := false, Manifests := [m] })) =
      LoopResult.running s ∧ QueuedOnce m.Name s := by
  obtain ⟨s, hs⟩ : ∃ s, handleInitAction u env emptyState
      { WatchMounts := false, Manifests := [m] } = some (s, none) := by
    simp [handleInitAction, emptyState, initStates, enqueueAll, enqueueBuild, lookupMs, setMs]
  have hl : loopIter u env emptyState
      (LoopEvent.action (Action.Init { WatchMounts := false, Manifests := [m] })) =
      LoopResult.running s := by
    have h0 : ¬ (emptyState.ManifestStates.length > 0) := by simp [emptyState]
    simp only [loopIter, if_neg h0, loopSelect, hs]
  refine ⟨s, hl, ?_⟩
  obtain ⟨e1, _, e3, e4, e5⟩ := handleInitAction_spec _ _ _ _ _ _ hs
  refine ⟨?_, e1, e3, ?_⟩
  · rcases e4 with ⟨_, hq⟩ | ⟨hne, _⟩
    · simpa [emptyState] using hq
    · exact absurd rfl hne
  · rcases e5 m.Name with ⟨hnin, _⟩ | ⟨m2, t, hm1, _, hm3⟩
    · simp at hnin
    · exact ⟨_, hm3, rfl⟩

theorem dispatch_queuedOnce (env : Env) (mn : ManifestName) (s : EngineState)
    (h : QueuedOnce mn s) :
    ∃ s1 task, maybeStartBuild env s = some (s1, task) ∧ BuildingLast s1 := by
  obtain ⟨hq, hcb, hw, ms, hms, hd⟩ := h
  obtain ⟨s1, task, h1⟩ : ∃ s1 task, maybeStartBuild env s = some (s1, task) := by
    simp [maybeStartBuild, hq, hcb, hms, reloadIfDirty, hd]
  refine ⟨s1, task, h1, ?_⟩
  rcases maybeStartBuild_spec _ _ _ _ h1 with ⟨h2, _, _⟩ | ⟨k, rest, ms0, hq0, _, hms0, hcase⟩
  · rcases h2 with h2 | h2
    · rw [hq] at h2
      exact absurd h2 (by simp)
    · exact absurd hcb h2
  · rw [hq] at hq0
    simp only [List.cons.injEq] at hq0
    obtain ⟨hk, hrest⟩ := hq0
    subst hk
    subst hrest
    rw [hms] at hms0
    simp only [Option.some.injEq] at hms0
    subst hms0
    rcases hcase with ⟨err, hre, _, _⟩ | ⟨ms2, _, hs1, _⟩
    · simp [reloadIfDirty, hd] at hre
    · rw [hs1]
      exact ⟨rfl, hw, snapshotChanges env ms2, by simp [lookupMs_setMs]⟩

theorem dispatch_buildingLast (env : Env) (s : EngineState) (h : BuildingLast s) :
    maybeStartBuild env s = some (s, none) := by
  simp [maybeStartBuild, h.1]

theorem loopIter_dispatched (u : Upper) (env : Env) (mn : ManifestName) (s : EngineState)
    (ev : LoopEvent) (h : QueuedOnce mn s ∨ BuildingLast s) :
    ∃ s1, BuildingLast s1 ∧ loopIter u env s ev = loopSelect u env s1 ev := by
  rcases h with h | h
  · obtain ⟨s1, task, h1, h2⟩ := dispatch_queuedOnce env mn s h
    obtain ⟨_, _, _, ms, hms, _⟩ := h
    have hl := lookupMs_length_pos _ _ _ hms
    exact ⟨s1, h2, by simp [loopIter, hl, h1]⟩
  · refine ⟨s, h, ?_⟩
    simp only [loopIter, dispatch_buildingLast env s h]
    split <;> rfl

theorem ticks_then_failure (u : Upper) (mn : ManifestName) (ticks : List Env) (envc : Env)
    (r : BuildResult) (err : GoError) (rest : List (Env × LoopEvent)) (s : EngineState)
    (hnp : envc.isPermanentError err = false) (h : QueuedOnce mn s ∨ BuildingLast s) :
    loopError (runLoop u s (ticks.map (fun e => (e, LoopEvent.tick)) ++
      (envc, LoopEvent.action (Action.BuildComplete { Result := r, Error := some err })) :: rest))
      = some { msg := "build failed: " ++ err.msg, dyn := 0 } := by
  induction ticks generalizing s with
  | nil =>
    obtain ⟨s1, ⟨_, hw, ms, hms⟩, h2⟩ := loopIter_dispatched u envc mn s
      (LoopEvent.action (Action.BuildComplete { Result := r, Error := some err })) h
    simp only [List.map_nil, List.nil_append, runLoop, h2]
    simp [loopSelect, handleCompletedBuild, hms, hnp, hw, loopError]
  | cons env tl ih =>
    obtain ⟨s1, hs1, h2⟩ := loopIter_dispatched u env mn s LoopEvent.tick h
    simp only [List.map_cons, List.cons_append, runLoop, h2, loopSelect]
    exact ih s1 (Or.inr hs1)

/-! ## Lemmas on the classifier -/

theorem spuriousLoop_true_iff (env : Env) (l : List String) :
    (spuriousLoop env l).1 = true ↔ ∀ f ∈ l, env.IsBrokenSymlink f = Except.ok true := by
  induction l with
  | nil => simp [spuriousLoop]
  | cons f rest ih =>
    simp only [spuriousLoop, List.mem_cons, forall_eq_or_imp]
    cases hf : env.IsBrokenSymlink f with
    | error err => simp
    | ok broken =>
      cases broken with
      | false => simp
      | true => simpa using ih

theorem all_mapOrder_iff (env : Env) (l : List String) (P : String → Prop) :
    (∀ f ∈ env.mapOrder l, P f) ↔ ∀ f ∈ l, P f := by
  constructor
  · intro h f hf
    exact h f ((env.mapOrder_perm l).mem_iff.mpr hf)
  · intro h f hf
    exact h f ((env.mapOrder_perm l).mem_iff.mp hf)

/-! ## Lemmas on the Tiltfile reload -/

theorem getNewManifestFromTiltfile_error_iff (env : Env) (mn : ManifestName) :
    (∃ err, getNewManifestFromTiltfile env mn = Except.error err) ↔
      ((∃ err, env.tiltfileLoad = Except.error err) ∨
        (∃ t err, env.tiltfileLoad = Except.ok t ∧ t mn = Except.error err) ∨
        (∃ t l, env.tiltfileLoad = Except.ok t ∧ t mn = Except.ok l ∧ l.length ≠ 1)) := by
  unfold getNewManifestFromTiltfile
  cases hl : env.tiltfileLoad with
  | error e => simp
  | ok t =>
    cases ht : t mn with
    | error e => simp [ht]
    | ok l =>
      match l with
      | [] => simp [ht]
      | [m] => simp [ht]
      | m :: m2 :: rest => simp [ht]

/-! ## Lemmas on the log filter -/

theorem startsWith_iff (s p : String) : startsWith s p = true ↔ ∃ t : String, s = p ++ t := by
  unfold startsWith
  rw [List.isPrefixOf_iff_prefix]
  constructor
  · rintro ⟨t, ht⟩
    refine ⟨⟨t⟩, ?_⟩
    apply String.ext
    simp [← ht]
  · rintro ⟨t, ht⟩
    refine ⟨t.data, ?_⟩
    rw [ht]
    simp

/-! ## Lemmas on pod events -/

theorem handlePodEvent_replaces (env : Env) (s : EngineState) (p : V1Pod) (mn : ManifestName)
    (ms0 : ManifestState)
    (hl : labelOf p.Labels env.ManifestNameLabel = mn) (hne : mn ≠ "")
    (hk : lookupMs s.ManifestStates mn = some ms0)
    (hc : ms0.Pod = UnknownPod ∨ ms0.Pod.Name = p.Name ∨
      ms0.Pod.StartedAt < p.CreationTimestamp) :
    handlePodEvent env s p =
      { s with ManifestStates :=
          setMs s.ManifestStates mn { ms0 with Pod := podOfEvent env p } } := by
  simp only [handlePodEvent, hl, if_neg hne, hk]
  rw [if_pos hc]
  rfl

theorem handlePodEvent_ignores (env : Env) (s : EngineState) (p : V1Pod) (mn : ManifestName)
    (ms0 : ManifestState)
    (hl : labelOf p.Labels env.ManifestNameLabel = mn)
    (hk : lookupMs s.ManifestStates mn = some ms0)
    (hc : ¬ (ms0.Pod = UnknownPod ∨ ms0.Pod.Name = p.Name ∨
      ms0.Pod.StartedAt < p.CreationTimestamp)) :
    handlePodEvent env s p = s := by
  by_cases hne : mn = ""
  · simp only [handlePodEvent, hl, if_pos hne]
  · simp only [handlePodEvent, hl, if_neg hne, hk]
    rw [if_neg hc]

theorem applyPods_increasing (env : Env) (mn : ManifestName) (hne : mn ≠ "")
    (pods : List V1Pod) (last : V1Pod) (s : EngineState) (ms0 : ManifestState)
    (hk : lookupMs s.ManifestStates mn = some ms0)
    (hl : ∀ p ∈ pods ++ [last], labelOf p.Labels env.ManifestNameLabel = mn)
    (hsorted : (pods ++ [last]).Pairwise
      (fun a b => a.CreationTimestamp < b.CreationTimestamp))
    (hold : ms0.Pod = UnknownPod ∨
      ∀ p ∈ pods ++ [last], ms0.Pod.StartedAt < p.CreationTimestamp) :
    podOf (applyPods env s (pods ++ [last])) mn = some (podOfEvent env last) := by
  induction pods generalizing s ms0 with
  | nil =>
    have hc : ms0.Pod = UnknownPod ∨ ms0.Pod.Name = last.Name ∨
        ms0.Pod.StartedAt < last.CreationTimestamp := by
      rcases hold with h | h
      · exact Or.inl h
      · exact Or.inr (Or.inr (h last (by simp)))
    simp only [List.nil_append, applyPods, List.foldl_cons, List.foldl_nil]
    rw [handlePodEvent_replaces env s last mn ms0 (hl last (by simp)) hne hk hc]
    simp [podOf, lookupMs_setMs]
  | cons p rest ih =>
    have hc : ms0.Pod = UnknownPod ∨ ms0.Pod.Name = p.Name ∨
        ms0.Pod.StartedAt < p.CreationTimestamp := by
      rcases hold with h | h
      · exact Or.inl h
      · exact Or.inr (Or.inr (h p (by simp)))
    simp only [List.cons_append, applyPods, List.foldl_cons]
    rw [handlePodEvent_replaces env s p mn ms0 (hl p (by simp)) hne hk hc]
    simp only [List.cons_append, List.pairwise_cons] at hsorted
    exact ih _ { ms0 with Pod := podOfEvent env p } (by simp [lookupMs_setMs])
      (fun q hq => hl q (by simp only [List.cons_append, List.mem_cons]; exact Or.inr hq))
      hsorted.2 (Or.inr (fun q hq => hsorted.1 q hq))

theorem applyPods_older_ignored (env : Env) (mn : ManifestName) (pods : List V1Pod)
    (s : EngineState) (ms0 : ManifestState)
    (hk : lookupMs s.ManifestStates mn = some ms0)
    (hpod : ms0.Pod ≠ UnknownPod)
    (hl : ∀ p ∈ pods, labelOf p.Labels env.ManifestNameLabel = mn)
    (hold : ∀ p ∈ pods, p.CreationTimestamp < ms0.Pod.StartedAt ∧ p.Name ≠ ms0.Pod.Name) :
    applyPods env s pods = s := by
  induction pods with
  | nil => rfl
  | cons p rest ih =>
    have hc : ¬ (ms0.Pod = UnknownPod ∨ ms0.Pod.Name = p.Name ∨
        ms0.Pod.StartedAt < p.CreationTimestamp) := by
      obtain ⟨h1, h2⟩ := hold p (by simp)
      rintro (h | h | h)
      · exact hpod h
      · exact h2 h.symm
      · exact lt_asymm h1 h
    simp only [applyPods, List.foldl_cons]
    rw [handlePodEvent_ignores env s p mn ms0 (hl p (by simp)) hk hc]
    exact ih (fun q hq => hl q (List.mem_cons_of_mem _ hq))
      (fun q hq => hold q (List.mem_cons_of_mem _ hq))

/-! ## Lemmas on the loop with successful builds -/

theorem enqueueAll_returns (env : Env) (l : List Manifest) (s : EngineState)
    (h : ∀ m ∈ l, ∃ ms, lookupMs s.ManifestStates m.Name = some ms) :
    ∃ s1, enqueueAll env s l = some s1 := by
  induction l generalizing s with
  | nil => exact ⟨s, rfl⟩
  | cons m rest ih =>
    obtain ⟨ms, hms⟩ := h m (by simp)
    simp only [enqueueAll, enqueueBuild, hms]
    apply ih
    intro m2 hm2
    obtain ⟨ms2, hms2⟩ := h m2 (List.mem_cons_of_mem _ hm2)
    simp only [lookupMs_setMs]
    by_cases hk : m.Name = m2.Name
    · exact ⟨_, by rw [if_pos hk]⟩
    · exact ⟨ms2, by rw [if_neg hk]; exact hms2⟩

theorem handleInitAction_returns (u : Upper) (env : Env) (s : EngineState)
    (manifests : List Manifest) :
    ∃ s1, handleInitAction u env s { WatchMounts := false, Manifests := manifests }
      = some (s1, none) := by
  obtain ⟨s2, hs2⟩ := enqueueAll_returns env manifests
    { initStates s manifests with WatchMounts := false } (by
      intro m hm
      rcases initStates_lookup s manifests m.Name with ⟨hnin, _⟩ | ⟨m2, _, _, h3⟩
      · exact absurd (List.mem_map.mpr ⟨m, hm, rfl⟩) hnin
      · exact ⟨_, h3⟩)
  simp only [handleInitAction, Bool.false_eq_true, if_false, hs2]
  exact ⟨_, rfl⟩

theorem init_buildsLeft (u : Upper) (env : Env) (manifests : List Manifest) :
    ∃ s, loopIter u env emptyState
        (LoopEvent.action (Action.Init { WatchMounts := false, Manifests := manifests }))
        = LoopResult.running s ∧
      BuildsLeft manifests.length 0 s ∧
      s.ManifestsToBuild = manifests.map Manifest.Name := by
  obtain ⟨s, hs⟩ := handleInitAction_returns u env emptyState manifests
  have h0 : ¬ (emptyState.ManifestStates.length > 0) := by simp [emptyState]
  have hl : loopIter u env emptyState
      (LoopEvent.action (Action.Init { WatchMounts := false, Manifests := manifests }))
      = LoopResult.running s := by
    simp only [loopIter, if_neg h0, loopSelect, hs]
  obtain ⟨e1, e2, e3, e4, e5⟩ := handleInitAction_spec _ _ _ _ _ _ hs
  have hq : s.ManifestsToBuild = manifests.map Manifest.Name := by
    rcases e4 with ⟨_, hq⟩ | ⟨hne, _⟩
    · simpa [emptyState] using hq
    · exact absurd rfl hne
  have hcb : s.CurrentlyBuilding = "" := e1
  have hcount : s.CompletedBuildCount = 0 := e2
  refine ⟨s, hl, ⟨e3, ?_, fun h => absurd hcb h, ?_, ?_⟩, hq⟩
  · intro q hqm
    rw [hq] at hqm
    rcases e5 q with ⟨hnin, _⟩ | ⟨m, t, _, _, h3⟩
    · exact absurd hqm hnin
    · exact ⟨_, h3, rfl⟩
  · rw [hcount]
    rfl
  · rw [hq, hcb]
    simp

theorem dispatch_buildsLeft (env : Env) (n c : Nat) (s : EngineState) (mn : ManifestName)
    (rest : List ManifestName) (h : BuildsLeft n c s) (hcb : s.CurrentlyBuilding = "")
    (hq : s.ManifestsToBuild = mn :: rest) :
    ∃ s1 task ms1, maybeStartBuild env s = some (s1, task) ∧
      s1.CurrentlyBuilding = mn ∧ s1.ManifestsToBuild = rest ∧ s1.WatchMounts = false ∧
      s1.CompletedBuildCount = s.CompletedBuildCount ∧
      lookupMs s1.ManifestStates mn = some ms1 ∧
      (∀ q ∈ rest, ∃ ms, lookupMs s1.ManifestStates q = some ms ∧ ms.ConfigIsDirty = false) := by
  obtain ⟨hw, hknown, _, _⟩ := h
  obtain ⟨ms0, hms0, hd⟩ := hknown mn (by rw [hq]; simp)
  have h1 : reloadIfDirty env mn { ms0 with QueueEntryTime := 0 }
      = Except.ok { ms0 with QueueEntryTime := 0 } := by
    simp [reloadIfDirty, hd]
  obtain ⟨s1, task, hm⟩ : ∃ s1 task, maybeStartBuild env s = some (s1, task) := by
    simp [maybeStartBuild, hq, hcb, hms0, h1]
  rcases maybeStartBuild_spec _ _ _ _ hm with ⟨h2, _, _⟩ | ⟨k, rest2, ms, hq0, _, hms, hcase⟩
  · rcases h2 with h2 | h2
    · rw [hq] at h2
      exact absurd h2 (by simp)
    · exact absurd hcb h2
  · rw [hq] at hq0
    simp only [List.cons.injEq] at hq0
    obtain ⟨hk, hrest⟩ := hq0
    subst hk
    subst hrest
    rw [hms0] at hms
    simp only [Option.some.injEq] at hms
    subst hms
    rcases hcase with ⟨err, hre, _, _⟩ | ⟨ms2, hre, hs1, _⟩
    · rw [h1] at hre
      exact Except.noConfusion hre
    · rw [h1] at hre
      simp only [Except.ok.injEq] at hre
      subst hre
      refine ⟨s1, task, snapshotChanges env { ms0 with QueueEntryTime := 0 }, hm,
        by rw [hs1], by rw [hs1], by rw [hs1]; exact hw, by rw [hs1],
        by rw [hs1]; simp [lookupMs_setMs], ?_⟩
      intro q hqr
      obtain ⟨msq, hmsq, hdq⟩ := hknown q (by rw [hq]; exact List.mem_cons_of_mem _ hqr)
      rw [hs1]
      simp only [lookupMs_setMs]
      by_cases hk : mn = q
      · rw [if_pos hk]
        exact ⟨_, rfl, hd⟩
      · rw [if_neg hk]
        exact ⟨msq, hmsq, hdq⟩

theorem complete_success (env : Env) (s : EngineState) (r : BuildResult) (ms0 : ManifestState)
    (hopen : ∀ lb, env.OpenService lb = none)
    (hk : lookupMs s.ManifestStates s.CurrentlyBuilding = some ms0) :
    ∃ s1 msEnd, handleCompletedBuild env s { Result := r, Error := none } = some (s1, none) ∧
      s1.CurrentlyBuilding = "" ∧ s1.ManifestsToBuild = s.ManifestsToBuild ∧
      s1.WatchMounts = s.WatchMounts ∧
      s1.CompletedBuildCount = wrapInt (s.CompletedBuildCount + 1) ∧
      s1.ManifestStates = setMs s.ManifestStates s.CurrentlyBuilding msEnd ∧
      msEnd.ConfigIsDirty = ms0.ConfigIsDirty := by
  have hlbs : (deployRecorded env { Result := r, Error := none }
      (buildFinished env { Result := r, Error := none } ms0)).Lbs
      = env.ToLoadBalancerSpecs r.Entities := rfl
  cases hl : env.ToLoadBalancerSpecs r.Entities with
  | nil =>
    refine ⟨completedState s (buildRecorded { Result := r, Error := none }
      (deployRecorded env { Result := r, Error := none }
        (buildFinished env { Result := r, Error := none } ms0))) s.OpenBrowserOnNextLB,
      buildRecorded { Result := r, Error := none }
      (deployRecorded env { Result := r, Error := none }
        (buildFinished env { Result := r, Error := none } ms0)), ?_, rfl, rfl, rfl, rfl, rfl, rfl⟩
    simp only [handleCompletedBuild, hk, hlbs, hl]
  | cons lb rest =>
    cases hob : s.OpenBrowserOnNextLB with
    | false =>
      refine ⟨completedState s (buildRecorded { Result := r, Error := none }
        (deployRecorded env { Result := r, Error := none }
          (buildFinished env { Result := r, Error := none } ms0))) false,
        buildRecorded { Result := r, Error := none }
        (deployRecorded env { Result := r, Error := none }
          (buildFinished env { Result := r, Error := none } ms0)), ?_, rfl, rfl, rfl, rfl, rfl,
        rfl⟩
      simp [handleCompletedBuild, hk, hlbs, hl, hob]
    | true =>
      refine ⟨completedState s (buildRecorded { Result := r, Error := none }
        (deployRecorded env { Result := r, Error := none }
          (buildFinished env { Result := r, Error := none } ms0))) false,
        buildRecorded { Result := r, Error := none }
        (deployRecorded env { Result := r, Error := none }
          (buildFinished env { Result := r, Error := none } ms0)), ?_, rfl, rfl, rfl, rfl, rfl,
        rfl⟩
      simp [handleCompletedBuild, hk, hlbs, hl, hob, hopen lb]

theorem dispatch_noop (env : Env) (s : EngineState)
    (h : s.ManifestsToBuild = [] ∨ s.CurrentlyBuilding ≠ "") :
    maybeStartBuild env s = some (s, none) := by
  unfold maybeStartBuild
  split
  · rfl
  · rename_i mn rest hq
    rcases h with h | h
    · rw [hq] at h
      exact absurd h (by simp)
    · rw [if_pos h]

theorem loopIter_tick_buildsLeft (u : Upper) (env : Env) (n c : Nat) (s : EngineState)
    (h : BuildsLeft n c s) (hq : "" ∉ s.ManifestsToBuild) :
    ∃ s1, loopIter u env s LoopEvent.tick = LoopResult.running s1 ∧ BuildsLeft n c s1 ∧
      "" ∉ s1.ManifestsToBuild := by
  by_cases hms : s.ManifestStates.length > 0
  · simp only [loopIter, if_pos hms]
    by_cases hidle : s.ManifestsToBuild = [] ∨ s.CurrentlyBuilding ≠ ""
    · rw [dispatch_noop env s hidle]
      exact ⟨s, rfl, h, hq⟩
    · rw [not_or] at hidle
      obtain ⟨hne, hcb⟩ := hidle
      have hcb2 : s.CurrentlyBuilding = "" := by simpa using hcb
      obtain ⟨mn, rest, hqe⟩ := List.exists_cons_of_ne_nil hne
      obtain ⟨s1, task, ms1, hm, d1, d2, d3, d4, d5, d6⟩ :=
        dispatch_buildsLeft env n c s mn rest h hcb2 hqe
      rw [hm]
      have hmn : mn ≠ "" := by
        intro h0
        apply hq
        rw [hqe, h0]
        simp
      obtain ⟨_, _, _, hcount, hmeasure⟩ := h
      refine ⟨s1, rfl, ⟨d3, ?_, ?_, ?_, ?_⟩, ?_⟩
      · rw [d2]
        exact d6
      · intro _
        rw [d1]
        exact ⟨ms1, d5⟩
      · rw [d4]
        exact hcount
      · rw [d1, d2, if_neg hmn]
        rw [hqe, hcb2] at hmeasure
        simp only [List.length_cons, if_true] at hmeasure
        omega
      · rw [d2]
        intro h0
        apply hq
        rw [hqe]
        exact List.mem_cons_of_mem _ h0
  · simp only [loopIter, if_neg hms, loopSelect]
    exact ⟨s, rfl, h, hq⟩

theorem loopSelect_success (u : Upper) (env : Env) (s s1 : EngineState)
    (cb : BuildCompleteAction) (h : handleCompletedBuild env s cb = some (s1, none)) :
    loopSelect u env s (LoopEvent.action (Action.BuildComplete cb))
      = if s1.WatchMounts = false ∧ s1.ManifestsToBuild = [] then LoopResult.returned s1 none
        else LoopResult.running s1 := by
  simp only [loopSelect, h]
  cases hw : s1.WatchMounts <;> cases hq : s1.ManifestsToBuild <;> simp

theorem loopIter_complete_buildsLeft (u : Upper) (env : Env) (n c : Nat) (s : EngineState)
    (r : BuildResult) (h : BuildsLeft n c s) (hlt : c < n)
    (hopen : ∀ lb, env.OpenService lb = none) :
    ∃ s1, BuildsLeft n (c + 1) s1 ∧
      s1.CurrentlyBuilding = "" ∧
      (∀ q ∈ s1.ManifestsToBuild, q ∈ s.ManifestsToBuild) ∧
      loopIter u env s (LoopEvent.action (Action.BuildComplete { Result := r, Error := none }))
        = if s1.ManifestsToBuild = [] then LoopResult.returned s1 none
          else LoopResult.running s1 := by
  obtain ⟨hw, hknown, hcbk, hcount, hmeasure⟩ := h
  by_cases hcb : s.CurrentlyBuilding = ""
  · rw [hcb] at hmeasure
    simp only [if_true] at hmeasure
    have hne : s.ManifestsToBuild ≠ [] := by
      intro h0
      rw [h0] at hmeasure
      simp only [List.length_nil] at hmeasure
      omega
    obtain ⟨mn, rest, hqe⟩ := List.exists_cons_of_ne_nil hne
    obtain ⟨s2, task, ms1, hm, d1, d2, d3, d4, d5, d6⟩ :=
      dispatch_buildsLeft env n c s mn rest
        ⟨hw, hknown, hcbk, hcount, by rw [hcb]; simpa using hmeasure⟩ hcb hqe
    obtain ⟨ms0, hms0, _⟩ := hknown mn (by rw [hqe]; simp)
    have hms : s.ManifestStates.length > 0 := lookupMs_length_pos _ _ _ hms0
    obtain ⟨s1, msEnd, c1, c2, c3, c4, c5, c6, c7⟩ :=
      complete_success env s2 r ms1 hopen (by rw [d1]; exact d5)
    refine ⟨s1, ⟨by rw [c4]; exact d3, ?_, fun hc => absurd c2 hc,
      by rw [c5, d4, hcount, wrapInt_add]; rfl, ?_⟩, c2, ?_, ?_⟩
    · intro q hq
      rw [c3, d2] at hq
      obtain ⟨msq, hmsq, hdq⟩ := d6 q hq
      rw [c6, d1]
      simp only [lookupMs_setMs]
      by_cases hk : mn = q
      · rw [if_pos hk]
        refine ⟨msEnd, rfl, ?_⟩
        rw [c7]
        rw [← hk, d5] at hmsq
        simp only [Option.some.injEq] at hmsq
        rw [hmsq]
        exact hdq
      · rw [if_neg hk]
        exact ⟨msq, hmsq, hdq⟩
    · rw [c3, d2, c2]
      rw [hqe] at hmeasure
      simp only [List.length_cons] at hmeasure
      simp only [if_true]
      omega
    · intro q hq
      rw [c3, d2] at hq
      rw [hqe]
      exact List.mem_cons_of_mem _ hq
    · simp only [loopIter, if_pos hms, hm]
      rw [loopSelect_success u env s2 s1 _ c1]
      have hw1 : s1.WatchMounts = false := by rw [c4]; exact d3
      by_cases hq1 : s1.ManifestsToBuild = []
      · rw [if_pos ⟨hw1, hq1⟩, if_pos hq1]
      · rw [if_neg (fun hc => hq1 hc.2), if_neg hq1]
  · obtain ⟨ms0, hms0⟩ := hcbk hcb
    have hms : s.ManifestStates.length > 0 := lookupMs_length_pos _ _ _ hms0
    obtain ⟨s1, msEnd, c1, c2, c3, c4, c5, c6, c7⟩ := complete_success env s r ms0 hopen hms0
    refine ⟨s1, ⟨by rw [c4]; exact hw, ?_, fun hc => absurd c2 hc,
      by rw [c5, hcount, wrapInt_add]; rfl, ?_⟩, c2, ?_, ?_⟩
    · intro q hq
      rw [c3] at hq
      obtain ⟨msq, hmsq, hdq⟩ := hknown q hq
      rw [c6]
      simp only [lookupMs_setMs]
      by_cases hk : s.CurrentlyBuilding = q
      · rw [if_pos hk]
        refine ⟨msEnd, rfl, ?_⟩
        rw [c7]
        rw [← hk, hms0] at hmsq
        simp only [Option.some.injEq] at hmsq
        rw [hmsq]
        exact hdq
      · rw [if_neg hk]
        exact ⟨msq, hmsq, hdq⟩
    · rw [c3, c2]
      rw [if_neg hcb] at hmeasure
      simp only [if_true]
      omega
    · intro q hq
      rw [c3] at hq
      exact hq
    · simp only [loopIter, if_pos hms, dispatch_noop env s (Or.inr hcb)]
      rw [loopSelect_success u env s s1 _ c1]
      have hw1 : s1.WatchMounts = false := by rw [c4]; exact hw
      by_cases hq1 : s1.ManifestsToBuild = []
      · rw [if_pos ⟨hw1, hq1⟩, if_pos hq1]
      · rw [if_neg (fun hc => hq1 hc.2), if_neg hq1]

theorem runLoop_success (u : Upper) (n c : Nat) (evs : List (Env × Option BuildResult))
    (s : EngineState) (h : BuildsLeft n c s) (hlt : c < n)
    (hopen : ∀ p ∈ evs, ∀ lb, p.1.OpenService lb = none)
    (hmode : "" ∉ s.ManifestsToBuild ∨ ∀ p ∈ evs, p.2.isSome = true) :
    (c + completions evs < n →
      ∃ s1, runLoop u s (evs.map successEvent) = LoopResult.running s1 ∧
        s1.CompletedBuildCount = wrapInt ((c + completions evs : Nat) : Int)) ∧
    (n ≤ c + completions evs →
      ∃ s1, runLoop u s (evs.map successEvent) = LoopResult.returned s1 none ∧
        s1.CompletedBuildCount = wrapInt (n : Int) ∧ s1.ManifestsToBuild = []) := by
  induction evs generalizing s c with
  | nil =>
    simp only [completions, Nat.add_zero, List.map_nil, runLoop]
    exact ⟨fun _ => ⟨s, rfl, h.2.2.2.1⟩, fun hge => absurd hlt (by omega)⟩
  | cons ev tl ih =>
    obtain ⟨env, o⟩ := ev
    have hopen2 : ∀ p ∈ tl, ∀ lb, p.1.OpenService lb = none :=
      fun p hp => hopen p (List.mem_cons_of_mem _ hp)
    cases o with
    | none =>
      have hq : "" ∉ s.ManifestsToBuild := by
        rcases hmode with hm | hm
        · exact hm
        · have := hm (env, none) (by simp)
          simp at this
      obtain ⟨s1, hit, hb, hq1⟩ := loopIter_tick_buildsLeft u env n c s h hq
      have := ih c s1 hb hlt hopen2 (Or.inl hq1)
      simp only [List.map_cons, successEvent, runLoop, hit, completions]
      exact this
    | some r =>
      obtain ⟨s1, hb, hcb1, hsub, hit⟩ := loopIter_complete_buildsLeft u env n c s r h hlt
        (hopen (env, some r) (by simp))
      have hmode2 : "" ∉ s1.ManifestsToBuild ∨ ∀ p ∈ tl, p.2.isSome = true := by
        rcases hmode with hm | hm
        · exact Or.inl (fun h0 => hm (hsub _ h0))
        · exact Or.inr (fun p hp => hm p (List.mem_cons_of_mem _ hp))
      obtain ⟨_, _, _, hcount1, hmeasure⟩ := id hb
      rw [hcb1] at hmeasure
      simp only [if_true] at hmeasure
      simp only [List.map_cons, successEvent, runLoop, hit, completions]
      by_cases hq1 : s1.ManifestsToBuild = []
      · rw [if_pos hq1]
        simp only
        have hn : c + 1 = n := by
          rw [hq1] at hmeasure
          simp only [List.length_nil] at hmeasure
          omega
        refine ⟨fun hlt2 => ?_, fun _ => ⟨s1, rfl, by rw [hcount1, hn], hq1⟩⟩
        exfalso
        omega
      · rw [if_neg hq1]
        simp only
        have hlt1 : c + 1 < n := by
          have : 0 < s1.ManifestsToBuild.length := List.length_pos.mpr hq1
          omega
        have := ih (c + 1) s1 hb hlt1 hopen2 hmode2
        have e : c + 1 + completions tl = c + (completions tl + 1) := by omega
        rw [e] at this
        exact this

/-! ## Lemmas on the keys of `ManifestStates` -/

theorem isKey_setMs (s s1 : EngineState) (k k2 : ManifestName) (v : ManifestState)
    (h : s1.ManifestStates = setMs s.ManifestStates k v) :
    isKey s1 k2 = (decide (k = k2) || isKey s k2) := by
  unfold isKey
  rw [h, lookupMs_setMs]
  by_cases hk : k = k2 <;> simp [hk]

theorem isKey_setMs_known (s s1 : EngineState) (k k2 : ManifestName) (v : ManifestState)
    (h : s1.ManifestStates = setMs s.ManifestStates k v) (hk : isKey s k = true) :
    isKey s1 k2 = isKey s k2 := by
  rw [isKey_setMs s s1 k k2 v h]
  by_cases hkk : k = k2
  · subst hkk
    simp [hk]
  · simp [hkk]

theorem handleInitAction_total (u : Upper) (env : Env) (s : EngineState) (a : InitAction) :
    ∃ s1 r, handleInitAction u env s a = some (s1, r) := by
  obtain ⟨s2, hs2⟩ := enqueueAll_returns env a.Manifests
    { initStates s a.Manifests with WatchMounts := a.WatchMounts } (by
      intro m hm
      rcases initStates_lookup s a.Manifests m.Name with ⟨hnin, _⟩ | ⟨m2, _, _, h3⟩
      · exact absurd (List.mem_map.mpr ⟨m, hm, rfl⟩) hnin
      · exact ⟨_, h3⟩)
  unfold handleInitAction
  simp only [hs2]
  split
  · exact ⟨_, _, rfl⟩
  · exact ⟨_, _, rfl⟩

theorem handleFSEvent_returns (env : Env) (s : EngineState) (e : manifestFilesChangedAction)
    (hk : isKey s e.manifestName = true) : ∃ s1, handleFSEvent env s e = some s1 := by
  obtain ⟨ms0, hms0⟩ := Option.isSome_iff_exists.mp hk
  simp only [handleFSEvent, hms0]
  split
  · exact ⟨_, rfl⟩
  · split
    · exact ⟨_, rfl⟩
    · simp [enqueueBuild, lookupMs_setMs_self]

theorem maybeStartBuild_returns (env : Env) (s : EngineState)
    (hq : ∀ q ∈ s.ManifestsToBuild, isKey s q = true) :
    ∃ s1 task, maybeStartBuild env s = some (s1, task) := by
  unfold maybeStartBuild
  split
  · exact ⟨_, _, rfl⟩
  · rename_i mn rest hqe
    split
    · exact ⟨_, _, rfl⟩
    · obtain ⟨ms0, hms0⟩ := Option.isSome_iff_exists.mp (hq mn (by rw [hqe]; simp))
      simp only [hms0]
      split
      · exact ⟨_, _, rfl⟩
      · exact ⟨_, _, rfl⟩

theorem knownNames_step (u : Upper) (env : Env) (σ : Sys) (st : Step)
    (hinv : KnownNames σ) (hal : stepAllowed σ st = true) :
    ∃ σ1, sysStep u env σ st = some σ1 ∧ KnownNames σ1 := by
  obtain ⟨hq, hcb, hfl⟩ := hinv
  cases st with
  | init a =>
    obtain ⟨s1, r, hh⟩ := handleInitAction_total u env σ.st a
    obtain ⟨e1, _, _, e4, e5⟩ := handleInitAction_spec _ _ _ _ _ _ hh
    have hmono : ∀ k, isKey σ.st k = true → isKey s1 k = true := by
      intro k hk
      unfold isKey at hk ⊢
      rcases e5 k with ⟨_, h6⟩ | ⟨m, t, _, _, h6⟩
      · rw [h6]
        exact hk
      · rw [h6]
        rfl
    have hnew : ∀ k ∈ a.Manifests.map Manifest.Name, isKey s1 k = true := by
      intro k hk
      unfold isKey
      rcases e5 k with ⟨hnin, _⟩ | ⟨m, t, _, _, h6⟩
      · exact absurd hk hnin
      · rw [h6]
        rfl
    refine ⟨{ st := s1, inFlight := σ.inFlight }, by simp [sysStep, applyStep, hh], ?_, ?_, ?_⟩
    · intro q hqm
      simp only at hqm
      rcases e4 with ⟨_, h6⟩ | ⟨_, h6⟩
      · rw [h6, List.mem_append] at hqm
        rcases hqm with hqm | hqm
        · exact hmono q (hq q hqm)
        · exact hnew q hqm
      · rw [h6] at hqm
        exact hmono q (hq q hqm)
    · intro hne
      simp only at hne ⊢
      rw [e1] at hne ⊢
      exact hmono _ (hcb hne)
    · simp only
      rw [e1]
      rcases hfl with h | h
      · exact Or.inl (hmono _ h)
      · exact Or.inr h
  | fs e =>
    have hk : isKey σ.st e.manifestName = true := hal
    obtain ⟨s1, hh⟩ := handleFSEvent_returns env σ.st e hk
    obtain ⟨ms0, hms0, hcase⟩ := handleFSEvent_spec _ _ _ _ hh
    have hkeys : ∀ k, isKey s1 k = isKey σ.st k ∧ s1.CurrentlyBuilding = σ.st.CurrentlyBuilding ∧
        ∀ q ∈ s1.ManifestsToBuild, q ∈ σ.st.ManifestsToBuild ∨ q = e.manifestName := by
      intro k
      rcases hcase with ⟨hs1, _⟩ | ⟨hs1, _, _⟩
      · refine ⟨isKey_setMs_known σ.st s1 e.manifestName k (fsEventState env ms0 e)
          (by rw [hs1]) hk, by rw [hs1], ?_⟩
        rw [hs1]
        exact fun q hqm => Or.inl hqm
      · refine ⟨isKey_setMs_known σ.st s1 e.manifestName k
          { fsEventState env ms0 e with QueueEntryTime := env.now } (by rw [hs1]) hk,
          by rw [hs1], ?_⟩
        rw [hs1]
        intro q hqm
        simp only [List.mem_append, List.mem_singleton] at hqm
        exact hqm
    refine ⟨{ st := s1, inFlight := σ.inFlight }, by simp [sysStep, applyStep, hh], ?_, ?_, ?_⟩
    · intro q hqm
      simp only at hqm ⊢
      rw [(hkeys q).1]
      rcases (hkeys q).2.2 q hqm with h | h
      · exact hq q h
      · rw [h]
        exact hk
    · intro hne
      simp only at hne ⊢
      rw [(hkeys "").2.1] at hne ⊢
      rw [(hkeys _).1]
      exact hcb hne
    · simp only
      rw [(hkeys "").1, (hkeys "").2.1]
      exact hfl
  | pod p =>
    refine ⟨{ st := handlePodEvent env σ.st p, inFlight := σ.inFlight },
      by simp [sysStep, applyStep], ?_⟩
    rcases handlePodEvent_spec env σ.st p with hp | ⟨mn, ms0, newPod, _, hms0, hp⟩
    · rw [hp]
      exact ⟨hq, hcb, hfl⟩
    · have hk : isKey σ.st mn = true := by simp [isKey, hms0]
      have hkeys : ∀ k, isKey (handlePodEvent env σ.st p) k = isKey σ.st k := fun k =>
        isKey_setMs_known σ.st _ mn k { ms0 with Pod := newPod } (by rw [hp]) hk
      have hcbe : (handlePodEvent env σ.st p).CurrentlyBuilding = σ.st.CurrentlyBuilding := by
        rw [hp]
      have hqe : (handlePodEvent env σ.st p).ManifestsToBuild = σ.st.ManifestsToBuild := by
        rw [hp]
      refine ⟨?_, ?_, ?_⟩
      · intro q hqm
        simp only at hqm ⊢
        rw [hqe] at hqm
        rw [hkeys]
        exact hq q hqm
      · intro hne
        simp only at hne ⊢
        rw [hcbe] at hne ⊢
        rw [hkeys]
        exact hcb hne
      · simp only
        rw [hkeys, hcbe]
        exact hfl
  | dispatch =>
    obtain ⟨s1, task, hh⟩ := maybeStartBuild_returns env σ.st hq
    refine ⟨{ st := s1, inFlight := σ.inFlight + (if task.isSome then 1 else 0) },
      by simp [sysStep, hh], ?_⟩
    rcases maybeStartBuild_spec _ _ _ _ hh with ⟨_, h1, h2⟩ | ⟨mn, rest, ms0, hqe, hcb0, hms0, hc⟩
    · subst h1
      subst h2
      exact ⟨hq, hcb, by simpa using hfl⟩
    · have hk : isKey σ.st mn = true := by simp [isKey, hms0]
      have hrest : ∀ q ∈ rest, isKey σ.st q = true := fun q hqm =>
        hq q (by rw [hqe]; exact List.mem_cons_of_mem _ hqm)
      rw [hcb0] at hfl
      simp only [if_true] at hfl
      rcases hc with ⟨err, _, hs1, ht⟩ | ⟨ms2, _, hs1, ht⟩
      · have hkeys : ∀ k, isKey s1 k = isKey σ.st k := fun k =>
          isKey_setMs_known σ.st s1 mn k (reloadFailed env { ms0 with QueueEntryTime := 0 } err)
            (by rw [hs1]) hk
        have hcb1 : s1.CurrentlyBuilding = "" := by rw [hs1]
        have hq1 : s1.ManifestsToBuild = rest := by rw [hs1]
        refine ⟨?_, fun hne => absurd hcb1 hne, ?_⟩
        · intro q hqm
          simp only at hqm ⊢
          rw [hq1] at hqm
          rw [hkeys]
          exact hrest q hqm
        · simp only
          rw [hkeys, hcb1, ht]
          simpa using hfl
      · have hkeys : ∀ k, isKey s1 k = isKey σ.st k := fun k =>
          isKey_setMs_known σ.st s1 mn k (snapshotChanges env ms2) (by rw [hs1]) hk
        have hcb1 : s1.CurrentlyBuilding = mn := by rw [hs1]
        have hq1 : s1.ManifestsToBuild = rest := by rw [hs1]
        refine ⟨?_, ?_, ?_⟩
        · intro q hqm
          simp only at hqm ⊢
          rw [hq1] at hqm
          rw [hkeys]
          exact hrest q hqm
        · intro _
          simp only
          rw [hcb1, hkeys]
          exact hk
        · simp only
          rw [hkeys, hcb1, ht]
          by_cases hempty : isKey σ.st "" = true
          · exact Or.inl hempty
          · have h : σ.inFlight ≤ 0 := by
              rcases hfl with h | h
              · exact absurd h hempty
              · exact h
            have hmn : mn ≠ "" := by
              intro h0
              rw [h0] at hk
              exact hempty hk
            refine Or.inr ?_
            rw [if_neg hmn]
            simp only [if_true]
            omega
  | complete cb =>
    have hin : σ.inFlight ≠ 0 := by simpa [stepAllowed] using hal
    have hk : isKey σ.st σ.st.CurrentlyBuilding = true := by
      by_cases hc : σ.st.CurrentlyBuilding = ""
      · rw [hc] at hfl ⊢
        simp only [if_true] at hfl
        rcases hfl with h | h
        · exact h
        · omega
      · exact hcb hc
    obtain ⟨ms0, hms0⟩ := Option.isSome_iff_exists.mp hk
    obtain ⟨s1, r, hh⟩ := handleCompletedBuild_returns env σ.st cb ms0 hms0
    obtain ⟨_, msEnd, ob, _, hs1, _⟩ := handleCompletedBuild_spec _ _ _ _ _ hh
    have hkeys : ∀ k, isKey s1 k = isKey σ.st k := fun k =>
      isKey_setMs_known σ.st s1 σ.st.CurrentlyBuilding k msEnd (by rw [hs1]; rfl) hk
    have hcb1 : s1.CurrentlyBuilding = "" := by rw [hs1]; rfl
    have hq1 : s1.ManifestsToBuild = σ.st.ManifestsToBuild := by rw [hs1]; rfl
    refine ⟨{ st := s1, inFlight := σ.inFlight - 1 }, by simp [sysStep, hin, hh], ?_, ?_, ?_⟩
    · intro q hqm
      simp only at hqm ⊢
      rw [hq1] at hqm
      rw [hkeys]
      exact hq q hqm
    · intro hne
      exact absurd hcb1 hne
    · simp only
      rw [hkeys, hcb1]
      rcases hfl with h | h
      · exact Or.inl h
      · refine Or.inr ?_
        simp only [if_true]
        split at h <;> omega

theorem knownNames_run (u : Upper) (trace : List (Env × Step)) (σ : Sys)
    (hinv : KnownNames σ) (hal : allowedTrace u σ trace = true) :
    ∃ σ1, sysRun u σ trace = some σ1 ∧ KnownNames σ1 := by
  induction trace generalizing σ with
  | nil => exact ⟨σ, rfl, hinv⟩
  | cons hd tl ih =>
    obtain ⟨env, st⟩ := hd
    simp only [allowedTrace, Bool.and_eq_true] at hal
    obtain ⟨σ2, h2, hinv2⟩ := knownNames_step u env σ st hinv hal.1
    have hal2 : allowedTrace u σ2 tl = true := by
      have := hal.2
      rw [h2] at this
      exact this
    obtain ⟨σ1, h1, hinv1⟩ := ih σ2 hinv2 hal2
    exact ⟨σ1, by simp only [sysRun, h2]; exact h1, hinv1⟩

/-! ## Lemmas on repeated builds -/

theorem runSteps_append (u : Upper) (a b : List (Env × Step)) (s : EngineState) :
    runSteps u s (a ++ b) = (runSteps u s a).bind (fun s1 => runSteps u s1 b) := by
  induction a generalizing s with
  | nil => rfl
  | cons hd tl ih =>
    obtain ⟨env, st⟩ := hd
    simp only [List.cons_append, runSteps]
    cases applyStep u env s st with
    | none => rfl
    | some s1 => exact ih s1

theorem cycleState_reached :
    runSteps offUpper emptyState (traceManyBuilds 2) = some (cycleState 2) := by
  decide

theorem buildCycle_run (c : Int) :
    runSteps offUpper (cycleState c) buildCycle = some (cycleState (wrapInt (c + 1))) := rfl

theorem buildCycles_run (k c : Nat) :
    runSteps offUpper (cycleState (wrapInt (c : Int))) (buildCycles k)
      = some (cycleState (wrapInt ((c + k : Nat) : Int))) := by
  induction k generalizing c with
  | zero => rfl
  | succ k ih =>
    simp only [buildCycles, runSteps_append, buildCycle_run, Option.some_bind]
    rw [wrapInt_add]
    have := ih (c + 1)
    rw [show ((c + 1 : Nat) : Int) = (c : Int) + 1 from rfl] at this
    rw [this]
    congr 3
    omega

theorem buildCycles_add (a b : Nat) :
    buildCycles (a + b) = buildCycles a ++ buildCycles b := by
  induction a with
  | zero => simp [buildCycles]
  | succ a ih =>
    rw [Nat.succ_add]
    simp only [buildCycles, ih, List.append_assoc]

theorem traceManyBuilds_run (k : Nat) (h2 : 2 ≤ k) :
    runSteps offUpper emptyState (traceManyBuilds k) = some (cycleState (wrapInt (k : Int))) := by
  obtain ⟨j, rfl⟩ : ∃ j, k = 2 + j := ⟨k - 2, by omega⟩
  have h := cycleState_reached
  simp only [traceManyBuilds] at h ⊢
  rw [buildCycles_add, ← List.cons_append, runSteps_append, h, Option.some_bind]
  exact buildCycles_run j 2

theorem buildCycles_count (k : Nat) : completeCount (buildCycles k) = k := by
  induction k with
  | zero => rfl
  | succ k ih =>
    show completeCount (dispatchStep :: (plainEnv, Step.complete buildOk)
      :: (plainEnv, Step.fs editM1) :: buildCycles k) = k + 1
    simp only [dispatchStep, completeCount, ih]

theorem traceManyBuilds_count (k : Nat) : completeCount (traceManyBuilds k) = k :=
  buildCycles_count k

/-! ## C1: at most one build task in flight -/

/-- C1 (counterexample). After an `InitAction` with an unnamed manifest and the
manifest `a`, two calls of `maybeStartBuild` launch two build tasks with no
`BuildCompleteAction` consumed in between: the first leaves `CurrentlyBuilding`
equal to the empty name of the manifest it dispatched. -/
theorem C1_two_tasks_in_flight :
    (sysRun offUpper { st := emptyState, inFlight := 0 } traceUnnamed).map Sys.inFlight
      = some 2 := by
  decide

/-- C1 (amended). For every sequence of engine loop steps from the empty
engine state in which no `InitAction` carries a manifest with the empty name,
and every `BuildCompleteAction` is delivered by a launched build task, one per
task: the number of build tasks launched and not yet answered never exceeds
one; and `maybeStartBuild` launches a task only when `CurrentlyBuilding` is
empty. -/
theorem C1_single_flight (u : Upper) (trace : List (Env × Step)) (σ : Sys)
    (hn : ∀ p ∈ trace, "" ∉ initNames p.2)
    (h : sysRun u { st := emptyState, inFlight := 0 } trace = some σ) :
    σ.inFlight ≤ 1 ∧
    ∀ (env : Env) (s s1 : EngineState) (task : BuildTask),
      maybeStartBuild env s = some (s1, some task) → s.CurrentlyBuilding = "" := by
  have h0 : SingleFlight { st := emptyState, inFlight := 0 } := by
    simp [SingleFlight, emptyState, lookupMs]
  obtain ⟨_, _, hf⟩ := singleFlight_run u trace _ σ hn h0 h
  refine ⟨?_, ?_⟩
  · rw [hf]
    split <;> omega
  · intro env s s1 task hm
    rcases maybeStartBuild_spec _ _ _ _ hm with ⟨_, _, h3⟩ | ⟨_, _, _, _, hcb, _⟩
    · exact Option.noConfusion h3
    · exact hcb

/-- Witness of C1: two named manifests are initialised, the first build starts,
its manifest is edited, the build completes and the second build starts; at
the end one task is in flight. -/
theorem C1_single_flight_witness :
    (∀ p ∈ traceTwoBuilds, "" ∉ initNames p.2) ∧
    ∃ σ, sysRun offUpper { st := emptyState, inFlight := 0 } traceTwoBuilds = some σ ∧
      σ.inFlight ≤ 1 :=
  ⟨by decide, _, rfl, (C1_single_flight offUpper traceTwoBuilds _ (by decide) rfl).1⟩

/-! ## C2: queued and building -/

/-- C2 (counterexample). A name is in `ManifestsToBuild` and equal to
`CurrentlyBuilding` at the same time: after an fs event for the manifest being
built; after the dispatch of a name that one `InitAction` carried twice; after
a second `InitAction` for the manifest being built (both with nothing
pending); and, for an unnamed manifest, whenever it is queued and nothing is
building. -/
theorem C2_queued_while_building :
    (runSteps offUpper emptyState traceEditDuringBuild).map
        (fun s => (s.CurrentlyBuilding, s.ManifestsToBuild)) = some ("m1", ["m1"]) ∧
    (runSteps offUpper emptyState traceDoubleName).map
        (fun s => (s.CurrentlyBuilding, s.ManifestsToBuild, pendingOf s "m1"))
      = some ("m1", ["m1"], []) ∧
    (runSteps offUpper emptyState traceDoubleInit).map
        (fun s => (s.CurrentlyBuilding, s.ManifestsToBuild, pendingOf s "m1"))
      = some ("m1", ["m1"], []) ∧
    (runSteps offUpper emptyState
        [(plainEnv, Step.init { WatchMounts := true, Manifests := [manifestNoName] })]).map
        (fun s => (s.CurrentlyBuilding, s.ManifestsToBuild)) = some ("", [""]) := by
  decide

/-- C2 (amended). In every engine state reachable from the empty state by
reducer steps with at most one `InitAction`, whose manifests have pairwise
distinct names: a non-empty name that is equal to `CurrentlyBuilding` is in
`ManifestsToBuild` only when file changes are pending for it (an fs event
during its build has queued it again). -/
theorem C2_queued_and_building_has_pending (u : Upper) (trace : List (Env × Step))
    (s : EngineState) (mn : ManifestName)
    (hsingle : SingleInit trace)
    (h : runSteps u emptyState trace = some s)
    (hne : mn ≠ "") (hcb : s.CurrentlyBuilding = mn) (hin : mn ∈ s.ManifestsToBuild) :
    pendingOf s mn ≠ [] := by
  have h0 : Pristine emptyState := ⟨rfl, rfl, rfl⟩
  obtain ⟨_, hq⟩ := queueInv_run u trace emptyState s hsingle.2
    ⟨pristine_queueInv _ h0, Or.inl ⟨h0, hsingle.1⟩⟩ h
  subst hcb
  exact hq hne hin

/-- Witness of C2: `m1` is edited while it is being built; it is queued and
building, and `main.go` is pending for it. -/
theorem C2_queued_and_building_has_pending_witness :
    SingleInit traceEditDuringBuild ∧
    ∃ s, runSteps offUpper emptyState traceEditDuringBuild = some s ∧
      s.CurrentlyBuilding = "m1" ∧ "m1" ∈ s.ManifestsToBuild ∧ pendingOf s "m1" ≠ [] :=
  ⟨⟨by decide, by decide⟩, _, rfl, rfl, by decide,
    C2_queued_and_building_has_pending offUpper traceEditDuringBuild _ "m1"
      ⟨by decide, by decide⟩ rfl (by decide) rfl (by decide)⟩

/-! ## C3: no name twice in the queue -/

/-- C3 (counterexample). A name occurs twice in `ManifestsToBuild`: after one
`InitAction` that names `m1` twice, and after two `InitAction`s for `m1`. -/
theorem C3_name_queued_twice :
    (runSteps offUpper emptyState
        [(plainEnv, Step.init { WatchMounts := true, Manifests := [manifestM1, manifestM1] })]).map
        EngineState.ManifestsToBuild = some ["m1", "m1"] ∧
    (runSteps offUpper emptyState [initM1 true, initM1 true]).map
        EngineState.ManifestsToBuild = some ["m1", "m1"] := by
  decide

/-- C3 (amended). In every engine state reachable from the empty state by
reducer steps with at most one `InitAction`, whose manifests have pairwise
distinct names, each manifest name occurs at most once in `ManifestsToBuild`. -/
theorem C3_queue_nodup (u : Upper) (trace : List (Env × Step)) (s : EngineState)
    (hsingle : SingleInit trace)
    (h : runSteps u emptyState trace = some s) :
    s.ManifestsToBuild.Nodup := by
  have h0 : Pristine emptyState := ⟨rfl, rfl, rfl⟩
  exact (queueInv_run u trace emptyState s hsingle.2
    ⟨pristine_queueInv _ h0, Or.inl ⟨h0, hsingle.1⟩⟩ h).1

/-- Witness of C3: the trace of two builds has one `InitAction` with the
distinct names `m1` and `a`, and ends with a duplicate-free queue. -/
theorem C3_queue_nodup_witness :
    SingleInit traceTwoBuilds ∧
    ∃ s, runSteps offUpper emptyState traceTwoBuilds = some s ∧ s.ManifestsToBuild.Nodup :=
  ⟨⟨by decide, by decide⟩, _, rfl,
    C3_queue_nodup offUpper traceTwoBuilds _ ⟨by decide, by decide⟩ rfl⟩

/-! ## C4: pending and building paths -/

/-- C4 (counterexample). The path `main.go`, edited before the build of `m1`
starts and again while it runs, is in `PendingFileChanges` and in
`CurrentlyBuildingFileChanges` of `m1` at the same time. -/
theorem C4_path_pending_and_building :
    (runSteps offUpper emptyState traceSameFileTwice).map
        (fun s => (pendingOf s "m1", buildingOf s "m1")) = some (["main.go"], ["main.go"]) := by
  decide

/-- C4 (amended). In every engine state reachable from the empty state by
reducer steps in which no fs event reports a path that is at that moment
listed in the `CurrentlyBuildingFileChanges` of its manifest: for every
manifest, the paths in `PendingFileChanges` and the paths listed in
`CurrentlyBuildingFileChanges` are disjoint. -/
theorem C4_pending_building_disjoint (u : Upper) (trace : List (Env × Step)) (s : EngineState)
    (mn : ManifestName)
    (hfs : avoidsBuilding u emptyState trace = true)
    (h : runSteps u emptyState trace = some s) :
    (pendingOf s mn).Disjoint (buildingOf s mn) := by
  have h0 : DisjointChanges emptyState := by
    intro k ms hms
    simp [emptyState, lookupMs] at hms
  have h1 := disjointChanges_run u trace emptyState s h0 hfs h
  intro f hp hb
  unfold pendingOf at hp
  unfold buildingOf at hb
  cases hl : lookupMs s.ManifestStates mn with
  | none => simp [hl] at hp
  | some ms =>
    simp only [hl] at hp hb
    exact h1 mn ms hl f hp hb

/-- Witness of C4: `main.go` is being built and `util.go` is edited meanwhile;
the pending set and the list being built are disjoint. -/
theorem C4_pending_building_disjoint_witness :
    avoidsBuilding offUpper emptyState traceOtherFile = true ∧
    ∃ s, runSteps offUpper emptyState traceOtherFile = some s ∧
      (pendingOf s "m1").Disjoint (buildingOf s "m1") :=
  ⟨by decide, _, rfl,
    C4_pending_building_disjoint offUpper traceOtherFile _ "m1" (by decide) rfl⟩

/-! ## C5: changes during a build are kept -/

/-- C5 (counterexample). The manifest with the empty name is being built, so
`CurrentlyBuilding` is its name; `main.go` is edited, and the classifier finds
the pending set not spurious; the dispatcher, which runs before the next action
is received, finds `CurrentlyBuilding` empty and starts the queued build, which
takes the pending set; then the first build completes.  After the completion
the manifest is not in `ManifestsToBuild`, and its pending set is empty. -/
theorem C5_unnamed_not_requeued :
    (reached traceUnnamedBuilding).CurrentlyBuilding = editUnnamed.manifestName ∧
    handleFSEvent plainEnv (reached traceUnnamedBuilding) editUnnamed
      = some (reached traceUnnamedEdited) ∧
    (onlySpuriousChanges plainEnv
      (pendingOf (reached traceUnnamedEdited) editUnnamed.manifestName)).1 = false ∧
    runSteps offUpper (reached traceUnnamedEdited) [dispatchStep]
      = some (reached traceUnnamedRestarted) ∧
    handleCompletedBuild plainEnv (reached traceUnnamedRestarted) buildOk
      = some (reached traceUnnamedCompleted, none) ∧
    editUnnamed.manifestName ∉ (reached traceUnnamedCompleted).ManifestsToBuild ∧
    pendingOf (reached traceUnnamedCompleted) editUnnamed.manifestName = [] := by
  decide

/-- C5 (amended). Files that arrive during a build are not lost: for an fs
event for the manifest `mn` applied by `handleFSEvent` while
`CurrentlyBuilding = mn`, any fs events, pod events and dispatcher calls after
it (none at all when `mn` is the empty name), and then the
`BuildCompleteAction` applied by `handleCompletedBuild`: every path of the event is in the
`CurrentlyBuildingFileChanges` of the completed build or in the
`PendingFileChanges` of `mn` after the completion, and if the classifier found
the pending set of `mn` not spurious, `mn` is in `ManifestsToBuild` after the
completion. -/
theorem C5_changes_during_build_kept (u : Upper) (env1 env2 : Env) (s s1 s2 s3 : EngineState)
    (e : manifestFilesChangedAction) (mid : List (Env × Step)) (cb : BuildCompleteAction)
    (r : Option GoError)
    (hcb : s.CurrentlyBuilding = e.manifestName)
    (hmid : ∀ p ∈ mid, duringBuild p.2 = true)
    (hmn : mid = [] ∨ e.manifestName ≠ "")
    (hfs : handleFSEvent env1 s e = some s1)
    (hrun : runSteps u s1 mid = some s2)
    (hdone : handleCompletedBuild env2 s2 cb = some (s3, r)) :
    (∀ f ∈ e.files, f ∈ buildingOf s2 e.manifestName ∨ f ∈ pendingOf s3 e.manifestName) ∧
    ((onlySpuriousChanges env1 (pendingOf s1 e.manifestName)).1 = false →
      e.manifestName ∈ s3.ManifestsToBuild) := by
  obtain ⟨ms0, hms0, hcase⟩ := handleFSEvent_spec _ _ _ _ hfs
  have h1 : s1.CurrentlyBuilding = e.manifestName ∧
      pendingOf s1 e.manifestName = (fsEventState env1 ms0 e).PendingFileChanges ∧
      ((onlySpuriousChanges env1 (fsEventState env1 ms0 e).PendingFileChanges).1 = false →
        e.manifestName ∈ s1.ManifestsToBuild) := by
    rcases hcase with ⟨hs1, hq⟩ | ⟨hs1, _, _⟩
    · refine ⟨by rw [hs1]; exact hcb, ?_, ?_⟩
      · rw [pendingOf_setMs s e.manifestName e.manifestName (fsEventState env1 ms0 e) s1
          (by rw [hs1])]
        simp
      · intro hsp
        rcases hq with hq | hq
        · rw [hq] at hsp
          exact Bool.noConfusion hsp
        · rw [hs1]
          exact hq
    · refine ⟨by rw [hs1]; exact hcb, ?_, ?_⟩
      · rw [pendingOf_setMs s e.manifestName e.manifestName
          { fsEventState env1 ms0 e with QueueEntryTime := env1.now } s1 (by rw [hs1])]
        simp
      · intro _
        rw [hs1]
        simp
  obtain ⟨h1a, h1b, h1c⟩ := h1
  obtain ⟨h2a, h2b, h2c⟩ := duringBuild_run u mid s1 s2 e.manifestName hmn h1a hmid hrun
  obtain ⟨ms2, msEnd, ob, hms2, hs3, hp, _⟩ := handleCompletedBuild_spec _ _ _ _ _ hdone
  have h3 : pendingOf s3 e.manifestName = pendingOf s2 e.manifestName := by
    rw [pendingOf_setMs s2 s2.CurrentlyBuilding e.manifestName msEnd s3 (by rw [hs3]; rfl)]
    rw [if_pos h2a, hp]
    simp [pendingOf, ← h2a, hms2]
  refine ⟨?_, ?_⟩
  · intro f hf
    refine Or.inr ?_
    rw [h3]
    apply h2b
    rw [h1b]
    simp only [fsEventState]
    exact (mem_foldl_setAdd _ _ _).mpr (Or.inr hf)
  · intro hsp
    rw [h1b] at hsp
    have : s3.ManifestsToBuild = s2.ManifestsToBuild := by rw [hs3]; rfl
    rw [this]
    exact h2c _ (h1c hsp)

/-- Witness of C5: `main.go` is edited while `m1` is being built, the
dispatcher runs, the build completes; `main.go` is pending and `m1` is queued
afterwards. -/
theorem C5_changes_during_build_kept_witness :
    (reached traceBuilding).CurrentlyBuilding = editM1.manifestName ∧
    handleFSEvent plainEnv (reached traceBuilding) editM1 = some (reached traceEditDuringBuild) ∧
    runSteps offUpper (reached traceEditDuringBuild) [dispatchStep]
      = some (reached traceEditDuringBuild) ∧
    handleCompletedBuild plainEnv (reached traceEditDuringBuild) buildOk
      = some (reached (traceEditDuringBuild ++ [(plainEnv, Step.complete buildOk)]), none) ∧
    (∀ f ∈ editM1.files, f ∈ buildingOf (reached traceEditDuringBuild) editM1.manifestName ∨
      f ∈ pendingOf (reached (traceEditDuringBuild ++ [(plainEnv, Step.complete buildOk)]))
        editM1.manifestName) ∧
    ((onlySpuriousChanges plainEnv
        (pendingOf (reached traceEditDuringBuild) editM1.manifestName)).1 = false →
      editM1.manifestName ∈
        (reached (traceEditDuringBuild ++ [(plainEnv, Step.complete buildOk)])).ManifestsToBuild) :=
  ⟨by decide, by decide, by decide, by decide,
    C5_changes_during_build_kept offUpper plainEnv plainEnv (reached traceBuilding)
      (reached traceEditDuringBuild) (reached traceEditDuringBuild)
      (reached (traceEditDuringBuild ++ [(plainEnv, Step.complete buildOk)]))
      editM1 [dispatchStep] buildOk none
      (by decide) (by decide) (Or.inr (by decide)) (by decide) (by decide) (by decide)⟩

/-! ## C6: clearing `ConfigIsDirty` -/

/-- C6 (counterexample). A second `InitAction` for `m1`, handled when the
`ConfigIsDirty` of `m1` is true, leaves it false: `handleInitAction` installs a
new manifest state; no Tiltfile is reloaded and nothing is dispatched. -/
theorem C6_init_clears_dirty :
    (runSteps offUpper emptyState traceConfigEdit).map (fun s => configDirtyOf s "m1")
      = some (some true) ∧
    (runSteps offUpper emptyState (traceConfigEdit ++ [initM1 true])).map
        (fun s => configDirtyOf s "m1") = some (some false) := by
  decide

/-- C6 (amended). For every reducer step (`handleInitAction`, `handleFSEvent`,
`handlePodEvent`, `maybeStartBuild`, `handleCompletedBuild`) and every manifest
that the step does not initialise again (it is not named in an `InitAction`
being handled): if the manifest's `ConfigIsDirty` is true before the step and
false after it, then the step is a `maybeStartBuild` dispatch of that manifest
(it was the head of the queue with nothing building, and it is
`CurrentlyBuilding` afterwards) in which the Tiltfile reload succeeded and the
reloaded manifest was installed as the state's `Manifest`. -/
theorem C6_dirty_cleared_only_by_reload (u : Upper) (env : Env) (s s1 : EngineState) (st : Step)
    (mn : ManifestName) (ms ms1 : ManifestState)
    (hni : mn ∉ initNames st)
    (h : applyStep u env s st = some s1)
    (hb : lookupMs s.ManifestStates mn = some ms) (hd : ms.ConfigIsDirty = true)
    (ha : lookupMs s1.ManifestStates mn = some ms1) (hc : ms1.ConfigIsDirty = false) :
    st = Step.dispatch ∧ s.CurrentlyBuilding = "" ∧ s.ManifestsToBuild.head? = some mn ∧
      s1.CurrentlyBuilding = mn ∧
      ∃ newManifest, getNewManifestFromTiltfile env mn = Except.ok newManifest ∧
        ms1.Manifest = newManifest := by
  have hcontra : ms1.ConfigIsDirty = true → False := fun h1 => by
    rw [hc] at h1
    exact Bool.noConfusion h1
  cases st with
  | init a =>
    exfalso
    simp only [applyStep] at h
    cases hh : handleInitAction u env s a with
    | none => simp [hh] at h
    | some pr =>
      obtain ⟨s2, r⟩ := pr
      simp only [hh, Option.map_some', Option.some.injEq] at h
      subst h
      obtain ⟨_, _, _, _, e5⟩ := handleInitAction_spec _ _ _ _ _ _ hh
      rcases e5 mn with ⟨_, h6⟩ | ⟨m, t, hm1, hm2, _⟩
      · rw [h6, hb] at ha
        simp only [Option.some.injEq] at ha
        subst ha
        exact hcontra hd
      · exact hni (List.mem_map.mpr ⟨m, hm1, hm2⟩)
  | fs e =>
    exfalso
    simp only [applyStep] at h
    obtain ⟨ms0, hms0, hcase⟩ := handleFSEvent_spec _ _ _ _ h
    have hv : ms0.ConfigIsDirty = true → (fsEventState env ms0 e).ConfigIsDirty = true := by
      intro h0
      simp [fsEventState, h0]
    rcases hcase with ⟨hs1, _⟩ | ⟨hs1, _, _⟩
    · exact hcontra (dirty_kept s s1 e.manifestName mn (fsEventState env ms0 e) ms0 ms ms1
        (by rw [hs1]) hms0 hv hb hd ha)
    · exact hcontra (dirty_kept s s1 e.manifestName mn
        { fsEventState env ms0 e with QueueEntryTime := env.now } ms0 ms ms1
        (by rw [hs1]) hms0 hv hb hd ha)
  | pod p =>
    exfalso
    simp only [applyStep, Option.some.injEq] at h
    subst h
    rcases handlePodEvent_spec env s p with hp | ⟨k, ms0, newPod, _, hms0, hp⟩
    · rw [hp, hb] at ha
      simp only [Option.some.injEq] at ha
      subst ha
      exact hcontra hd
    · rw [hp] at ha
      exact hcontra (dirty_kept s _ k mn { ms0 with Pod := newPod } ms0 ms ms1 rfl hms0
        (fun h0 => h0) hb hd ha)
  | complete cb =>
    exfalso
    simp only [applyStep] at h
    cases hh : handleCompletedBuild env s cb with
    | none => simp [hh] at h
    | some pr =>
      obtain ⟨s2, r⟩ := pr
      simp only [hh, Option.map_some', Option.some.injEq] at h
      subst h
      obtain ⟨ms0, msEnd, ob, hms0, hs1, _, hdirty, _⟩ := handleCompletedBuild_spec _ _ _ _ _ hh
      exact hcontra (dirty_kept s s2 s.CurrentlyBuilding mn msEnd ms0 ms ms1
        (by rw [hs1]; rfl) hms0 (fun h0 => by rw [hdirty]; exact h0) hb hd ha)
  | dispatch =>
    refine ⟨rfl, ?_⟩
    simp only [applyStep] at h
    cases hh : maybeStartBuild env s with
    | none => simp [hh] at h
    | some pr =>
      obtain ⟨s2, task⟩ := pr
      simp only [hh, Option.map_some', Option.some.injEq] at h
      subst h
      rcases maybeStartBuild_spec _ _ _ _ hh with ⟨_, h4, _⟩ | ⟨k, rest, ms0, hq, hcb0, hms0, hcase⟩
      · exfalso
        rw [h4, hb] at ha
        simp only [Option.some.injEq] at ha
        subst ha
        exact hcontra hd
      · rcases hcase with ⟨err, _, hs1, _⟩ | ⟨ms2, hre, hs1, _⟩
        · exfalso
          exact hcontra (dirty_kept s s2 k mn (reloadFailed env { ms0 with QueueEntryTime := 0 } err)
            ms0 ms ms1 (by rw [hs1]) hms0 (fun h0 => h0) hb hd ha)
        · by_cases hk : k = mn
          · subst hk
            rw [hms0] at hb
            simp only [Option.some.injEq] at hb
            subst hb
            rw [hs1] at ha
            simp only [lookupMs_setMs_self, Option.some.injEq] at ha
            refine ⟨hcb0, by simp [hq], by rw [hs1], ?_⟩
            unfold reloadIfDirty at hre
            simp only [hd, if_true] at hre
            cases hg : getNewManifestFromTiltfile env k with
            | error err => simp [hg] at hre
            | ok newManifest =>
              simp only [hg, Except.ok.injEq] at hre
              refine ⟨newManifest, rfl, ?_⟩
              rw [← ha, ← hre]
              rfl
          · exfalso
            rw [hs1] at ha
            simp only [lookupMs_setMs, hk, if_false] at ha
            rw [hb] at ha
            simp only [Option.some.injEq] at ha
            subst ha
            exact hcontra hd

/-- Witness of C6: the config file of `m1` was edited, and the dispatcher
reloads the Tiltfile successfully; `ConfigIsDirty` goes from true to false and
the reloaded manifest is installed. -/
theorem C6_dirty_cleared_only_by_reload_witness :
    "m1" ∉ initNames Step.dispatch ∧
    applyStep offUpper reloadEnv (reached traceConfigEdit) Step.dispatch
      = some (reached (traceConfigEdit ++ [(reloadEnv, Step.dispatch)])) ∧
    configDirtyOf (reached traceConfigEdit) "m1" = some true ∧
    configDirtyOf (reached (traceConfigEdit ++ [(reloadEnv, Step.dispatch)])) "m1"
      = some false ∧
    (reached traceConfigEdit).CurrentlyBuilding = "" ∧
    (reached traceConfigEdit).ManifestsToBuild.head? = some "m1" ∧
    (reached (traceConfigEdit ++ [(reloadEnv, Step.dispatch)])).CurrentlyBuilding = "m1" ∧
    getNewManifestFromTiltfile reloadEnv "m1" = Except.ok { Name := "m1", Body := 9 } ∧
    (lookupMs (reached (traceConfigEdit ++ [(reloadEnv, Step.dispatch)])).ManifestStates
      "m1").map ManifestState.Manifest = some { Name := "m1", Body := 9 } := by
  have h := C6_dirty_cleared_only_by_reload offUpper reloadEnv (reached traceConfigEdit)
    (reached (traceConfigEdit ++ [(reloadEnv, Step.dispatch)])) Step.dispatch "m1"
    ((lookupMs (reached traceConfigEdit).ManifestStates "m1").getD (NewManifestState manifestM1))
    ((lookupMs (reached (traceConfigEdit ++ [(reloadEnv, Step.dispatch)])).ManifestStates
      "m1").getD (NewManifestState manifestM1))
    (by decide) (by decide) (by decide) (by decide) (by decide) (by decide)
  exact ⟨by decide, by decide, by decide, by decide, h.2.1, h.2.2.1, h.2.2.2.1, rfl, by decide⟩

/-! ## C7: `CompletedBuildCount` -/

/-- C7 (counterexample). In a state where `m1` is being built and
`CompletedBuildCount` is the largest `int`, `2^63 - 1`, `handleCompletedBuild`
returns with `CompletedBuildCount` at the smallest `int`, `-2^63`: the counter
has not increased by one.  And from the empty state, after `m1` is initialised
in watch mode and built `2^63` times (dispatch, successful completion, edit),
`2^63` `BuildCompleteAction`s have been consumed and `CompletedBuildCount` is
`-2^63`. -/
theorem C7_count_wraps_at_max :
    stateAtMaxCount.CompletedBuildCount = 9223372036854775807 ∧
    (handleCompletedBuild plainEnv stateAtMaxCount buildOk).map
        (fun p => p.1.CompletedBuildCount) = some (-9223372036854775808) ∧
    (handleCompletedBuild plainEnv stateAtMaxCount buildOk).map
        (fun p => p.1.CompletedBuildCount) ≠ some (stateAtMaxCount.CompletedBuildCount + 1) ∧
    completeCount (traceManyBuilds 9223372036854775808) = 9223372036854775808 ∧
    (runSteps offUpper emptyState (traceManyBuilds 9223372036854775808)).map
        EngineState.CompletedBuildCount = some (-9223372036854775808) := by
  refine ⟨by decide, by decide, by decide, traceManyBuilds_count _, ?_⟩
  rw [traceManyBuilds_run _ (by decide)]
  rfl

/-- C7 (amended). Whenever `handleCompletedBuild` returns, with or without an
error, it has added one to `CompletedBuildCount` in the arithmetic of the Go
`int`: the counter has increased by exactly one when it was an `int` (at least
`-2^63`) below the largest `int`, `2^63 - 1`; no other reducer step changes it; hence after any sequence
of reducer steps from the empty state `CompletedBuildCount` is the number of
`BuildCompleteAction`s consumed wrapped to an `int`, which is that number when
it is below `2^63`. -/
theorem C7_completed_build_count :
    (∀ (env : Env) (s s1 : EngineState) (cb : BuildCompleteAction) (r : Option GoError),
      handleCompletedBuild env s cb = some (s1, r) →
        s1.CompletedBuildCount = wrapInt (s.CompletedBuildCount + 1) ∧
        (-9223372036854775808 ≤ s.CompletedBuildCount →
          s.CompletedBuildCount < 9223372036854775807 →
          s1.CompletedBuildCount = s.CompletedBuildCount + 1)) ∧
    (∀ (u : Upper) (env : Env) (s s1 : EngineState) (st : Step),
      (∀ cb, st ≠ Step.complete cb) → applyStep u env s st = some s1 →
        s1.CompletedBuildCount = s.CompletedBuildCount) ∧
    (∀ (u : Upper) (trace : List (Env × Step)) (s : EngineState),
      runSteps u emptyState trace = some s →
        s.CompletedBuildCount = wrapInt (completeCount trace : Int) ∧
        (completeCount trace < 9223372036854775808 →
          s.CompletedBuildCount = (completeCount trace : Int))) := by
  refine ⟨?_, count_other, ?_⟩
  · intro env s s1 cb r h
    have h1 := count_complete env s s1 cb r h
    refine ⟨h1, fun hlo hhi => ?_⟩
    rw [h1]
    exact wrapInt_eq_self _ (by omega) (by omega)
  · intro u trace s h
    have h1 := count_run u trace emptyState s 0 rfl h
    rw [Nat.zero_add] at h1
    refine ⟨h1, fun hlt => ?_⟩
    rw [h1]
    exact wrapInt_natCast _ hlt

/-- Witness of C7: the first build of `m1` completes with the counter at zero,
which becomes one; and after the trace of two builds, in which one
`BuildCompleteAction` is consumed, `CompletedBuildCount` is one. -/
theorem C7_completed_build_count_witness :
    (handleCompletedBuild plainEnv (reached traceBuilding) buildOk
      = some (reached traceFirstBuildDone, none) ∧
    -9223372036854775808 ≤ (reached traceBuilding).CompletedBuildCount ∧
    (reached traceBuilding).CompletedBuildCount < 9223372036854775807 ∧
    (reached traceFirstBuildDone).CompletedBuildCount
      = (reached traceBuilding).CompletedBuildCount + 1) ∧
    runSteps offUpper emptyState traceTwoBuilds = some (reached traceTwoBuilds) ∧
    completeCount traceTwoBuilds < 9223372036854775808 ∧
    (reached traceTwoBuilds).CompletedBuildCount = (completeCount traceTwoBuilds : Int) :=
  ⟨⟨by decide, by decide, by decide,
      (C7_completed_build_count.1 plainEnv (reached traceBuilding) (reached traceFirstBuildDone)
        buildOk none (by decide)).2 (by decide) (by decide)⟩,
    by decide, by decide,
    (C7_completed_build_count.2.2 offUpper traceTwoBuilds (reached traceTwoBuilds)
      (by decide)).2 (by decide)⟩

/-! ## C8: `CurrentlyBuilding` after a completion -/

/-- C8. For every engine state in which `CurrentlyBuilding` names a known
manifest and every `BuildCompleteAction`: `handleCompletedBuild` returns, and
whatever it returns - an error or none, on success, on a permanent error, on a
non-watch failure, on a browser-open failure - `CurrentlyBuilding` is the empty
name afterwards. -/
theorem C8_currently_building_cleared (env : Env) (s : EngineState) (cb : BuildCompleteAction)
    (hk : (lookupMs s.ManifestStates s.CurrentlyBuilding).isSome = true) :
    (∃ s1 r, handleCompletedBuild env s cb = some (s1, r)) ∧
    ∀ s1 r, handleCompletedBuild env s cb = some (s1, r) → s1.CurrentlyBuilding = "" := by
  obtain ⟨ms0, hms0⟩ := Option.isSome_iff_exists.mp hk
  refine ⟨handleCompletedBuild_returns env s cb ms0 hms0, ?_⟩
  intro s1 r h
  obtain ⟨_, _, _, _, hs1, _⟩ := handleCompletedBuild_spec _ _ _ _ _ h
  rw [hs1]
  rfl

/-- Witness of C8: the build of `m1` completes with a permanent error;
`handleCompletedBuild` returns and `CurrentlyBuilding` is empty. -/
theorem C8_currently_building_cleared_witness :
    (lookupMs (reached traceBuilding).ManifestStates
      (reached traceBuilding).CurrentlyBuilding).isSome = true ∧
    (∃ s1 r, handleCompletedBuild plainEnv (reached traceBuilding) (buildFailed permanentError)
      = some (s1, r)) ∧
    ∀ s1 r, handleCompletedBuild plainEnv (reached traceBuilding) (buildFailed permanentError)
      = some (s1, r) → s1.CurrentlyBuilding = "" :=
  ⟨by decide, C8_currently_building_cleared plainEnv (reached traceBuilding)
    (buildFailed permanentError) (by decide)⟩

/-! ## C9: build errors in watch mode -/

/-- C9. In watch mode, for a `BuildCompleteAction` carrying the error `err`,
handled while a known manifest is building: if `isPermanentError err`,
`handleCompletedBuild` returns `err` and the loop returns it; otherwise
`handleCompletedBuild` returns no error, the loop keeps running, the `LastError`
of the manifest that was building is `err`, and `CurrentlyBuilding` is empty. -/
theorem C9_watch_mode_build_error (u : Upper) (env : Env) (s : EngineState)
    (cb : BuildCompleteAction) (err : GoError) (ms : ManifestState)
    (hw : s.WatchMounts = true) (herr : cb.Error = some err)
    (hk : lookupMs s.ManifestStates s.CurrentlyBuilding = some ms) :
    (env.isPermanentError err = true →
      ∃ s1, handleCompletedBuild env s cb = some (s1, some err) ∧
        loopSelect u env s (LoopEvent.action (Action.BuildComplete cb)) =
          LoopResult.returned s1 (some err)) ∧
    (env.isPermanentError err = false →
      ∃ s1 ms1, handleCompletedBuild env s cb = some (s1, none) ∧
        loopSelect u env s (LoopEvent.action (Action.BuildComplete cb)) = LoopResult.running s1 ∧
        lookupMs s1.ManifestStates s.CurrentlyBuilding = some ms1 ∧
        ms1.LastError = some err ∧ s1.CurrentlyBuilding = "") := by
  constructor
  · intro hp
    have h1 : handleCompletedBuild env s cb =
        some (completedState s (buildFinished env cb ms) s.OpenBrowserOnNextLB, some err) := by
      simp [handleCompletedBuild, hk, herr, hp]
    exact ⟨_, h1, by simp [loopSelect, h1]⟩
  · intro hp
    have h1 : handleCompletedBuild env s cb =
        some (completedState s (buildFinished env cb ms) s.OpenBrowserOnNextLB, none) := by
      simp [handleCompletedBuild, hk, herr, hp, hw]
    refine ⟨_, buildFinished env cb ms, h1, ?_, ?_, ?_, rfl⟩
    · simp [loopSelect, h1, completedState, hw]
    · simp [completedState, lookupMs_setMs]
    · simp [buildFinished, herr]

/-- Witness of C9: in watch mode the build of `m1` completes with an error that
is not permanent; the loop keeps running and the error is recorded. -/
theorem C9_watch_mode_build_error_witness :
    (reached traceBuilding).WatchMounts = true ∧
    (buildFailed transientError).Error = some transientError ∧
    (lookupMs (reached traceBuilding).ManifestStates
      (reached traceBuilding).CurrentlyBuilding).isSome = true ∧
    plainEnv.isPermanentError transientError = false ∧
    ∃ s1 ms1,
      handleCompletedBuild plainEnv (reached traceBuilding) (buildFailed transientError)
        = some (s1, none) ∧
      loopSelect offUpper plainEnv (reached traceBuilding)
        (LoopEvent.action (Action.BuildComplete (buildFailed transientError)))
        = LoopResult.running s1 ∧
      lookupMs s1.ManifestStates (reached traceBuilding).CurrentlyBuilding = some ms1 ∧
      ms1.LastError = some transientError ∧ s1.CurrentlyBuilding = "" :=
  ⟨by decide, rfl, by decide, by decide,
    (C9_watch_mode_build_error offUpper plainEnv (reached traceBuilding)
      (buildFailed transientError) transientError
      ((lookupMs (reached traceBuilding).ManifestStates
        (reached traceBuilding).CurrentlyBuilding).getD (NewManifestState manifestM1))
      (by decide) rfl (by decide)).2 (by decide)⟩

/-! ## C10: build errors in non-watch mode -/

/-- C10 (counterexample). In non-watch mode, a build error for which
`isPermanentError` holds is returned by the loop as it is: its message is
`"boom"`, not `"build failed: boom"`. -/
theorem C10_permanent_error_unwrapped :
    plainEnv.isPermanentError permanentError = true ∧
    loopError (CreateManifests offUpper [manifestM1] false plainEnv
      [(plainEnv, LoopEvent.action (Action.BuildComplete (buildFailed permanentError)))])
      = some { msg := "boom", dyn := 7 } := by
  decide

/-- C10 (amended). In non-watch mode, for every build error `err` that is not
permanent: after `InitAction` with `WatchMounts = false` and the one manifest
`m`, any number of timer ticks and the dispatch of `m`, consuming the
`BuildCompleteAction` carrying `err` makes the loop return an error whose
message is `"build failed: "` followed by the message of `err`. -/
theorem C10_non_watch_build_failure (u : Upper) (m : Manifest) (env0 envc : Env)
    (ticks : List Env) (r : BuildResult) (err : GoError) (rest : List (Env × LoopEvent))
    (hnp : envc.isPermanentError err = false) :
    loopError (CreateManifests u [m] false env0 (ticks.map (fun e => (e, LoopEvent.tick)) ++
      (envc, LoopEvent.action (Action.BuildComplete { Result := r, Error := some err })) :: rest))
      = some { msg := "build failed: " ++ err.msg, dyn := 0 } := by
  obtain ⟨s, h1, h2⟩ := init_queuedOnce u env0 m
  simp only [CreateManifests, runLoop, h1]
  exact ticks_then_failure u m.Name ticks envc r err rest s hnp (Or.inl h2)

/-- Witness of C10: in non-watch mode, after one timer tick, the build of `m1`
completes with the error `boom`, which is not permanent; the loop returns
`build failed: boom`. -/
theorem C10_non_watch_build_failure_witness :
    plainEnv.isPermanentError transientError = false ∧
    loopError (CreateManifests offUpper [manifestM1] false plainEnv
      ([plainEnv].map (fun e => (e, LoopEvent.tick)) ++
        (plainEnv, LoopEvent.action (Action.BuildComplete
          { Result := { Entities := [] }, Error := some transientError })) :: []))
      = some { msg := "build failed: " ++ transientError.msg, dyn := 0 } :=
  ⟨rfl, C10_non_watch_build_failure offUpper manifestM1 plainEnv plainEnv [plainEnv]
    { Entities := [] } transientError [] rfl⟩

/-! ## C11: the loop in non-watch mode -/

/-- C11 (counterexample). Two manifests with distinct names, the first with the
empty name, are initialised in non-watch mode.  The first loop iteration starts
the build of the first manifest and leaves `CurrentlyBuilding` empty; a timer
tick ends the iteration; the next iteration starts the build of `a` and then
receives the first successful `BuildCompleteAction`: the loop returns nil with
`CompletedBuildCount = 1` and an empty queue, after one completion of two. -/
theorem C11_returns_before_last_completion :
    [manifestNoName, manifestA].length = 2 ∧
    ([manifestNoName, manifestA].map Manifest.Name).Nodup ∧
    completions tickThenBuild = 1 ∧
    (returnedNil (CreateManifests offUpper [manifestNoName, manifestA] false plainEnv
        (tickThenBuild.map successEvent))).map
      (fun s => (s.CompletedBuildCount, s.ManifestsToBuild)) = some (1, []) := by
  decide

/-- C11 (amended). For every non-empty list of `n` manifests none of which has
the empty name - or with any names when no timer tick is handled -: after
`InitAction` with `WatchMounts = false` and these manifests, followed by timer
ticks and successful `BuildCompleteAction`s (`Error = nil`, the browser opening
without error) in any order, the loop is still running with
`CompletedBuildCount` completions counted as long as fewer than `n` completions
were consumed, and it returns nil when the `n`-th completion has been
processed, with `CompletedBuildCount = n` and `ManifestsToBuild` empty; the
counter holds these numbers as a Go `int`, which is the number itself below
`2^63`.  In general, after a completion that `handleCompletedBuild` handles
without error the loop returns nil iff `WatchMounts` is false and
`ManifestsToBuild` is empty, and keeps running otherwise. -/
theorem C11_non_watch_loop_returns (u : Upper) (manifests : List Manifest) (env0 : Env)
    (evs : List (Env × Option BuildResult))
    (hn : manifests ≠ [])
    (hopen : ∀ p ∈ evs, ∀ lb, p.1.OpenService lb = none)
    (hmode : "" ∉ manifests.map Manifest.Name ∨ ∀ p ∈ evs, p.2.isSome = true) :
    (completions evs < manifests.length →
      ∃ s, CreateManifests u manifests false env0 (evs.map successEvent) = LoopResult.running s ∧
        s.CompletedBuildCount = wrapInt (completions evs : Int)) ∧
    (manifests.length ≤ completions evs →
      ∃ s, CreateManifests u manifests false env0 (evs.map successEvent)
          = LoopResult.returned s none ∧
        s.CompletedBuildCount = wrapInt (manifests.length : Int) ∧ s.ManifestsToBuild = []) ∧
    (∀ k : Nat, k < 9223372036854775808 → wrapInt (k : Int) = k) ∧
    (∀ (env : Env) (s s1 : EngineState) (cb : BuildCompleteAction),
      handleCompletedBuild env s cb = some (s1, none) →
        (loopSelect u env s (LoopEvent.action (Action.BuildComplete cb))
            = LoopResult.returned s1 none ↔
          (s1.WatchMounts = false ∧ s1.ManifestsToBuild = [])) ∧
        (¬ (s1.WatchMounts = false ∧ s1.ManifestsToBuild = []) →
          loopSelect u env s (LoopEvent.action (Action.BuildComplete cb))
            = LoopResult.running s1)) := by
  obtain ⟨s, hit, hb, hq⟩ := init_buildsLeft u env0 manifests
  have hlen : 0 < manifests.length := List.length_pos.mpr hn
  have hrun := runLoop_success u manifests.length 0 evs s hb hlen hopen
    (by rw [hq]; exact hmode)
  simp only [Nat.zero_add] at hrun
  refine ⟨?_, ?_, wrapInt_natCast, ?_⟩
  · intro h
    simp only [CreateManifests, runLoop, hit]
    exact hrun.1 h
  · intro h
    simp only [CreateManifests, runLoop, hit]
    exact hrun.2 h
  · intro env s s1 cb h
    rw [loopSelect_success u env s s1 cb h]
    by_cases hcond : s1.WatchMounts = false ∧ s1.ManifestsToBuild = []
    · rw [if_pos hcond]
      exact ⟨⟨fun _ => hcond, fun _ => rfl⟩, fun hc => absurd hcond hc⟩
    · rw [if_neg hcond]
      refine ⟨⟨fun h2 => ?_, fun h2 => absurd h2 hcond⟩, fun _ => rfl⟩
      exact LoopResult.noConfusion h2

/-- Witness of C11: the manifests `m1` and `a` are built one after the other
with timer ticks in between; the loop returns nil at the second completion. -/
theorem C11_non_watch_loop_returns_witness :
    [manifestM1, manifestA] ≠ [] ∧
    (∀ p ∈ twoBuildsEvents, ∀ lb, p.1.OpenService lb = none) ∧
    "" ∉ [manifestM1, manifestA].map Manifest.Name ∧
    [manifestM1, manifestA].length ≤ completions twoBuildsEvents ∧
    ∃ s, CreateManifests offUpper [manifestM1, manifestA] false plainEnv
        (twoBuildsEvents.map successEvent) = LoopResult.returned s none ∧
      s.CompletedBuildCount = 2 ∧ s.ManifestsToBuild = [] := by
  have hopen : ∀ p ∈ twoBuildsEvents, ∀ lb, p.1.OpenService lb = none := by
    intro p hp lb
    simp only [twoBuildsEvents, List.mem_cons, List.mem_singleton, List.not_mem_nil,
      or_false] at hp
    rcases hp with h | h | h | h <;> (rw [h]; rfl)
  obtain ⟨s, h1, h2, h3⟩ :=
    (C11_non_watch_loop_returns offUpper [manifestM1, manifestA] plainEnv twoBuildsEvents
      (by decide) hopen (Or.inl (by decide))).2.1 (by decide)
  exact ⟨by decide, hopen, by decide, by decide, s, h1, h2, h3⟩

/-! ## C12: opening the browser -/

/-- C12 (counterexample). A successful build of `m1` produces a load balancer
while `OpenBrowserOnNextLB` is true, and opening the browser fails:
`handleCompletedBuild` returns that error, and afterwards `OpenBrowserOnNextLB`
is still true, `LastBuild` is still the clean state and `main.go` is still
listed in `CurrentlyBuildingFileChanges`. -/
theorem C12_open_failure_keeps_flag :
    (reachedAuto [initM1 true, (plainEnv, Step.fs editM1), dispatchStep]).OpenBrowserOnNextLB
      = true ∧
    openedService noBrowserEnv
      (reachedAuto [initM1 true, (plainEnv, Step.fs editM1), dispatchStep]) buildOk
      = some { id := 1 } ∧
    (handleCompletedBuild noBrowserEnv
      (reachedAuto [initM1 true, (plainEnv, Step.fs editM1), dispatchStep]) buildOk).map
      (fun r => (r.2, r.1.OpenBrowserOnNextLB,
        (lookupMs r.1.ManifestStates "m1").map ManifestState.LastBuild, buildingOf r.1 "m1"))
      = some (some { msg := "no browser", dyn := 2 }, true, some BuildState.BuildStateClean,
          ["main.go"]) := by
  decide

/-- C12 (amended). For every successful `BuildCompleteAction` (`Error = nil`)
handled while a known manifest is building. If `OpenBrowserOnNextLB` is true and
the result yields at least one load-balancer spec, `handleCompletedBuild` calls
`OpenService` on the first one; when that call succeeds, the handler returns no
error and afterwards `OpenBrowserOnNextLB` is false, `LastBuild` is derived from
the result and `CurrentlyBuildingFileChanges` is cleared; when that call fails,
the handler returns its error with the flag, `LastBuild` and
`CurrentlyBuildingFileChanges` as they were. If `OpenBrowserOnNextLB` is false
or no load balancer was produced, no open is attempted, the flag is unchanged,
`LastBuild` is derived from the result and `CurrentlyBuildingFileChanges` is
cleared. -/
theorem C12_open_browser_on_first_lb (env : Env) (s : EngineState) (cb : BuildCompleteAction)
    (ms0 : ManifestState)
    (herr : cb.Error = none)
    (hk : lookupMs s.ManifestStates s.CurrentlyBuilding = some ms0) :
    (∀ lb rest, s.OpenBrowserOnNextLB = true →
      env.ToLoadBalancerSpecs cb.Result.Entities = lb :: rest →
        openedService env s cb = some lb ∧
        (env.OpenService lb = none →
          ∃ s1 ms1, handleCompletedBuild env s cb = some (s1, none) ∧
            s1.OpenBrowserOnNextLB = false ∧
            lookupMs s1.ManifestStates s.CurrentlyBuilding = some ms1 ∧
            ms1.LastBuild = BuildState.NewBuildState cb.Result ∧
            ms1.CurrentlyBuildingFileChanges = []) ∧
        (∀ err, env.OpenService lb = some err →
          ∃ s1 ms1, handleCompletedBuild env s cb = some (s1, some err) ∧
            s1.OpenBrowserOnNextLB = true ∧
            lookupMs s1.ManifestStates s.CurrentlyBuilding = some ms1 ∧
            ms1.LastBuild = ms0.LastBuild ∧
            ms1.CurrentlyBuildingFileChanges = ms0.CurrentlyBuildingFileChanges)) ∧
    ((s.OpenBrowserOnNextLB = false ∨ env.ToLoadBalancerSpecs cb.Result.Entities = []) →
      openedService env s cb = none ∧
      ∃ s1 ms1, handleCompletedBuild env s cb = some (s1, none) ∧
        s1.OpenBrowserOnNextLB = s.OpenBrowserOnNextLB ∧
        lookupMs s1.ManifestStates s.CurrentlyBuilding = some ms1 ∧
        ms1.LastBuild = BuildState.NewBuildState cb.Result ∧
        ms1.CurrentlyBuildingFileChanges = []) := by
  have hlbs : (deployRecorded env cb (buildFinished env cb ms0)).Lbs =
      env.ToLoadBalancerSpecs cb.Result.Entities := rfl
  constructor
  · intro lb rest hob hl
    refine ⟨by simp [openedService, hk, herr, hl, hob], ?_, ?_⟩
    · intro hopen
      refine ⟨completedState s (buildRecorded cb (deployRecorded env cb (buildFinished env cb ms0)))
        false, buildRecorded cb (deployRecorded env cb (buildFinished env cb ms0)), ?_, rfl,
        by simp [completedState, lookupMs_setMs], rfl, rfl⟩
      simp only [handleCompletedBuild, hk, herr, hlbs, hl, hob, hopen, if_true]
    · intro err hopen
      refine ⟨completedState s (deployRecorded env cb (buildFinished env cb ms0))
        s.OpenBrowserOnNextLB, deployRecorded env cb (buildFinished env cb ms0), ?_, hob,
        by simp [completedState, lookupMs_setMs], rfl, rfl⟩
      simp only [handleCompletedBuild, hk, herr, hlbs, hl, hob, hopen, if_true]
  · intro hno
    have hres : handleCompletedBuild env s cb = some
        (completedState s (buildRecorded cb (deployRecorded env cb (buildFinished env cb ms0)))
          s.OpenBrowserOnNextLB, none) := by
      simp only [handleCompletedBuild, hk, herr, hlbs]
      rcases hno with hno | hno
      · cases hl : env.ToLoadBalancerSpecs cb.Result.Entities with
        | nil => rfl
        | cons lb rest => simp [hno]
      · rw [hno]
    refine ⟨?_, _, buildRecorded cb (deployRecorded env cb (buildFinished env cb ms0)), hres, rfl,
      by simp [completedState, lookupMs_setMs], rfl, rfl⟩
    simp only [openedService, hk, herr]
    rcases hno with hno | hno
    · cases hl : env.ToLoadBalancerSpecs cb.Result.Entities with
      | nil => rfl
      | cons lb rest => simp [hno]
    · rw [hno]

/-- Witness of C12: a successful build of `m1` produces a load balancer while
`OpenBrowserOnNextLB` is true and the browser opens; the flag is cleared, and so
is `CurrentlyBuildingFileChanges`. -/
theorem C12_open_browser_on_first_lb_witness :
    buildOk.Error = none ∧
    (lookupMs (reachedAuto [initM1 true, (plainEnv, Step.fs editM1), dispatchStep]).ManifestStates
      (reachedAuto [initM1 true, (plainEnv, Step.fs editM1), dispatchStep]).CurrentlyBuilding).isSome
      = true ∧
    (reachedAuto [initM1 true, (plainEnv, Step.fs editM1), dispatchStep]).OpenBrowserOnNextLB
      = true ∧
    balancerEnv.ToLoadBalancerSpecs buildOk.Result.Entities = { id := 1 } :: [] ∧
    balancerEnv.OpenService { id := 1 } = none ∧
    ∃ s1 ms1, handleCompletedBuild balancerEnv
        (reachedAuto [initM1 true, (plainEnv, Step.fs editM1), dispatchStep]) buildOk
        = some (s1, none) ∧
      s1.OpenBrowserOnNextLB = false ∧
      lookupMs s1.ManifestStates
        (reachedAuto [initM1 true, (plainEnv, Step.fs editM1), dispatchStep]).CurrentlyBuilding
        = some ms1 ∧
      ms1.LastBuild = BuildState.NewBuildState buildOk.Result ∧
      ms1.CurrentlyBuildingFileChanges = [] :=
  ⟨rfl, by decide, by decide, rfl, rfl,
    ((C12_open_browser_on_first_lb balancerEnv
      (reachedAuto [initM1 true, (plainEnv, Step.fs editM1), dispatchStep]) buildOk
      ((lookupMs (reachedAuto [initM1 true, (plainEnv, Step.fs editM1), dispatchStep]).ManifestStates
        "m1").getD (NewManifestState manifestM1))
      rfl (by decide)).1 { id := 1 } [] (by decide) rfl).2.1 rfl⟩

/-! ## C13: a failed Tiltfile reload -/

/-- C13. For every engine state with `CurrentlyBuilding` empty whose queue head
`mn` is known and has `ConfigIsDirty = true`, when the Tiltfile reload fails with
`err` (which it does exactly on a load error, an evaluator error, or a number of
manifests for `mn` other than one): `maybeStartBuild` returns, launches no build
task, leaves `CurrentlyBuilding` empty and the queue without its head (so
without `mn`, when the queue held no name twice); the `LastError` of `mn` is
`err`, its `LastBuildDuration` is 0, and its `Manifest`, `ConfigIsDirty` (still
true), `PendingFileChanges` and `CurrentlyBuildingFileChanges` are unchanged. -/
theorem C13_reload_failure (env : Env) (s : EngineState) (mn : ManifestName)
    (rest : List ManifestName) (ms0 : ManifestState) (err : GoError)
    (hcb : s.CurrentlyBuilding = "") (hq : s.ManifestsToBuild = mn :: rest)
    (hk : lookupMs s.ManifestStates mn = some ms0) (hd : ms0.ConfigIsDirty = true)
    (hre : getNewManifestFromTiltfile env mn = Except.error err) :
    (∃ s1 ms1, maybeStartBuild env s = some (s1, none) ∧
      s1.CurrentlyBuilding = "" ∧ s1.ManifestsToBuild = rest ∧
      (s.ManifestsToBuild.Nodup → mn ∉ s1.ManifestsToBuild) ∧
      lookupMs s1.ManifestStates mn = some ms1 ∧
      ms1.LastError = some err ∧ ms1.LastBuildDuration = 0 ∧
      ms1.Manifest = ms0.Manifest ∧ ms1.ConfigIsDirty = true ∧
      ms1.PendingFileChanges = ms0.PendingFileChanges ∧
      ms1.CurrentlyBuildingFileChanges = ms0.CurrentlyBuildingFileChanges) ∧
    ((∃ e, getNewManifestFromTiltfile env mn = Except.error e) ↔
      ((∃ e, env.tiltfileLoad = Except.error e) ∨
        (∃ t e, env.tiltfileLoad = Except.ok t ∧ t mn = Except.error e) ∨
        (∃ t l, env.tiltfileLoad = Except.ok t ∧ t mn = Except.ok l ∧ l.length ≠ 1))) := by
  refine ⟨?_, getNewManifestFromTiltfile_error_iff env mn⟩
  have h1 : reloadIfDirty env mn { ms0 with QueueEntryTime := 0 } = Except.error err := by
    simp [reloadIfDirty, hd, hre]
  refine ⟨{ s with
      ManifestsToBuild := rest
      CurrentlyBuilding := ""
      ManifestStates := setMs s.ManifestStates mn
        (reloadFailed env { ms0 with QueueEntryTime := 0 } err) },
    reloadFailed env { ms0 with QueueEntryTime := 0 } err, ?_, rfl, rfl, ?_,
    by simp [lookupMs_setMs], rfl, rfl, rfl, hd, rfl, rfl⟩
  · simp only [maybeStartBuild, hq, hcb, hk, h1]
    simp
  · intro hnd
    rw [hq] at hnd
    exact (List.nodup_cons.mp hnd).1

/-- Witness of C13: the config file of `m1` was edited and the Tiltfile cannot
be loaded; the dispatcher records the error and starts no build. -/
theorem C13_reload_failure_witness :
    (reached traceConfigEdit).CurrentlyBuilding = "" ∧
    (reached traceConfigEdit).ManifestsToBuild = "m1" :: [] ∧
    configDirtyOf (reached traceConfigEdit) "m1" = some true ∧
    ∃ s1 ms1, maybeStartBuild plainEnv (reached traceConfigEdit) = some (s1, none) ∧
      s1.CurrentlyBuilding = "" ∧ s1.ManifestsToBuild = [] ∧
      lookupMs s1.ManifestStates "m1" = some ms1 ∧
      ms1.LastError = some { msg := "no Tiltfile", dyn := 1 } ∧ ms1.ConfigIsDirty = true := by
  obtain ⟨s1, ms1, h1, h2, h3, _, h5, h6, _, _, h9, _⟩ :=
    (C13_reload_failure plainEnv (reached traceConfigEdit) "m1" []
      ((lookupMs (reached traceConfigEdit).ManifestStates "m1").getD (NewManifestState manifestM1))
      { msg := "no Tiltfile", dyn := 1 } (by decide) (by decide) (by decide) (by decide) rfl).1
  exact ⟨by decide, by decide, by decide, s1, ms1, h1, h2, h3, h5, h6, h9⟩

/-! ## C14: the classifier of spurious changes -/

/-- C14. For every set of changed paths, every broken-symlink oracle and every
iteration order of the set: `onlySpuriousChanges` returns true iff the set has
at most 3 paths and every path is a broken symbolic link (so the empty set is
spurious); every set of 4 or more paths is reported not spurious with no error
and with no path checked on the file system; and when the symlink check fails
on some path the boolean result is false. -/
theorem C14_only_spurious_changes (env : Env) (filesChanged : List String) :
    ((onlySpuriousChanges env filesChanged).1 = true ↔
      filesChanged.length ≤ 3 ∧ ∀ f ∈ filesChanged, env.IsBrokenSymlink f = Except.ok true) ∧
    onlySpuriousChanges env [] = (true, none) ∧
    (4 ≤ filesChanged.length →
      onlySpuriousChanges env filesChanged = (false, none) ∧ consultedPaths env filesChanged = []) ∧
    ((∃ f ∈ filesChanged, ∃ err, env.IsBrokenSymlink f = Except.error err) →
      (onlySpuriousChanges env filesChanged).1 = false) := by
  have hiff : (onlySpuriousChanges env filesChanged).1 = true ↔
      filesChanged.length ≤ 3 ∧
        ∀ f ∈ filesChanged, env.IsBrokenSymlink f = Except.ok true := by
    unfold onlySpuriousChanges
    by_cases hl : filesChanged.length > 3
    · rw [if_pos hl]
      constructor
      · intro h
        exact Bool.noConfusion h
      · intro h
        omega
    · rw [if_neg hl, spuriousLoop_true_iff, all_mapOrder_iff]
      constructor
      · intro h
        exact ⟨by omega, h⟩
      · intro h
        exact h.2
  refine ⟨hiff, onlySpuriousChanges_nil env, ?_, ?_⟩
  · intro h4
    have hl : filesChanged.length > 3 := by omega
    simp [onlySpuriousChanges, consultedPaths, hl]
  · rintro ⟨f, hf, err, herr⟩
    cases hb : (onlySpuriousChanges env filesChanged).1 with
    | false => rfl
    | true =>
      have := (hiff.mp hb).2 f hf
      rw [herr] at this
      exact Except.noConfusion this

/-- Witness of C14: a set of four paths is not spurious and no path is checked,
also when every path is a broken symbolic link. -/
theorem C14_only_spurious_changes_witness :
    4 ≤ ["a~", "b~", "c~", "d~"].length ∧
    onlySpuriousChanges symlinkEnv ["a~", "b~", "c~", "d~"] = (false, none) ∧
    consultedPaths symlinkEnv ["a~", "b~", "c~", "d~"] = [] :=
  ⟨by decide, (C14_only_spurious_changes symlinkEnv ["a~", "b~", "c~", "d~"]).2.2.1 (by decide)⟩

/-! ## C15: spurious fs events -/

/-- C15. For every engine state and every `manifestFilesChangedAction` for a
known manifest: if the pending set of the manifest, after the files of the event
are added, is spurious, `handleFSEvent` returns and leaves `ManifestsToBuild`
unchanged, so no new build is queued. -/
theorem C15_spurious_event_not_queued (env : Env) (s : EngineState)
    (e : manifestFilesChangedAction) (ms0 : ManifestState)
    (hk : lookupMs s.ManifestStates e.manifestName = some ms0)
    (hsp : (onlySpuriousChanges env (e.files.foldl setAdd ms0.PendingFileChanges)).1 = true) :
    ∃ s1, handleFSEvent env s e = some s1 ∧ s1.ManifestsToBuild = s.ManifestsToBuild ∧
      pendingOf s1 e.manifestName = e.files.foldl setAdd ms0.PendingFileChanges := by
  have hsp2 : (onlySpuriousChanges env (fsEventState env ms0 e).PendingFileChanges).1 = true := hsp
  refine ⟨{ s with
    ManifestStates := setMs s.ManifestStates e.manifestName (fsEventState env ms0 e) }, ?_, rfl, ?_⟩
  · simp only [handleFSEvent, hk]
    rw [if_pos hsp2]
  · rw [pendingOf_setMs s e.manifestName e.manifestName (fsEventState env ms0 e) _ rfl]
    simp [fsEventState]

/-- Witness of C15: after the first build of `m1` has completed, an fs event
that carries the single broken symbolic link `/proj/.idea/lock~` leaves
`ManifestsToBuild` empty. -/
theorem C15_spurious_event_not_queued_witness :
    (lookupMs (reached traceFirstBuildDone).ManifestStates lockFileEvent.manifestName).isSome
      = true ∧
    (onlySpuriousChanges symlinkEnv
      (lockFileEvent.files.foldl setAdd (pendingOf (reached traceFirstBuildDone) "m1"))).1
      = true ∧
    (reached traceFirstBuildDone).ManifestsToBuild = [] ∧
    ∃ s1, handleFSEvent symlinkEnv (reached traceFirstBuildDone) lockFileEvent = some s1 ∧
      s1.ManifestsToBuild = [] ∧ pendingOf s1 "m1" = ["/proj/.idea/lock~"] := by
  obtain ⟨s1, h1, h2, h3⟩ := C15_spurious_event_not_queued symlinkEnv (reached traceFirstBuildDone)
    lockFileEvent
    ((lookupMs (reached traceFirstBuildDone).ManifestStates "m1").getD
      (NewManifestState manifestM1))
    (by decide) (by decide)
  exact ⟨by decide, by decide, by decide, s1, h1, h2, h3⟩

/-! ## C16: fs events that queue a build -/

/-- C16. For every engine state and every `manifestFilesChangedAction` for a
known manifest `mn` whose pending set, after the files of the event are added,
is not spurious (the classifier returns false, with or without an error):
`handleFSEvent` returns; if `mn` is already in `ManifestsToBuild` the queue is
unchanged; otherwise the new queue is the old queue with `mn` appended at the
end. -/
theorem C16_non_spurious_event_queued_once (env : Env) (s : EngineState)
    (e : manifestFilesChangedAction) (ms0 : ManifestState)
    (hk : lookupMs s.ManifestStates e.manifestName = some ms0)
    (hsp : (onlySpuriousChanges env (e.files.foldl setAdd ms0.PendingFileChanges)).1 = false) :
    ∃ s1, handleFSEvent env s e = some s1 ∧
      (e.manifestName ∈ s.ManifestsToBuild → s1.ManifestsToBuild = s.ManifestsToBuild) ∧
      (e.manifestName ∉ s.ManifestsToBuild →
        s1.ManifestsToBuild = s.ManifestsToBuild ++ [e.manifestName]) := by
  have hsp2 : ¬ (onlySpuriousChanges env (fsEventState env ms0 e).PendingFileChanges).1 = true := by
    intro h
    have h2 : (onlySpuriousChanges env (e.files.foldl setAdd ms0.PendingFileChanges)).1 = true := h
    rw [hsp] at h2
    exact Bool.noConfusion h2
  by_cases hin : e.manifestName ∈ s.ManifestsToBuild
  · refine ⟨{ s with
      ManifestStates := setMs s.ManifestStates e.manifestName (fsEventState env ms0 e) },
      ?_, fun _ => rfl, fun h => absurd hin h⟩
    simp only [handleFSEvent, hk]
    rw [if_neg hsp2, if_pos hin]
  · refine ⟨{ s with
      ManifestStates := setMs (setMs s.ManifestStates e.manifestName (fsEventState env ms0 e))
        e.manifestName { fsEventState env ms0 e with QueueEntryTime := env.now }
      ManifestsToBuild := s.ManifestsToBuild ++ [e.manifestName] },
      ?_, fun h => absurd h hin, fun _ => rfl⟩
    simp only [handleFSEvent, hk]
    rw [if_neg hsp2, if_neg hin]
    simp [enqueueBuild, lookupMs_setMs_self]

/-- Witness of C16: `main.go`, which is not a broken symbolic link, is edited
after the first build of `m1` has completed; `m1` is appended to the empty
queue. -/
theorem C16_non_spurious_event_queued_once_witness :
    (lookupMs (reached traceFirstBuildDone).ManifestStates editM1.manifestName).isSome = true ∧
    (onlySpuriousChanges plainEnv
      (editM1.files.foldl setAdd (pendingOf (reached traceFirstBuildDone) "m1"))).1 = false ∧
    "m1" ∉ (reached traceFirstBuildDone).ManifestsToBuild ∧
    ∃ s1, handleFSEvent plainEnv (reached traceFirstBuildDone) editM1 = some s1 ∧
      s1.ManifestsToBuild = (reached traceFirstBuildDone).ManifestsToBuild ++ ["m1"] := by
  obtain ⟨s1, h1, _, h3⟩ := C16_non_spurious_event_queued_once plainEnv
    (reached traceFirstBuildDone) editM1
    ((lookupMs (reached traceFirstBuildDone).ManifestStates "m1").getD
      (NewManifestState manifestM1))
    (by decide) (by decide)
  exact ⟨by decide, by decide, by decide, s1, h1, h3 (by decide)⟩

/-! ## C17: replacing the pod -/

/-- C17 (counterexample). The manifest with the empty name is known and its pod
is `UnknownPod`; a pod event whose manifest label is the empty string is
dropped: the pod stays `UnknownPod` and is not replaced by the pod of the
event. -/
theorem C17_empty_label_dropped :
    labelOf unlabelledPod.Labels plainEnv.ManifestNameLabel = "" ∧
    podOf (reached traceUnnamedOnly) "" = some UnknownPod ∧
    podOf (handlePodEvent plainEnv (reached traceUnnamedOnly) unlabelledPod) ""
      = some UnknownPod ∧
    podOfEvent plainEnv unlabelledPod ≠ UnknownPod := by
  decide

/-- C17 (amended). For every engine state and every pod event whose manifest
label is not empty and names a known manifest: after `handlePodEvent` the pod of
the manifest equals the new pod `{Name, StartedAt = creation timestamp, Status}`
iff the old pod is the `UnknownPod` sentinel, or the old and new names are
equal, or the old `StartedAt` is strictly before the new `StartedAt`; otherwise
the pod is unchanged; and nothing else in the engine state changes: the new
state is the old one with that pod written to the manifest, or the old one. -/
theorem C17_pod_replaced_iff (env : Env) (s : EngineState) (p : V1Pod) (mn : ManifestName)
    (ms0 : ManifestState)
    (hl : labelOf p.Labels env.ManifestNameLabel = mn) (hne : mn ≠ "")
    (hk : lookupMs s.ManifestStates mn = some ms0) :
    (podOf (handlePodEvent env s p) mn = some (podOfEvent env p) ↔
      (ms0.Pod = UnknownPod ∨ ms0.Pod.Name = p.Name ∨ ms0.Pod.StartedAt < p.CreationTimestamp)) ∧
    ((ms0.Pod = UnknownPod ∨ ms0.Pod.Name = p.Name ∨ ms0.Pod.StartedAt < p.CreationTimestamp) →
      handlePodEvent env s p =
        { s with ManifestStates :=
            setMs s.ManifestStates mn { ms0 with Pod := podOfEvent env p } }) ∧
    (¬ (ms0.Pod = UnknownPod ∨ ms0.Pod.Name = p.Name ∨
        ms0.Pod.StartedAt < p.CreationTimestamp) →
      handlePodEvent env s p = s) := by
  have hyes : (ms0.Pod = UnknownPod ∨ ms0.Pod.Name = p.Name ∨
      ms0.Pod.StartedAt < p.CreationTimestamp) →
      handlePodEvent env s p =
        { s with ManifestStates :=
            setMs s.ManifestStates mn { ms0 with Pod := podOfEvent env p } } := by
    intro hc
    simp only [handlePodEvent, hl, if_neg hne, hk]
    rw [if_pos hc]
    rfl
  have hno : ¬ (ms0.Pod = UnknownPod ∨ ms0.Pod.Name = p.Name ∨
      ms0.Pod.StartedAt < p.CreationTimestamp) → handlePodEvent env s p = s := by
    intro hc
    simp only [handlePodEvent, hl, if_neg hne, hk]
    rw [if_neg hc]
  refine ⟨?_, hyes, hno⟩
  constructor
  · intro hp
    by_contra hc
    rw [hno hc] at hp
    simp only [podOf, hk, Option.map_some', Option.some.injEq] at hp
    apply hc
    refine Or.inr (Or.inl ?_)
    rw [hp]
    rfl
  · intro hc
    rw [hyes hc]
    simp [podOf, lookupMs_setMs]

/-- Witness of C17: the first pod event for `m1`, whose pod is `UnknownPod`,
replaces the pod. -/
theorem C17_pod_replaced_iff_witness :
    labelOf (podM1 "p1" 5).Labels plainEnv.ManifestNameLabel = "m1" ∧
    (lookupMs (reached traceBuilding).ManifestStates "m1").isSome = true ∧
    podOf (reached traceBuilding) "m1" = some UnknownPod ∧
    podOf (handlePodEvent plainEnv (reached traceBuilding) (podM1 "p1" 5)) "m1"
      = some (podOfEvent plainEnv (podM1 "p1" 5)) :=
  ⟨by decide, by decide, by decide,
    (C17_pod_replaced_iff plainEnv (reached traceBuilding) (podM1 "p1" 5) "m1"
      ((lookupMs (reached traceBuilding).ManifestStates "m1").getD (NewManifestState manifestM1))
      (by decide) (by decide) (by decide)).1.mpr (Or.inl (by decide))⟩

/-! ## C18: the order of pod events -/

/-- C18 (counterexample). For the manifest `m1` with pod `UnknownPod`, two
events for the same pod name started at 5 and at 15 leave the pod started at 15
in increasing order and the pod started at 5 in decreasing order; two events
started at the same instant for the pods `p1` and `p2` leave `p1` in one order
and `p2` in the other.  For the manifest with the empty name the events are
dropped and the pod stays `UnknownPod`.  An event whose pod has an empty name,
the zero creation time and an empty status builds the value `UnknownPod`, which
the older pod replaces in decreasing order. -/
theorem C18_pod_order_matters :
    (podOf (applyPods plainEnv (reached traceBuilding) [podM1 "p1" 5, podM1 "p1" 15]) "m1"
        = some { Name := "p1", StartedAt := 15, Status := "Running" } ∧
      podOf (applyPods plainEnv (reached traceBuilding) [podM1 "p1" 15, podM1 "p1" 5]) "m1"
        = some { Name := "p1", StartedAt := 5, Status := "Running" }) ∧
    (podOf (applyPods plainEnv (reached traceBuilding) [podM1 "p1" 5, podM1 "p2" 5]) "m1"
        = some { Name := "p1", StartedAt := 5, Status := "Running" } ∧
      podOf (applyPods plainEnv (reached traceBuilding) [podM1 "p2" 5, podM1 "p1" 5]) "m1"
        = some { Name := "p2", StartedAt := 5, Status := "Running" }) ∧
    (podOf (applyPods plainEnv (reached traceUnnamedOnly) [unlabelledPod]) ""
        = some UnknownPod ∧
      podOfEvent plainEnv unlabelledPod ≠ UnknownPod) ∧
    (podOf (applyPods noStatusEnv (reached traceBuilding) [podM1 "p0" (-3), podM1 "" 0]) "m1"
        = some UnknownPod ∧
      podOf (applyPods noStatusEnv (reached traceBuilding) [podM1 "" 0, podM1 "p0" (-3)]) "m1"
        = some { Name := "p0", StartedAt := -3, Status := "" }) := by
  decide

/-- C18 (amended). For every manifest with a non-empty name whose pod is
`UnknownPod` and every list of pod events carrying that manifest's label, with
non-empty, pairwise distinct pod names and pairwise distinct `StartedAt`:
applying the events with `handlePodEvent` in increasing order of `StartedAt`
and applying them in decreasing order yield the same final pod, which for a
non-empty list is the most recently started one. -/
theorem C18_pod_order_irrelevant (env : Env) (s : EngineState) (mn : ManifestName)
    (ms0 : ManifestState) (events : List V1Pod)
    (hne : mn ≠ "")
    (hk : lookupMs s.ManifestStates mn = some ms0) (hunk : ms0.Pod = UnknownPod)
    (hl : ∀ p ∈ events, labelOf p.Labels env.ManifestNameLabel = mn)
    (hname : ∀ p ∈ events, p.Name ≠ "")
    (hsorted : events.Pairwise
      (fun a b => a.CreationTimestamp < b.CreationTimestamp ∧ a.Name ≠ b.Name)) :
    podOf (applyPods env s events) mn = podOf (applyPods env s events.reverse) mn ∧
    ∀ last, events.getLast? = some last →
      podOf (applyPods env s events) mn = some (podOfEvent env last) := by
  rcases List.eq_nil_or_concat events with h0 | ⟨pods, last, h0⟩
  · subst h0
    simp
  · rw [List.concat_eq_append] at h0
    subst h0
    have hfwd : podOf (applyPods env s (pods ++ [last])) mn = some (podOfEvent env last) :=
      applyPods_increasing env mn hne pods last s ms0 hk hl
        (hsorted.imp (fun h => h.1)) (Or.inl hunk)
    have hrev : podOf (applyPods env s (pods ++ [last]).reverse) mn
        = some (podOfEvent env last) := by
      have hfirst : handlePodEvent env s last =
          { s with ManifestStates :=
              setMs s.ManifestStates mn { ms0 with Pod := podOfEvent env last } } :=
        handlePodEvent_replaces env s last mn ms0 (hl last (by simp)) hne hk (Or.inl hunk)
      have hp := List.pairwise_append.mp hsorted
      have hrest : applyPods env (handlePodEvent env s last) pods.reverse
          = handlePodEvent env s last := by
        rw [hfirst]
        refine applyPods_older_ignored env mn pods.reverse _
          { ms0 with Pod := podOfEvent env last } (by simp [lookupMs_setMs]) ?_ ?_ ?_
        · intro h
          have h2 : (podOfEvent env last).Name = UnknownPod.Name := by rw [← h]
          exact hname last (by simp) h2
        · intro q hq
          exact hl q (by simp [List.mem_reverse.mp hq])
        · intro q hq
          have := hp.2.2 q (List.mem_reverse.mp hq) last (by simp)
          exact ⟨this.1, this.2⟩
      simp only [List.reverse_append, List.reverse_cons, List.reverse_nil, List.nil_append,
        List.singleton_append]
      have : applyPods env s (last :: pods.reverse)
          = applyPods env (handlePodEvent env s last) pods.reverse := rfl
      rw [this, hrest, hfirst]
      simp [podOf, lookupMs_setMs]
    refine ⟨by rw [hfwd, hrev], ?_⟩
    intro l hlast
    simp at hlast
    subst hlast
    exact hfwd

/-- Witness of C18: the pods `P1`, started at 100, and `P2`, started 10 seconds
(10000 ms) later, leave `P2` in both delivery orders. -/
theorem C18_pod_order_irrelevant_witness :
    (lookupMs (reached traceBuilding).ManifestStates "m1").isSome = true ∧
    podOf (reached traceBuilding) "m1" = some UnknownPod ∧
    podOf (applyPods plainEnv (reached traceBuilding) [podM1 "P1" 100, podM1 "P2" 10100]) "m1"
      = podOf (applyPods plainEnv (reached traceBuilding)
          [podM1 "P1" 100, podM1 "P2" 10100].reverse) "m1" ∧
    podOf (applyPods plainEnv (reached traceBuilding) [podM1 "P1" 100, podM1 "P2" 10100]) "m1"
      = some (podOfEvent plainEnv (podM1 "P2" 10100)) := by
  have h := C18_pod_order_irrelevant plainEnv (reached traceBuilding) "m1"
    ((lookupMs (reached traceBuilding).ManifestStates "m1").getD (NewManifestState manifestM1))
    [podM1 "P1" 100, podM1 "P2" 10100] (by decide) (by decide) (by decide) (by decide)
    (by decide) (by decide)
  exact ⟨by decide, by decide, h.1, h.2 (podM1 "P2" 10100) rfl⟩

/-! ## C19: the log filter -/

/-- C19. For every `LogFilter` (source, manifestName, level), every value of
`logger.WarnLvl` and every log line: `Matches` returns true iff the line's
`BuildEvent` is non-empty, or all three of the following hold: (i) the filter's
`manifestName` is empty or equals the line's `ManifestName`; (ii) with `isBuild`
= the line's `SpanID` starts with `build:` or `cmdimage:`, it is not the case
that source = runtime and `isBuild`, nor that source = build and not `isBuild`;
(iii) the filter's level is less severe than warn, or the filter's level equals
the line's level. -/
theorem C19_log_filter_matches (WarnLvl : Level) (f : LogFilter) (line : LogLine) :
    (f.Matches WarnLvl line = true ↔
      (line.BuildEvent ≠ "" ∨
        ((f.manifestName = "" ∨ f.manifestName = line.ManifestName) ∧
          (¬ (f.source = FilterSourceRuntime ∧ isBuildSpanID line.SpanID = true) ∧
            ¬ (f.source = FilterSourceBuild ∧ isBuildSpanID line.SpanID = false)) ∧
          (f.level.id < WarnLvl.id ∨ f.level = line.Level)))) ∧
    (isBuildSpanID line.SpanID = true ↔
      ((∃ t : String, line.SpanID = "build:" ++ t) ∨
        (∃ t : String, line.SpanID = "cmdimage:" ++ t))) := by
  constructor
  · unfold LogFilter.Matches
    by_cases hb : line.BuildEvent ≠ ""
    · simp [hb]
    · rw [if_neg hb]
      have hb2 : line.BuildEvent = "" := by simpa using hb
      have hlevel : f.matchesLevelFilter WarnLvl line = true ↔
          (f.level.id < WarnLvl.id ∨ f.level = line.Level) := by
        unfold LogFilter.matchesLevelFilter Level.AsSevereAs
        by_cases hw : WarnLvl.id ≤ f.level.id
        · have : ¬ f.level.id < WarnLvl.id := by omega
          simp [hw, this]
        · have : f.level.id < WarnLvl.id := by omega
          simp [hw, this]
      by_cases hm : f.manifestName ≠ "" ∧ f.manifestName ≠ line.ManifestName
      · rw [if_pos hm]
        simp only [hb2, ne_eq, not_true_eq_false, false_or, Bool.false_eq_true, false_iff,
          not_and]
        intro h
        rcases h with h | h
        · exact absurd h hm.1
        · exact absurd h hm.2
      · rw [if_neg hm]
        have hm2 : f.manifestName = "" ∨ f.manifestName = line.ManifestName := by
          by_contra hc
          rw [not_or] at hc
          exact hm hc
        simp only
        by_cases h1 : f.source = FilterSourceRuntime ∧ isBuildSpanID line.SpanID = true
        · rw [if_pos h1]
          simp [hb2, h1]
        · rw [if_neg h1]
          by_cases h2 : f.source = FilterSourceBuild ∧ isBuildSpanID line.SpanID = false
          · rw [if_pos h2]
            simp only [hb2, ne_eq, not_true_eq_false, false_or, Bool.false_eq_true, false_iff]
            intro h
            exact h.2.1.2 h2
          · rw [if_neg h2, hlevel]
            constructor
            · intro h
              exact Or.inr ⟨hm2, ⟨h1, h2⟩, h⟩
            · rintro (h | h)
              · exact absurd hb2 h
              · exact h.2.2
  · unfold isBuildSpanID
    rw [Bool.or_eq_true, startsWith_iff, startsWith_iff]

/-! ## C20: the dispatch of a build -/

/-- C20. For every engine state with `CurrentlyBuilding` empty and a non-empty
`ManifestsToBuild` whose head `mn` is known, when no reload is needed or the
reload succeeds: `maybeStartBuild` returns and launches a build task;
afterwards `CurrentlyBuilding = mn`, `ManifestsToBuild` is the old queue without
its head, the `PendingFileChanges` of `mn` is empty, its
`CurrentlyBuildingFileChanges` is the old list followed by a permutation of the
old pending paths (each exactly once when the pending set lists each path
once), and the states of all other manifests are unchanged. -/
theorem C20_dispatch_snapshot (env : Env) (s : EngineState) (mn : ManifestName)
    (rest : List ManifestName) (ms0 : ManifestState)
    (hcb : s.CurrentlyBuilding = "") (hq : s.ManifestsToBuild = mn :: rest)
    (hk : lookupMs s.ManifestStates mn = some ms0)
    (hre : ms0.ConfigIsDirty = false ∨
      ∃ newManifest, getNewManifestFromTiltfile env mn = Except.ok newManifest) :
    ∃ s1 task ms1 added, maybeStartBuild env s = some (s1, some task) ∧
      s1.CurrentlyBuilding = mn ∧ s1.ManifestsToBuild = rest ∧
      lookupMs s1.ManifestStates mn = some ms1 ∧
      ms1.PendingFileChanges = [] ∧
      ms1.CurrentlyBuildingFileChanges = ms0.CurrentlyBuildingFileChanges ++ added ∧
      added.Perm ms0.PendingFileChanges ∧
      (ms0.PendingFileChanges.Nodup → added.Nodup) ∧
      ∀ k, k ≠ mn → lookupMs s1.ManifestStates k = lookupMs s.ManifestStates k := by
  obtain ⟨ms2, h1, hp, hb⟩ : ∃ ms2, reloadIfDirty env mn { ms0 with QueueEntryTime := 0 }
      = Except.ok ms2 ∧ ms2.PendingFileChanges = ms0.PendingFileChanges ∧
        ms2.CurrentlyBuildingFileChanges = ms0.CurrentlyBuildingFileChanges := by
    cases hd : ms0.ConfigIsDirty with
    | false =>
      exact ⟨{ ms0 with QueueEntryTime := 0 }, by simp [reloadIfDirty, hd], rfl, rfl⟩
    | true =>
      rcases hre with hre | ⟨m2, hre⟩
      · rw [hd] at hre
        exact Bool.noConfusion hre
      · exact ⟨{ ms0 with
            QueueEntryTime := 0
            LastBuild := BuildState.BuildStateClean
            Manifest := m2
            ConfigIsDirty := false }, by simp [reloadIfDirty, hd, hre], rfl, rfl⟩
  refine ⟨{ s with
      ManifestsToBuild := rest
      CurrentlyBuilding := mn
      ManifestStates := setMs s.ManifestStates mn (snapshotChanges env ms2) },
    { manifest := ms2.Manifest, lastBuild := ms2.LastBuild,
      filesChanged := (snapshotChanges env ms2).CurrentlyBuildingFileChanges,
      firstBuild := !ms2.HasBeenBuilt },
    snapshotChanges env ms2, env.mapOrder ms0.PendingFileChanges, ?_, rfl, rfl,
    by simp [lookupMs_setMs], rfl, ?_, env.mapOrder_perm _, ?_, ?_⟩
  · simp only [maybeStartBuild, hq, hcb, hk, h1]
    simp
  · simp [snapshotChanges, hp, hb]
  · intro hnd
    exact ((env.mapOrder_perm ms0.PendingFileChanges).nodup_iff).mpr hnd
  · intro k hne
    simp only [lookupMs_setMs]
    rw [if_neg (fun h => hne h.symm)]

/-- Witness of C20: `main.go` was edited before the first build of `m1`; the
dispatcher starts the build with `main.go` moved from the pending set to the
list being built. -/
theorem C20_dispatch_snapshot_witness :
    (reached [initM1 true, (plainEnv, Step.fs editM1)]).CurrentlyBuilding = "" ∧
    (reached [initM1 true, (plainEnv, Step.fs editM1)]).ManifestsToBuild = "m1" :: [] ∧
    configDirtyOf (reached [initM1 true, (plainEnv, Step.fs editM1)]) "m1" = some false ∧
    ∃ s1 task ms1, maybeStartBuild plainEnv (reached [initM1 true, (plainEnv, Step.fs editM1)])
        = some (s1, some task) ∧
      s1.CurrentlyBuilding = "m1" ∧ s1.ManifestsToBuild = [] ∧
      lookupMs s1.ManifestStates "m1" = some ms1 ∧ ms1.PendingFileChanges = [] := by
  obtain ⟨s1, task, ms1, added, h1, h2, h3, h4, h5, _⟩ :=
    C20_dispatch_snapshot plainEnv (reached [initM1 true, (plainEnv, Step.fs editM1)]) "m1" []
      ((lookupMs (reached [initM1 true, (plainEnv, Step.fs editM1)]).ManifestStates "m1").getD
        (NewManifestState manifestM1))
      (by decide) (by decide) (by decide) (Or.inl (by decide))
  exact ⟨by decide, by decide, by decide, s1, task, ms1, h1, h2, h3, h4, h5⟩

/-! ## C21: the lookups in `ManifestStates` -/

/-- C21. In every engine state reachable from the empty state by reducer steps
(an `InitAction`, then any sequence of steps) in which every fs event names an
initialised manifest and every `BuildCompleteAction` is delivered by a launched
build task, one per task: no step panics; every name in `ManifestsToBuild` is a
key of `ManifestStates`; whenever a `BuildCompleteAction` can be consumed,
`CurrentlyBuilding` is a key of `ManifestStates`; hence the lookups
`ManifestStates[mn]` of `maybeStartBuild`, of `handleFSEvent` for an initialised
manifest and of `handleCompletedBuild` find their entry: the three functions
return. -/
theorem C21_lookups_never_miss (u : Upper) (trace : List (Env × Step))
    (hal : allowedTrace u { st := emptyState, inFlight := 0 } trace = true) :
    ∃ σ, sysRun u { st := emptyState, inFlight := 0 } trace = some σ ∧
      (∀ q ∈ σ.st.ManifestsToBuild, isKey σ.st q = true) ∧
      (σ.inFlight ≠ 0 → isKey σ.st σ.st.CurrentlyBuilding = true) ∧
      ∀ env : Env,
        (maybeStartBuild env σ.st).isSome = true ∧
        (∀ e : manifestFilesChangedAction, isKey σ.st e.manifestName = true →
          (handleFSEvent env σ.st e).isSome = true) ∧
        (σ.inFlight ≠ 0 → ∀ cb : BuildCompleteAction,
          (handleCompletedBuild env σ.st cb).isSome = true) := by
  have h0 : KnownNames { st := emptyState, inFlight := 0 } := by
    refine ⟨?_, fun hne => absurd rfl hne, Or.inr ?_⟩
    · intro q hq
      simp [emptyState] at hq
    · simp [emptyState]
  obtain ⟨σ, hrun, hq, hcb, hfl⟩ := knownNames_run u trace _ h0 hal
  have hkey : σ.inFlight ≠ 0 → isKey σ.st σ.st.CurrentlyBuilding = true := by
    intro hin
    by_cases hc : σ.st.CurrentlyBuilding = ""
    · rw [hc] at hfl ⊢
      simp only [if_true] at hfl
      rcases hfl with h | h
      · exact h
      · omega
    · exact hcb hc
  refine ⟨σ, hrun, hq, hkey, ?_⟩
  intro env
  refine ⟨?_, ?_, ?_⟩
  · obtain ⟨s1, task, h⟩ := maybeStartBuild_returns env σ.st hq
    rw [h]
    rfl
  · intro e hk
    obtain ⟨s1, h⟩ := handleFSEvent_returns env σ.st e hk
    rw [h]
    rfl
  · intro hin cb
    obtain ⟨ms0, hms0⟩ := Option.isSome_iff_exists.mp (hkey hin)
    obtain ⟨s1, r, h⟩ := handleCompletedBuild_returns env σ.st cb ms0 hms0
    rw [h]
    rfl

/-- Witness of C21: an unnamed manifest and `a` are initialised, both builds
are started, `a` is edited, both builds complete and `a` is built again; no
step panics, and the queue holds only known names. -/
theorem C21_lookups_never_miss_witness :
    allowedTrace offUpper { st := emptyState, inFlight := 0 } traceUnnamedBuilt = true ∧
    ∃ σ, sysRun offUpper { st := emptyState, inFlight := 0 } traceUnnamedBuilt = some σ ∧
      (∀ q ∈ σ.st.ManifestsToBuild, isKey σ.st q = true) ∧
      (σ.inFlight ≠ 0 → isKey σ.st σ.st.CurrentlyBuilding = true) := by
  obtain ⟨σ, h1, h2, h3, _⟩ := C21_lookups_never_miss offUpper traceUnnamedBuilt (by decide)
  exact ⟨by decide, σ, h1, h2, h3⟩

end Tilt
